import Mathlib

/-!
# Methane Kit: program bindings and resource state transitions

A shallow embedding of `Methane/Graphics/Base/ProgramBindings.cpp`, of the DirectX
argument binding (`Methane/Graphics/DirectX/ProgramArgumentBinding.cpp`), of the
cached matrices of `Methane/Graphics/Camera.cpp` and of the text heights of
`Methane/UserInterface/HeadsUpDisplay.cpp`.

Objects that the C++ code reaches through shared pointers live in a `World`:
resources (whose state and owner queue family are mutated by `SetState` and
`SetOwnerQueueFamily`), argument-binding objects and programs.  A pointer is an
address into the corresponding store.  Unordered maps and sets are lists that are
walked front to back; an `std::array` indexed by the accessor index is a function
of the access type.  A program bindings instance is a value that the functions
take and return; where the identity of an instance matters, for the receivers that
`Initialize` connects to the change notification of the binding objects, the
instances live at addresses in `Instances`.

Instrumentation (`META_FUNCTION_TASK`), object names, the descriptor manager and
the root-constant-buffer event connections carry no state that the functions
below read, and are left out.  The null checks on `Ptr<ArgumentBinding>` and
`Ptr<Resource>` assert that map entries and bucket entries are never null; the
model makes these pointers non-null by type.  When an exception propagates, the
partially updated state is not returned, except by the functions of the DirectX
binding, whose result holds the binding and the descriptor heap as the call leaves
them.  Unsigned 32-bit arithmetic is written with `% 2 ^ 32`; the math library of
the camera is a parameter.
-/

namespace Methane

/-! ## Enumerations -/

/-- Modelled from the spec: `Rhi::IResource::Type`, the three resource types the
spec lists (Buffer, Texture, Sampler); the header is not among the sources. -/
inductive ResourceType where
  | Buffer
  | Texture
  | Sampler
  deriving DecidableEq, Repr

/-- Modelled from the spec: `Rhi::ResourceState`; the states are the ones that the
sources and the spec name. -/
inductive ResourceState where
  | Undefined
  | Common
  | GenericRead
  | ConstantBuffer
  | RenderTarget
  | UnorderedAccess
  | DepthWrite
  | DepthRead
  | ShaderResource
  | CopyDest
  | Present
  deriving DecidableEq, Repr

/-- Modelled from the spec: `Rhi::ResourceUsage`, the bits of a usage mask. -/
inductive ResourceUsage where
  | ShaderRead
  | ShaderWrite
  | RenderTarget
  | Addressable
  deriving DecidableEq, Repr

/-- Modelled from the spec: `Rhi::IBuffer::StorageMode`; a buffer is privately
stored or not (host-visible, managed). -/
inductive StorageMode where
  | Managed
  | Private
  deriving DecidableEq, Repr

/-- Modelled from the spec: `Rhi::ITexture::Type`; only `DepthStencil` is singled
out by the code. -/
inductive TextureType where
  | Image
  | RenderTarget
  | FrameBuffer
  | DepthStencil
  deriving DecidableEq, Repr

/-- Modelled from the spec: `Rhi::ShaderType`, the shader stage of an argument. -/
inductive ShaderType where
  | All
  | Vertex
  | Pixel
  | Compute
  deriving DecidableEq, Repr

/-- Modelled from the spec: `Rhi::ProgramArgumentAccessType`, the accessor category
that selects the transition bucket, in enumeration order. -/
inductive ProgramArgumentAccessType where
  | Constant
  | FrameConstant
  | Mutable
  deriving DecidableEq, Repr

/-- Modelled from the spec: `Rhi::ProgramArgumentValueType`, resource views or one
of the two root-constant representations. -/
inductive ProgramArgumentValueType where
  | ResourceView
  | RootConstantBuffer
  | RootConstantValue
  deriving DecidableEq, Repr

/-- Modelled from the spec: `Data::EnumMask<E>`, represented by the list of the
bits that are set. -/
abbrev EnumMask (E : Type) := List E

/-- Test of one bit of a mask (`EnumMask::HasBit`). -/
def EnumMask.HasBit {E : Type} [DecidableEq E] (mask : EnumMask E) (bit : E) : Bool :=
  decide (bit ∈ mask)

/-- Every access type, in enumeration order (`magic_enum::enum_values`). -/
def ProgramArgumentAccessType.values : List ProgramArgumentAccessType :=
  [.Constant, .FrameConstant, .Mutable]

/-- Position of an access type in the enumeration (`magic_enum::enum_index`). -/
def ProgramArgumentAccessType.enum_index : ProgramArgumentAccessType → Nat
  | .Constant => 0
  | .FrameConstant => 1
  | .Mutable => 2

/-! ## Resources -/

/-- Address of a resource object. -/
abbrev ResourcePtr := Nat

/-- Address of an argument-binding object. -/
abbrev BindingPtr := Nat

/-- Address of a program object. -/
abbrev ProgramPtr := Nat

/-- The fields of `Rhi::BufferSettings` that the bindings read. -/
structure BufferSettings where
  usage_mask : EnumMask ResourceUsage
  storage_mode : StorageMode
  deriving DecidableEq, Repr

/-- The fields of `Rhi::TextureSettings` that the bindings read. -/
structure TextureSettings where
  type : TextureType
  usage_mask : EnumMask ResourceUsage
  deriving DecidableEq, Repr

/-- The dynamic class of a resource object together with its settings. -/
inductive ResourceObject where
  | Buffer (settings : BufferSettings)
  | Texture (settings : TextureSettings)
  | Sampler
  deriving DecidableEq, Repr

/-- A resource object: its class and settings (fixed at creation), its current
state and its owner queue family. -/
structure Resource where
  object : ResourceObject
  m_state : ResourceState
  m_owner_queue_family_index_opt : Option Nat
  deriving DecidableEq, Repr

/-- Resource type reported by the object (`IResource::GetResourceType`). -/
def Resource.GetResourceType (resource : Resource) : ResourceType :=
  match resource.object with
  | .Buffer _ => .Buffer
  | .Texture _ => .Texture
  | .Sampler => .Sampler

/-- Current state of the resource (`IResource::GetState`). -/
def Resource.GetState (resource : Resource) : ResourceState :=
  resource.m_state

/-! ## Program arguments and bindings -/

/-- A program argument: shader stage and name. -/
structure ProgramArgument where
  shader_type : ShaderType
  name : String
  deriving DecidableEq, Repr

/-- A program argument accessor: the argument with its access and value types. -/
structure ProgramArgumentAccessor where
  argument : ProgramArgument
  accessor_type : ProgramArgumentAccessType
  value_type : ProgramArgumentValueType
  deriving DecidableEq, Repr

/-- Access type of the accessor (`GetAccessorType`). -/
def ProgramArgumentAccessor.GetAccessorType (a : ProgramArgumentAccessor) : ProgramArgumentAccessType :=
  a.accessor_type

/-- Index of the transition bucket of the accessor (`GetAccessorIndex`); buckets
are keyed by the access type whose enumeration index this is. -/
def ProgramArgumentAccessor.GetAccessorIndex (a : ProgramArgumentAccessor) : ProgramArgumentAccessType :=
  a.accessor_type

/-- Whether the accessor is of Constant access type (`IsConstant`). -/
def ProgramArgumentAccessor.IsConstant (a : ProgramArgumentAccessor) : Bool :=
  decide (a.accessor_type = .Constant)

/-- Whether the value is a root constant buffer (`IsRootConstantBuffer`). -/
def ProgramArgumentAccessor.IsRootConstantBuffer (a : ProgramArgumentAccessor) : Bool :=
  decide (a.value_type = .RootConstantBuffer)

/-- Whether the value is an inline root constant (`IsRootConstantValue`). -/
def ProgramArgumentAccessor.IsRootConstantValue (a : ProgramArgumentAccessor) : Bool :=
  decide (a.value_type = .RootConstantValue)

/-- Whether the argument is of RootConstant kind (`IsRootConstant`). -/
def ProgramArgumentAccessor.IsRootConstant (a : ProgramArgumentAccessor) : Bool :=
  a.IsRootConstantBuffer || a.IsRootConstantValue

/-- Modelled from the spec: `Rhi::ResourceView`, a reference to a resource with the
sub-range it covers. -/
structure ResourceView where
  m_resource_ptr : ResourcePtr
  offset : Nat
  size : Nat
  deriving DecidableEq, Repr

/-- Pointer to the viewed resource (`GetResourcePtr`). -/
def ResourceView.GetResourcePtr (view : ResourceView) : ResourcePtr :=
  view.m_resource_ptr

/-- A list of resource views (`Rhi::ResourceViews`). -/
abbrev ResourceViews := List ResourceView

/-- A root constant: a chunk of bytes (`Rhi::RootConstant` over `Data::Chunk`). -/
structure RootConstant where
  data : List Nat
  deriving DecidableEq, Repr

/-- Whether the chunk holds no data (`Data::Chunk::IsEmptyOrNull`). -/
def RootConstant.IsEmptyOrNull (value : RootConstant) : Bool :=
  value.data.isEmpty

/-- Settings of an argument binding (`IProgramArgumentBinding::Settings`). -/
structure ProgramArgumentBindingSettings where
  argument : ProgramArgumentAccessor
  resource_type : ResourceType
  resource_count : Nat
  deriving DecidableEq, Repr

/-- An argument-binding object (`Base::ProgramArgumentBinding`). -/
structure ArgumentBinding where
  m_settings : ProgramArgumentBindingSettings
  m_resource_views : ResourceViews
  m_root_constant : RootConstant
  m_emit_callback_enabled : Bool
  deriving DecidableEq, Repr

/-- Settings of the binding (`GetSettings`). -/
def ArgumentBinding.GetSettings (binding : ArgumentBinding) : ProgramArgumentBindingSettings :=
  binding.m_settings

/-- Resource views currently bound (`GetResourceViews`). -/
def ArgumentBinding.GetResourceViews (binding : ArgumentBinding) : ResourceViews :=
  binding.m_resource_views

/-- Root constant currently bound (`GetRootConstant`). -/
def ArgumentBinding.GetRootConstant (binding : ArgumentBinding) : RootConstant :=
  binding.m_root_constant

/-- Switch of the change notification (`SetEmitCallbackEnabled`). -/
def ArgumentBinding.SetEmitCallbackEnabled (binding : ArgumentBinding) (enabled : Bool) : ArgumentBinding :=
  { binding with m_emit_callback_enabled := enabled }

/-- Modelled from the spec: `Base::ProgramArgumentBinding::SetResourceViews`
replaces the bound resource views of the argument (section 4.1); its source file is
not among the sources.  The change notification it emits is the separate function
`OnProgramArgumentBindingResourceViewsChanged`. -/
def ArgumentBinding.SetResourceViews (binding : ArgumentBinding) (views : ResourceViews) : ArgumentBinding :=
  { binding with m_resource_views := views }

/-- Modelled from the spec: `Base::ProgramArgumentBinding::SetResourceView` binds a
single resource view (section 4.1). -/
def ArgumentBinding.SetResourceView (binding : ArgumentBinding) (view : ResourceView) : ArgumentBinding :=
  binding.SetResourceViews [view]

/-- Modelled from the spec: `Base::ProgramArgumentBinding::SetRootConstant` replaces
the bound root constant (section 4.1). -/
def ArgumentBinding.SetRootConstant (binding : ArgumentBinding) (value : RootConstant) : ArgumentBinding :=
  { binding with m_root_constant := value }

/-- A binding value (`Rhi::ProgramBindingValue`, a variant). -/
inductive BindingValue where
  | RootConstant (value : RootConstant)
  | ResourceView (value : ResourceView)
  | ResourceViews (value : ResourceViews)
  deriving DecidableEq, Repr

/-- Map from argument to binding value (`BindingValueByArgument`). -/
abbrev BindingValueByArgument := List (ProgramArgument × BindingValue)

/-- Map from argument to argument-binding pointer (`ArgumentBindings`). -/
abbrev ArgumentBindings := List (ProgramArgument × BindingPtr)

/-- Set of program arguments (`Rhi::ProgramArguments`). -/
abbrev ProgramArguments := List ProgramArgument

/-- Errors raised by the program bindings. -/
inductive Error where
  | ProgramArgumentNotFound (program : ProgramPtr) (argument : ProgramArgument)
  | UnboundArguments (program : ProgramPtr) (unbound_arguments : ProgramArguments)
  | BadCast
  deriving DecidableEq, Repr

/-! ## Target state of a bound resource -/

/-- Target state of a resource bound to an argument (`GetBoundResourceTargetState`).
The two `dynamic_cast`s to a reference throw `std::bad_cast` when the object is not
of the class that `resource_type` announces. -/
def GetBoundResourceTargetState (resource : Resource) (resource_type : ResourceType)
    (is_constant_binding : Bool) : Except Error ResourceState :=
  match resource_type with
  | .Buffer =>
    match resource.object with
    | .Buffer buffer_settings =>
      if buffer_settings.usage_mask.HasBit ResourceUsage.ShaderWrite then
        .ok ResourceState.UnorderedAccess
      else if buffer_settings.storage_mode ≠ StorageMode.Private then
        .ok resource.GetState
      else if is_constant_binding then
        .ok ResourceState.ConstantBuffer
      else
        .ok ResourceState.ShaderResource
    | _ => .error Error.BadCast
  | .Texture =>
    match resource.object with
    | .Texture texture_settings =>
      if texture_settings.usage_mask.HasBit ResourceUsage.ShaderWrite then
        .ok ResourceState.UnorderedAccess
      else if texture_settings.usage_mask.HasBit ResourceUsage.ShaderRead
          && decide (texture_settings.type = TextureType.DepthStencil) then
        .ok ResourceState.DepthRead
      else
        .ok ResourceState.ShaderResource
    | _ => .error Error.BadCast
  | .Sampler => .ok ResourceState.ShaderResource

/-! ## Unordered containers -/

/-- Lookup in an unordered map (`find`). -/
def MapFind {K V : Type} [DecidableEq K] (key : K) : List (K × V) → Option V
  | [] => none
  | (k, v) :: rest => if k = key then some v else MapFind key rest

/-- Membership of a key in an unordered map (`contains`). -/
def MapContains {K V : Type} [DecidableEq K] (key : K) (map : List (K × V)) : Bool :=
  (MapFind key map).isSome

/-- Insertion that keeps an existing entry (`try_emplace`). -/
def MapTryEmplace {K V : Type} [DecidableEq K] (map : List (K × V)) (key : K) (value : V) :
    List (K × V) :=
  if MapContains key map then map else map ++ [(key, value)]

/-- Insertion into an unordered set (`insert`). -/
def SetInsert {K : Type} [DecidableEq K] (set : List K) (key : K) : List K :=
  if key ∈ set then set else set ++ [key]

/-- Insertion into an ordered `std::set` of addresses (`emplace`). -/
def StdSetEmplace (x : Nat) : List Nat → List Nat
  | [] => [x]
  | y :: ys => if x < y then x :: y :: ys else if x = y then y :: ys else y :: StdSetEmplace x ys

/-! ## Resource barriers and resource state -/

/-- Modelled from the spec: one pending transition of a barrier set, a state
transition (resource, before, after) or an ownership transfer between queue
families (section 3 and 4.3). -/
inductive ResourceBarrier where
  | StateTransition (resource : ResourcePtr) (before after : ResourceState)
  | OwnerTransition (resource : ResourcePtr) (before : Option Nat) (after : Nat)
  deriving DecidableEq, Repr

/-- Modelled from the spec: the resource barrier set (`Rhi::IResourceBarriers`), an
ordered collection deduplicated by resource identity (section 3). -/
abbrev ResourceBarriers := List ResourceBarrier

/-- Whether the barrier is the state transition of the given resource. -/
def ResourceBarrier.IsStateTransitionOf (resource : ResourcePtr) : ResourceBarrier → Bool
  | .StateTransition r _ _ => decide (r = resource)
  | .OwnerTransition _ _ _ => false

/-- Whether the barrier is the ownership transfer of the given resource. -/
def ResourceBarrier.IsOwnerTransitionOf (resource : ResourcePtr) : ResourceBarrier → Bool
  | .StateTransition _ _ _ => false
  | .OwnerTransition r _ _ => decide (r = resource)

/-- Modelled from the spec: `IResourceBarriers::RemoveStateTransition` drops the
state transition recorded for the resource. -/
def ResourceBarriers.RemoveStateTransition (barriers : ResourceBarriers) (resource : ResourcePtr) :
    ResourceBarriers :=
  barriers.filter (fun barrier => !barrier.IsStateTransitionOf resource)

/-- Modelled from the spec: a state transition is recorded once per resource, the
newest replacing an older one. -/
def ResourceBarriers.AddStateTransition (barriers : ResourceBarriers) (resource : ResourcePtr)
    (before after : ResourceState) : ResourceBarriers :=
  barriers.RemoveStateTransition resource ++ [ResourceBarrier.StateTransition resource before after]

/-- Modelled from the spec: an ownership transfer is recorded once per resource, the
newest replacing an older one. -/
def ResourceBarriers.AddOwnerTransition (barriers : ResourceBarriers) (resource : ResourcePtr)
    (before : Option Nat) (after : Nat) : ResourceBarriers :=
  barriers.filter (fun barrier => !barrier.IsOwnerTransitionOf resource)
    ++ [ResourceBarrier.OwnerTransition resource before after]

/-- A command queue, of which the bindings read the family index. -/
structure CommandQueue where
  family_index : Nat
  deriving DecidableEq, Repr

/-- Family index of the queue (`ICommandQueue::GetFamilyIndex`). -/
def CommandQueue.GetFamilyIndex (queue : CommandQueue) : Nat :=
  queue.family_index

/-- A program object: the argument bindings it declares and the count of live
program bindings. -/
structure Program where
  m_argument_bindings : ArgumentBindings
  m_bindings_count : Nat
  deriving DecidableEq, Repr

/-- Argument bindings declared by the program (`Program::GetArgumentBindings`). -/
def Program.GetArgumentBindings (program : Program) : ArgumentBindings :=
  program.m_argument_bindings

/-- The object stores: what the shared pointers of the C++ code point to.
`bindings_end` is the first address at which no binding object has been created. -/
structure World where
  resources : ResourcePtr → Resource
  bindings : BindingPtr → ArgumentBinding
  bindings_end : Nat
  programs : ProgramPtr → Program

/-- Store with one resource object replaced. -/
def World.SetResource (w : World) (resource_ptr : ResourcePtr) (resource : Resource) : World :=
  { w with resources := fun p => if p = resource_ptr then resource else w.resources p }

/-- Store with one binding object replaced. -/
def World.SetBinding (w : World) (binding_ptr : BindingPtr) (binding : ArgumentBinding) : World :=
  { w with bindings := fun p => if p = binding_ptr then binding else w.bindings p }

/-- Store with one program object replaced. -/
def World.SetProgram (w : World) (program_ptr : ProgramPtr) (program : Program) : World :=
  { w with programs := fun p => if p = program_ptr then program else w.programs p }

/-- Modelled from the spec: `Resource::SetState` is a no-op returning false when the
new state is the current one; otherwise it records a (before, after) barrier in the
barrier set, creating the set if absent, and updates the current state
(section 4.3).  Its source file is not among the sources. -/
def SetState (w : World) (resource_ptr : ResourcePtr) (new_state : ResourceState)
    (barriers : Option ResourceBarriers) : Bool × World × Option ResourceBarriers :=
  let resource := w.resources resource_ptr
  if resource.m_state = new_state then
    (false, w, barriers)
  else
    (true, w.SetResource resource_ptr { resource with m_state := new_state },
      some ((barriers.getD []).AddStateTransition resource_ptr resource.m_state new_state))

/-- Modelled from the spec: `Resource::SetOwnerQueueFamily` is a no-op when the
resource is already owned by that family; otherwise it records an ownership-transfer
barrier and updates the ownership (section 4.3). -/
def SetOwnerQueueFamily (w : World) (resource_ptr : ResourcePtr) (family_index : Nat)
    (barriers : Option ResourceBarriers) : Bool × World × Option ResourceBarriers :=
  let resource := w.resources resource_ptr
  if resource.m_owner_queue_family_index_opt = some family_index then
    (false, w, barriers)
  else
    (true, w.SetResource resource_ptr { resource with m_owner_queue_family_index_opt := some family_index },
      some ((barriers.getD []).AddOwnerTransition resource_ptr
        resource.m_owner_queue_family_index_opt family_index))

/-! ## Program bindings -/

/-- A resource with the state it has to be in (`ProgramBindings::ResourceAndState`). -/
structure ResourceAndState where
  resource_ptr : ResourcePtr
  state : ResourceState
  deriving DecidableEq, Repr

/-- One transition bucket (`ResourceStates`). -/
abbrev ResourceStates := List ResourceAndState

/-- The program bindings object (`Base::ProgramBindings`). -/
structure ProgramBindings where
  m_program_ptr : ProgramPtr
  m_frame_index : Nat
  m_arguments : ProgramArguments
  m_binding_by_argument : ArgumentBindings
  m_transition_resource_states_by_access : ProgramArgumentAccessType → ResourceStates
  m_resource_refs_by_access : ProgramArgumentAccessType → List ResourcePtr
  m_resource_state_transition_barriers_ptr : Option ResourceBarriers
  m_bindings_index : Nat

/-- The argument bindings of the instance (`GetArgumentBindings`). -/
def ProgramBindings.GetArgumentBindings (pb : ProgramBindings) : ArgumentBindings :=
  pb.m_binding_by_argument

/-- Bucket array with the bucket at one index replaced. -/
def SetBucket (buckets : ProgramArgumentAccessType → ResourceStates)
    (index : ProgramArgumentAccessType) (bucket : ResourceStates) :
    ProgramArgumentAccessType → ResourceStates :=
  fun i => if i = index then bucket else buckets i

/-- Modelled from the spec: `Program::GetBindingsCountAndIncrement` returns the
count of live bindings of the program and increments it. -/
def GetBindingsCountAndIncrement (w : World) (program_ptr : ProgramPtr) : Nat × World :=
  let program := w.programs program_ptr
  (program.m_bindings_count,
    w.SetProgram program_ptr { program with m_bindings_count := program.m_bindings_count + 1 })

/-- Modelled from the spec: `Program::CreateArgumentBindingInstance` instantiates a
fresh backend binding object from the settings and value of the given one
(section 3: copy-construction "instantiates fresh backend binding objects so that
each Program Bindings instance owns independent descriptor state"; section 6: "a
factory to instantiate a backend-specific Argument Binding given prior settings").
Its source file is not among the sources. -/
def CreateArgumentBindingInstance (w : World) (argument_binding_ptr : BindingPtr)
    (_frame_index : Nat) : BindingPtr × World :=
  (w.bindings_end,
    { w.SetBinding w.bindings_end (w.bindings argument_binding_ptr) with
      bindings_end := w.bindings_end + 1 })

/-- The loop of `InitializeArgumentBindings` over the source argument bindings. -/
def InitializeArgumentBindingsLoop :
    ArgumentBindings → ProgramBindings × World → ProgramBindings × World
  | [], state => state
  | (program_argument, argument_binding_ptr) :: rest, (pb, w) =>
    let pb1 := { pb with m_arguments := SetInsert pb.m_arguments program_argument }
    if MapContains program_argument pb1.m_binding_by_argument then
      InitializeArgumentBindingsLoop rest (pb1, w)
    else
      let created := CreateArgumentBindingInstance w argument_binding_ptr pb1.m_frame_index
      InitializeArgumentBindingsLoop rest
        ({ pb1 with m_binding_by_argument :=
            MapTryEmplace pb1.m_binding_by_argument program_argument created.1 }, created.2)

/-- Creation of one binding object per argument of the program, or of the other
program bindings when given (`InitializeArgumentBindings`). -/
def InitializeArgumentBindings (w : World) (pb : ProgramBindings)
    (other_program_bindings_ptr : Option ProgramBindings) : ProgramBindings × World :=
  let argument_bindings :=
    match other_program_bindings_ptr with
    | some other => other.GetArgumentBindings
    | none => (w.programs pb.m_program_ptr).GetArgumentBindings
  InitializeArgumentBindingsLoop argument_bindings (pb, w)

/-- Binding of an argument (`Get`); the result is the address of the binding object. -/
def Get (pb : ProgramBindings) (shader_argument : ProgramArgument) : Except Error BindingPtr :=
  match MapFind shader_argument pb.m_binding_by_argument with
  | none => .error (Error.ProgramArgumentNotFound pb.m_program_ptr shader_argument)
  | some binding_ptr => .ok binding_ptr

/-- Arguments that are not root constants and have no resource view
(`GetUnboundArguments`). -/
def GetUnboundArgumentsLoop (w : World) : ArgumentBindings → ProgramArguments → ProgramArguments
  | [], unbound_arguments => unbound_arguments
  | (program_argument, argument_binding_ptr) :: rest, unbound_arguments =>
    if !(w.bindings argument_binding_ptr).GetSettings.argument.IsRootConstant
        && (w.bindings argument_binding_ptr).GetResourceViews.isEmpty then
      GetUnboundArgumentsLoop w rest (SetInsert unbound_arguments program_argument)
    else
      GetUnboundArgumentsLoop w rest unbound_arguments

/-- The set of unbound arguments (`GetUnboundArguments`). -/
def GetUnboundArguments (w : World) (pb : ProgramBindings) : ProgramArguments :=
  GetUnboundArgumentsLoop w pb.m_binding_by_argument []

/-- Check that no argument is unbound (`VerifyAllArgumentsAreBoundToResources`). -/
def VerifyAllArgumentsAreBoundToResources (w : World) (pb : ProgramBindings) : Except Error Unit :=
  let unbound_arguments := GetUnboundArguments w pb
  if !unbound_arguments.isEmpty then
    .error (Error.UnboundArguments pb.m_program_ptr unbound_arguments)
  else
    .ok ()

/-- Emptying of every transition bucket (`ClearTransitionResourceStates`). -/
def ClearTransitionResourceStates (pb : ProgramBindings) : ProgramBindings :=
  { pb with m_transition_resource_states_by_access := fun _ => [] }

/-- Removal of the first bucket entry of a resource
(`RemoveTransitionResourceStates`). -/
def RemoveTransitionResourceStates (w : World) (pb : ProgramBindings)
    (argument_binding : ArgumentBinding) (resource_ptr : ResourcePtr) : ProgramBindings :=
  if (w.resources resource_ptr).GetResourceType = ResourceType.Sampler then
    pb
  else
    let argument_binding_settings := argument_binding.GetSettings
    let index := argument_binding_settings.argument.GetAccessorIndex
    let transition_resource_states := pb.m_transition_resource_states_by_access index
    let erased := transition_resource_states.eraseP
      (fun resource_state => decide (resource_state.resource_ptr = resource_ptr))
    { pb with m_transition_resource_states_by_access :=
                SetBucket pb.m_transition_resource_states_by_access index erased }

/-- Appending of the bucket entry of one resource (`AddTransitionResourceState`). -/
def AddTransitionResourceState (w : World) (pb : ProgramBindings)
    (argument_binding : ArgumentBinding) (resource_ptr : ResourcePtr) : Except Error ProgramBindings :=
  if (w.resources resource_ptr).GetResourceType = ResourceType.Sampler then
    .ok pb
  else
    let argument_binding_settings := argument_binding.GetSettings
    match GetBoundResourceTargetState (w.resources resource_ptr)
        argument_binding_settings.resource_type argument_binding_settings.argument.IsConstant with
    | .error e => .error e
    | .ok target_resource_state =>
      let index := argument_binding_settings.argument.GetAccessorIndex
      let appended := pb.m_transition_resource_states_by_access index
        ++ [ResourceAndState.mk resource_ptr target_resource_state]
      .ok { pb with m_transition_resource_states_by_access :=
                      SetBucket pb.m_transition_resource_states_by_access index appended }

/-- The loop of `AddTransitionResourceStates` over the views of the binding; a view
always refers to a resource, so the null test of the source never skips. -/
def AddTransitionResourceStatesLoop (w : World) (argument_binding_settings : ProgramArgumentBindingSettings) :
    ResourceViews → ResourceStates → Except Error ResourceStates
  | [], transition_resource_states => .ok transition_resource_states
  | resource_view :: rest, transition_resource_states =>
    let resource := w.resources resource_view.GetResourcePtr
    if resource.GetResourceType = ResourceType.Sampler then
      AddTransitionResourceStatesLoop w argument_binding_settings rest transition_resource_states
    else
      match GetBoundResourceTargetState resource argument_binding_settings.resource_type
          argument_binding_settings.argument.IsConstant with
      | .error e => .error e
      | .ok target_resource_state =>
        AddTransitionResourceStatesLoop w argument_binding_settings rest
          (transition_resource_states
            ++ [ResourceAndState.mk resource_view.GetResourcePtr target_resource_state])

/-- Appending of the bucket entries of every view of a binding
(`AddTransitionResourceStates`). -/
def AddTransitionResourceStates (w : World) (pb : ProgramBindings)
    (argument_binding : ArgumentBinding) : Except Error ProgramBindings :=
  let argument_binding_settings := argument_binding.GetSettings
  let index := argument_binding_settings.argument.GetAccessorIndex
  match AddTransitionResourceStatesLoop w argument_binding_settings
      argument_binding.GetResourceViews (pb.m_transition_resource_states_by_access index) with
  | .error e => .error e
  | .ok transition_resource_states =>
    .ok { pb with m_transition_resource_states_by_access :=
                    SetBucket pb.m_transition_resource_states_by_access index transition_resource_states }

/-- Collection of the resources of the views of one binding into the ordered set of
its access type (inner loop of `InitResourceRefsByAccess`). -/
def UniqueResourcesOfViews : ResourceViews → List ResourcePtr → List ResourcePtr
  | [], unique_resources => unique_resources
  | resource_view :: rest, unique_resources =>
    UniqueResourcesOfViews rest (StdSetEmplace resource_view.GetResourcePtr unique_resources)

/-- Collection of the unique resources by access type (first loop of
`InitResourceRefsByAccess`). -/
def UniqueResourcesByAccess (w : World) :
    ArgumentBindings → (ProgramArgumentAccessType → List ResourcePtr) →
      (ProgramArgumentAccessType → List ResourcePtr)
  | [], unique_resources_by_access => unique_resources_by_access
  | (_, argument_binding_ptr) :: rest, unique_resources_by_access =>
    let accessor_index := (w.bindings argument_binding_ptr).GetSettings.argument.GetAccessorIndex
    let unique_resources := UniqueResourcesOfViews (w.bindings argument_binding_ptr).GetResourceViews
      (unique_resources_by_access accessor_index)
    UniqueResourcesByAccess w rest
      (fun i => if i = accessor_index then unique_resources else unique_resources_by_access i)

/-- Rebuild of the resource references of every access type
(`InitResourceRefsByAccess`). -/
def InitResourceRefsByAccess (w : World) (pb : ProgramBindings) : ProgramBindings :=
  { pb with m_resource_refs_by_access := UniqueResourcesByAccess w pb.GetArgumentBindings (fun _ => []) }

/-- Resources referenced through the arguments of an access type
(`GetResourceRefsByAccess`). -/
def GetResourceRefsByAccess (pb : ProgramBindings) (access_type : ProgramArgumentAccessType) :
    List ResourcePtr :=
  pb.m_resource_refs_by_access access_type

/-- The visitor of `SetResourcesForArguments`: the binding value is applied to the
binding object according to its alternative. -/
def ApplyBindingValue (argument_binding : ArgumentBinding) (binding_value : BindingValue) :
    ArgumentBinding :=
  match binding_value with
  | .RootConstant value =>
    if !value.IsEmptyOrNull then argument_binding.SetRootConstant value else argument_binding
  | .ResourceView value => argument_binding.SetResourceView value
  | .ResourceViews value => argument_binding.SetResourceViews value

/-- The loop of `SetResourcesForArguments` over the binding values. -/
def SetResourcesForArgumentsLoop :
    BindingValueByArgument → ProgramBindings × World → Except Error (ProgramBindings × World)
  | [], state => .ok state
  | (program_argument, binding_value) :: rest, (pb, w) =>
    match Get pb program_argument with
    | .error e => .error e
    | .ok binding_ptr =>
      let argument_binding :=
        ((ApplyBindingValue ((w.bindings binding_ptr).SetEmitCallbackEnabled false)
          binding_value).SetEmitCallbackEnabled true)
      let w1 := w.SetBinding binding_ptr argument_binding
      match AddTransitionResourceStates w1 pb argument_binding with
      | .error e => .error e
      | .ok pb1 => SetResourcesForArgumentsLoop rest (pb1, w1)

/-- Application of binding values to the arguments (`SetResourcesForArguments`). -/
def SetResourcesForArguments (w : World) (pb : ProgramBindings)
    (binding_value_by_argument : BindingValueByArgument) : Except Error (ProgramBindings × World) :=
  match SetResourcesForArgumentsLoop binding_value_by_argument (pb, w) with
  | .error e => .error e
  | .ok state => .ok (InitResourceRefsByAccess state.2 state.1, state.2)

/-- The loop of `ReplaceBindingValues` over the argument bindings of the source. -/
def ReplaceBindingValuesLoop (w : World) :
    ArgumentBindings → BindingValueByArgument → BindingValueByArgument
  | [], binding_value_by_argument => binding_value_by_argument
  | (program_argument, argument_binding_ptr) :: rest, binding_value_by_argument =>
    let argument_settings := (w.bindings argument_binding_ptr).GetSettings
    if argument_settings.argument.IsConstant
        || MapContains program_argument binding_value_by_argument then
      ReplaceBindingValuesLoop w rest binding_value_by_argument
    else if argument_settings.argument.IsRootConstant then
      ReplaceBindingValuesLoop w rest
        (MapTryEmplace binding_value_by_argument program_argument
          (BindingValue.RootConstant (w.bindings argument_binding_ptr).GetRootConstant))
    else
      ReplaceBindingValuesLoop w rest
        (MapTryEmplace binding_value_by_argument program_argument
          (BindingValue.ResourceViews (w.bindings argument_binding_ptr).GetResourceViews))

/-- Values to apply to a clone: the replacements, completed with the current values
of the non-constant arguments of the source (`ReplaceBindingValues`). -/
def ReplaceBindingValues (w : World) (argument_bindings : ArgumentBindings)
    (replace_resource_views : BindingValueByArgument) : BindingValueByArgument :=
  ReplaceBindingValuesLoop w argument_bindings replace_resource_views

/-- Constructor from a program (`ProgramBindings(program, frame_index)`). -/
def ProgramBindings.Construct (w : World) (program : ProgramPtr) (frame_index : Nat) :
    ProgramBindings × World :=
  let counted := GetBindingsCountAndIncrement w program
  InitializeArgumentBindings counted.2
    { m_program_ptr := program
      m_frame_index := frame_index
      m_arguments := []
      m_binding_by_argument := []
      m_transition_resource_states_by_access := fun _ => []
      m_resource_refs_by_access := fun _ => []
      m_resource_state_transition_barriers_ptr := none
      m_bindings_index := counted.1 }
    none

/-- Constructor from a program and initial values
(`ProgramBindings(program, binding_value_by_argument, frame_index)`). -/
def ProgramBindings.ConstructWithValues (w : World) (program : ProgramPtr)
    (binding_value_by_argument : BindingValueByArgument) (frame_index : Nat) :
    Except Error (ProgramBindings × World) :=
  let constructed := ProgramBindings.Construct w program frame_index
  match SetResourcesForArguments constructed.2 constructed.1 binding_value_by_argument with
  | .error e => .error e
  | .ok state =>
    match VerifyAllArgumentsAreBoundToResources state.2 state.1 with
    | .error e => .error e
    | .ok _ => .ok state

/-- Copy constructor with an optional frame index
(`ProgramBindings(other_program_bindings, frame_index)`). -/
def ProgramBindings.Copy (w : World) (other_program_bindings : ProgramBindings)
    (frame_index : Option Nat) : ProgramBindings × World :=
  let counted := GetBindingsCountAndIncrement w other_program_bindings.m_program_ptr
  InitializeArgumentBindings counted.2
    { m_program_ptr := other_program_bindings.m_program_ptr
      m_frame_index := frame_index.getD other_program_bindings.m_frame_index
      m_arguments := []
      m_binding_by_argument := []
      m_transition_resource_states_by_access :=
        other_program_bindings.m_transition_resource_states_by_access
      m_resource_refs_by_access := fun _ => []
      m_resource_state_transition_barriers_ptr := none
      m_bindings_index := counted.1 }
    (some other_program_bindings)

/-- Copy constructor with replacement values
(`ProgramBindings(other_program_bindings, replace_resource_views_by_argument, frame_index)`). -/
def ProgramBindings.CopyWithReplacement (w : World) (other_program_bindings : ProgramBindings)
    (replace_resource_views_by_argument : BindingValueByArgument) (frame_index : Option Nat) :
    Except Error (ProgramBindings × World) :=
  let copied := ProgramBindings.Copy w other_program_bindings frame_index
  match SetResourcesForArguments copied.2 copied.1
      (ReplaceBindingValues copied.2 other_program_bindings.GetArgumentBindings
        replace_resource_views_by_argument) with
  | .error e => .error e
  | .ok state =>
    match VerifyAllArgumentsAreBoundToResources state.2 state.1 with
    | .error e => .error e
    | .ok _ => .ok state

/-- First loop of `OnProgramArgumentBindingResourceViewsChanged`: the resources of
the old views that no new view refers to are removed from the barriers and from the
transition bucket. -/
def RemoveUnusedResourcesLoop (w : World) (argument_binding : ArgumentBinding)
    (new_resource_views : ResourceViews) :
    ResourceViews → List ResourcePtr → ProgramBindings → ProgramBindings
  | [], _, pb => pb
  | old_resource_view :: rest, processed_resources, pb =>
    if (w.resources old_resource_view.GetResourcePtr).GetResourceType = ResourceType.Sampler
        || decide (old_resource_view.GetResourcePtr ∈ processed_resources) then
      RemoveUnusedResourcesLoop w argument_binding new_resource_views rest processed_resources pb
    else if new_resource_views.any
        (fun new_resource_view =>
          decide (new_resource_view.GetResourcePtr = old_resource_view.GetResourcePtr)) then
      RemoveUnusedResourcesLoop w argument_binding new_resource_views rest
        (StdSetEmplace old_resource_view.GetResourcePtr processed_resources) pb
    else
      let barriers := pb.m_resource_state_transition_barriers_ptr.map
        (fun b => b.RemoveStateTransition old_resource_view.GetResourcePtr)
      RemoveUnusedResourcesLoop w argument_binding new_resource_views rest processed_resources
        (RemoveTransitionResourceStates w
          { pb with m_resource_state_transition_barriers_ptr := barriers }
          argument_binding old_resource_view.GetResourcePtr)

/-- Second loop of `OnProgramArgumentBindingResourceViewsChanged`: a bucket entry is
added for the resource of every new view. -/
def AddNewResourcesLoop (w : World) (argument_binding : ArgumentBinding) :
    ResourceViews → ProgramBindings → Except Error ProgramBindings
  | [], pb => .ok pb
  | new_resource_view :: rest, pb =>
    match AddTransitionResourceState w pb argument_binding new_resource_view.GetResourcePtr with
    | .error e => .error e
    | .ok pb1 => AddNewResourcesLoop w argument_binding rest pb1

/-- Receiver of the notification that the resource views of an argument binding
changed (`OnProgramArgumentBindingResourceViewsChanged`). -/
def OnProgramArgumentBindingResourceViewsChanged (w : World) (pb : ProgramBindings)
    (argument_binding : ArgumentBinding) (old_resource_views new_resource_views : ResourceViews) :
    Except Error ProgramBindings :=
  if pb.m_resource_state_transition_barriers_ptr.isNone then
    .ok pb
  else
    AddNewResourcesLoop w argument_binding new_resource_views
      (RemoveUnusedResourcesLoop w argument_binding new_resource_views old_resource_views [] pb)

/-- The loop of `ApplyResourceStates` over one bucket. -/
def ApplyResourceStatesLoop (owner_queue_ptr : Option CommandQueue) :
    ResourceStates → Bool × World × Option ResourceBarriers → Bool × World × Option ResourceBarriers
  | [], state => state
  | resource_state :: rest, (resource_states_changed, w, barriers) =>
    let owned :=
      match owner_queue_ptr with
      | some owner_queue => SetOwnerQueueFamily w resource_state.resource_ptr owner_queue.GetFamilyIndex barriers
      | none => (false, w, barriers)
    let stated := SetState owned.2.1 resource_state.resource_ptr resource_state.state owned.2.2
    ApplyResourceStatesLoop owner_queue_ptr rest
      ((resource_states_changed || owned.1) || stated.1, stated.2.1, stated.2.2)

/-- Modelled from the spec: `Data::ForEachBitInEnumMask` visits, in enumeration
order, the access types whose bit is set in the mask. -/
def ForEachBitInEnumMask {S : Type} (mask : EnumMask ProgramArgumentAccessType)
    (visit : S → ProgramArgumentAccessType → S) (init : S) : S :=
  (ProgramArgumentAccessType.values.filter (fun access_type => mask.HasBit access_type)).foldl
    visit init

/-- Transition of the recorded resources to their target states
(`ApplyResourceStates`); the result is the flag, the bindings (whose barrier set
may have been created or extended) and the object stores. -/
def ApplyResourceStates (w : World) (pb : ProgramBindings)
    (access : EnumMask ProgramArgumentAccessType) (owner_queue_ptr : Option CommandQueue) :
    Bool × ProgramBindings × World :=
  let result := ForEachBitInEnumMask access
    (fun state access_type =>
      ApplyResourceStatesLoop owner_queue_ptr
        (pb.m_transition_resource_states_by_access access_type) state)
    (false, w, pb.m_resource_state_transition_barriers_ptr)
  (result.1, { pb with m_resource_state_transition_barriers_ptr := result.2.2 }, result.2.1)

/-! ## String conversion -/

/-- The loop of `operator std::string` over the sorted binding strings: a separator
is written when the stream already holds text (`ss.rdbuf()->in_avail() > 0`), then
the dash and the string. -/
def OperatorStringLoop : List String → String → String
  | [], ss => ss
  | argument_binding_str :: rest, ss =>
    OperatorStringLoop rest
      ((if 0 < ss.length then ss ++ ";\n" else ss) ++ "  - " ++ argument_binding_str)

/-- Order of `std::string`: the lexicographic comparison of the character
sequences. -/
def StringLessEqual (a b : String) : Prop :=
  a.data ≤ b.data

/-- The comparison of two strings can be computed. -/
instance StringLessEqual.decidable : DecidableRel StringLessEqual :=
  fun a b => inferInstanceAs (Decidable (a.data ≤ b.data))

/-- String conversion of the program bindings (`operator std::string`).  The string
conversion of an argument binding is not among the sources and is the parameter
`argument_binding_string`; `std::ranges::sort` is the ascending sort of the strings,
which are totally ordered, so that the sorted sequence does not depend on the
algorithm. -/
def OperatorString (argument_binding_string : ArgumentBinding → String) (w : World)
    (pb : ProgramBindings) : String :=
  let argument_binding_strings :=
    pb.m_binding_by_argument.map (fun entry => argument_binding_string (w.bindings entry.2))
  OperatorStringLoop (argument_binding_strings.insertionSort StringLessEqual) "" ++ "."

/-! ## DirectX argument binding -/

/-- Modelled from the spec: `DescriptorHeap::Type`, the descriptor heap types. -/
inductive DescriptorHeapType where
  | Undefined
  | ShaderResources
  | Samplers
  | RenderTargets
  | DepthStencil
  deriving DecidableEq, Repr

/-- Modelled from the spec: `ProgramArgumentBindingType`, how the DirectX binding is
placed in the root signature. -/
inductive ProgramArgumentBindingType where
  | DescriptorTable
  | ConstantBufferView
  | ShaderResourceView
  | UnorderedAccessView
  deriving DecidableEq, Repr

/-- A range of descriptors in a heap (`DescriptorRange`); offset and count are
32-bit unsigned. -/
structure DescriptorRange where
  heap_type : DescriptorHeapType
  offset : Nat
  count : Nat
  deriving DecidableEq, Repr

/-- What the binding reads of a descriptor heap: its type and visibility. -/
structure DescriptorHeap where
  type : DescriptorHeapType
  shader_visible : Bool
  deriving DecidableEq, Repr

/-- A reservation in a descriptor heap (`DescriptorHeapReservation`): the heap and
the start of the reserved range of every accessor index. -/
structure DescriptorHeapReservation where
  heap : DescriptorHeap
  range_start : ProgramArgumentAccessType → Nat

/-- Start of the reserved range of an accessor index (`GetRange(index).GetStart()`). -/
def DescriptorHeapReservation.GetRangeStart (reservation : DescriptorHeapReservation)
    (accessor_index : ProgramArgumentAccessType) : Nat :=
  reservation.range_start accessor_index

/-- A DirectX resource view: the view with the shader usage it is created for. -/
structure DirectXResourceView where
  view : ResourceView
  shader_usage : EnumMask ResourceUsage
  deriving DecidableEq, Repr

/-- Settings of the DirectX binding: the base settings and the binding type. -/
structure DirectXBindingSettings where
  argument : ProgramArgumentAccessor
  resource_type : ResourceType
  resource_count : Nat
  type : ProgramArgumentBindingType
  deriving DecidableEq, Repr

/-- The DirectX argument binding object (`DirectX::ProgramArgumentBinding`): the base
binding and the DirectX members. -/
structure DirectXArgumentBinding where
  base : ArgumentBinding
  m_settings_dx : DirectXBindingSettings
  m_shader_usage : EnumMask ResourceUsage
  m_root_parameter_index : Nat
  m_descriptor_range : DescriptorRange
  m_descriptor_heap_reservation_ptr : Option DescriptorHeapReservation
  m_resource_views_dx : List DirectXResourceView

/-- The content of the descriptor heap: the descriptor written at each index. -/
abbrev DescriptorHeapContent := Nat → Option DirectXResourceView

/-- Errors raised by the argument checks of the DirectX binding. -/
inductive CheckError where
  | ArgumentOutOfRange (value : Nat) (upper_limit : Nat)
  | ArgumentNotEqual
  deriving DecidableEq, Repr

/-- Shader usage of the views of a binding type (`GetShaderUsage`). -/
def GetShaderUsage (binding_type : ProgramArgumentBindingType) : EnumMask ResourceUsage :=
  if binding_type = ProgramArgumentBindingType.UnorderedAccessView then
    [ResourceUsage.ShaderRead, ResourceUsage.ShaderWrite]
  else
    [ResourceUsage.ShaderRead]

/-- Heap type that the binding expects (`GetDescriptorHeapType`). -/
def DirectXArgumentBinding.GetDescriptorHeapType (binding : DirectXArgumentBinding) :
    DescriptorHeapType :=
  if binding.base.GetSettings.resource_type = ResourceType.Sampler then
    DescriptorHeapType.Samplers
  else
    DescriptorHeapType.ShaderResources

/-- Modelled from the spec: `Base::ProgramArgumentBinding::SetResourceViewSpan`
replaces the bound resource views and tells whether they changed (section 4.1); its
source file is not among the sources. -/
def ArgumentBinding.SetResourceViewSpan (binding : ArgumentBinding) (resource_views : ResourceViews) :
    Bool × ArgumentBinding :=
  if binding.m_resource_views = resource_views then
    (false, binding)
  else
    (true, binding.SetResourceViews resource_views)

/-- The loop of the DirectX `SetResourceViewSpan` over the resource views: every view
is appended to the DirectX views and, when a descriptor heap is reserved, its
descriptor is copied to the next index of the range, in 32-bit arithmetic. -/
def SetResourceViewSpanLoop (binding : DirectXArgumentBinding) (descriptor_range_start : Nat)
    (dx_descriptor_heap_ptr : Option DescriptorHeap) :
    ResourceViews → Nat → List DirectXResourceView → DescriptorHeapContent →
      Except CheckError Unit × List DirectXResourceView × DescriptorHeapContent
  | [], _, resource_views_dx, descriptors => (.ok (), resource_views_dx, descriptors)
  | resource_view :: rest, resource_index, resource_views_dx, descriptors =>
    let dx_resource_view : DirectXResourceView :=
      { view := resource_view, shader_usage := binding.m_shader_usage }
    match dx_descriptor_heap_ptr with
    | none =>
      SetResourceViewSpanLoop binding descriptor_range_start dx_descriptor_heap_ptr rest
        resource_index (resource_views_dx ++ [dx_resource_view]) descriptors
    | some dx_descriptor_heap =>
      if binding.m_descriptor_range.heap_type ≠ dx_descriptor_heap.type then
        (.error CheckError.ArgumentNotEqual, resource_views_dx ++ [dx_resource_view], descriptors)
      else
        let descriptor_index :=
          (descriptor_range_start + binding.m_descriptor_range.offset + resource_index) % 2 ^ 32
        SetResourceViewSpanLoop binding descriptor_range_start dx_descriptor_heap_ptr rest
          ((resource_index + 1) % 2 ^ 32) (resource_views_dx ++ [dx_resource_view])
          (fun index => if index = descriptor_index then some dx_resource_view else descriptors index)

/-- Binding of resource views to the DirectX binding (`SetResourceViewSpan`).  The
result is the returned flag or the raised error, together with the binding and the
descriptor heap content as the call leaves them, also when it throws. -/
def DirectXArgumentBinding.SetResourceViewSpan (binding : DirectXArgumentBinding)
    (descriptors : DescriptorHeapContent) (resource_views : ResourceViews) :
    Except CheckError Bool × DirectXArgumentBinding × DescriptorHeapContent :=
  let based := binding.base.SetResourceViewSpan resource_views
  if !based.1 then
    (.ok false, binding, descriptors)
  else
    let binding1 := { binding with base := based.2 }
    if binding.m_settings_dx.type = ProgramArgumentBindingType.DescriptorTable
        ∧ ¬ (resource_views.length < (binding.m_descriptor_range.count + 1) % 2 ^ 32) then
      (.error (CheckError.ArgumentOutOfRange resource_views.length
          ((binding.m_descriptor_range.count + 1) % 2 ^ 32)), binding1, descriptors)
    else
      let descriptor_range_start :=
        match binding.m_descriptor_heap_reservation_ptr with
        | some reservation => reservation.GetRangeStart binding.m_settings_dx.argument.GetAccessorIndex
        | none => 2 ^ 32 - 1
      let dx_descriptor_heap_ptr :=
        binding.m_descriptor_heap_reservation_ptr.map (fun reservation => reservation.heap)
      let looped := SetResourceViewSpanLoop binding descriptor_range_start dx_descriptor_heap_ptr
        resource_views 0 [] descriptors
      match looped.1 with
      | .error e => (.error e, { binding1 with m_resource_views_dx := looped.2.1 }, looped.2.2)
      | .ok _ => (.ok true, { binding1 with m_resource_views_dx := looped.2.1 }, looped.2.2)

/-- Setting of the descriptor range of the binding (`SetDescriptorRange`); the
result is the raised error, if any, and the binding as the call leaves it. -/
def DirectXArgumentBinding.SetDescriptorRange (binding : DirectXArgumentBinding)
    (descriptor_range : DescriptorRange) : Except CheckError Unit × DirectXArgumentBinding :=
  let expected_heap_type := binding.GetDescriptorHeapType
  if descriptor_range.heap_type ≠ expected_heap_type then
    (.error CheckError.ArgumentNotEqual, binding)
  else if ¬ (descriptor_range.count < (binding.m_settings_dx.resource_count + 1) % 2 ^ 32) then
    (.error (CheckError.ArgumentOutOfRange descriptor_range.count
        ((binding.m_settings_dx.resource_count + 1) % 2 ^ 32)), binding)
  else
    (.ok (), { binding with m_descriptor_range := descriptor_range })

/-! ## Receivers of the change notification -/

/-- Address of a program bindings instance. -/
abbrev ProgramBindingsPtr := Nat

/-- The program bindings instances and, for every binding object, the instances
connected to its change notification (the receivers of its emitter), in the order
of connection. -/
structure Instances where
  program_bindings : ProgramBindingsPtr → ProgramBindings
  connected_receivers : BindingPtr → List ProgramBindingsPtr

/-- The instances with the instance at one address replaced. -/
def Instances.SetProgramBindings (instances : Instances) (program_bindings_ptr : ProgramBindingsPtr)
    (pb : ProgramBindings) : Instances :=
  { instances with
    program_bindings := fun p => if p = program_bindings_ptr then pb else instances.program_bindings p }

/-- Modelled from the spec: `Connect` of a binding object registers a program
bindings instance as receiver of its change notification, the notification that is
emitted "so dependent state (transition tracking) can be incrementally updated"
(section 4.1); a receiver is registered once.  The emitter class is not among the
sources. -/
def Connect (instances : Instances) (argument_binding_ptr : BindingPtr)
    (receiver_ptr : ProgramBindingsPtr) : Instances :=
  if receiver_ptr ∈ instances.connected_receivers argument_binding_ptr then
    instances
  else
    { instances with
      connected_receivers := fun p =>
        if p = argument_binding_ptr then instances.connected_receivers p ++ [receiver_ptr]
        else instances.connected_receivers p }

/-- The loop of `Initialize` over the argument bindings of the instance. -/
def InitializeLoop (this_ptr : ProgramBindingsPtr) : ArgumentBindings → Instances → Instances
  | [], instances => instances
  | (_, argument_binding_ptr) :: rest, instances =>
    InitializeLoop this_ptr rest (Connect instances argument_binding_ptr this_ptr)

/-- Connection of the instance at `this_ptr` to the change notification of each of
its binding objects (`ProgramBindings::Initialize`); the registration with the
descriptor manager does not touch the state kept here. -/
def ProgramBindings.Initialize (instances : Instances) (this_ptr : ProgramBindingsPtr) : Instances :=
  InitializeLoop this_ptr (instances.program_bindings this_ptr).m_binding_by_argument instances

/-- Delivery of a change notification of a binding object to the connected
receivers: each of them runs `OnProgramArgumentBindingResourceViewsChanged`. -/
def EmitResourceViewsChanged (w : World) (argument_binding : ArgumentBinding)
    (old_resource_views new_resource_views : ResourceViews) :
    List ProgramBindingsPtr → Instances → Except Error Instances
  | [], instances => .ok instances
  | receiver_ptr :: rest, instances =>
    match OnProgramArgumentBindingResourceViewsChanged w (instances.program_bindings receiver_ptr)
        argument_binding old_resource_views new_resource_views with
    | .error e => .error e
    | .ok pb =>
      EmitResourceViewsChanged w argument_binding old_resource_views new_resource_views rest
        (instances.SetProgramBindings receiver_ptr pb)

/-- Modelled from the spec: replacement of the resource views of the binding object
at an address; the views are replaced "and, if changed," the object emits "a change
notification carrying old and new views" (section 4.1) to its connected receivers,
unless the notification is switched off (`SetEmitCallbackEnabled`). -/
def SetResourceViewsAt (w : World) (instances : Instances) (argument_binding_ptr : BindingPtr)
    (resource_views : ResourceViews) : Except Error (Instances × World) :=
  let argument_binding := w.bindings argument_binding_ptr
  let changed := argument_binding.SetResourceViewSpan resource_views
  if changed.1 then
    let w1 := w.SetBinding argument_binding_ptr changed.2
    if argument_binding.m_emit_callback_enabled then
      match EmitResourceViewsChanged w1 changed.2 argument_binding.GetResourceViews resource_views
          (instances.connected_receivers argument_binding_ptr) instances with
      | .error e => .error e
      | .ok instances1 => .ok (instances1, w1)
    else
      .ok (instances, w1)
  else
    .ok (instances, w)

/-- The method `SetResourcesForArguments` called on the instance at `this_ptr`: the
instance is replaced by the result. -/
def SetResourcesForArgumentsAt (w : World) (instances : Instances)
    (this_ptr : ProgramBindingsPtr) (binding_value_by_argument : BindingValueByArgument) :
    Except Error (Instances × World) :=
  match SetResourcesForArguments w (instances.program_bindings this_ptr)
      binding_value_by_argument with
  | .error e => .error e
  | .ok state => .ok (instances.SetProgramBindings this_ptr state.1, state.2)

/-! ## Camera -/

/-- Projection kind of the camera (`Camera::Projection`). -/
inductive Projection where
  | Perspective
  | Orthogonal
  deriving DecidableEq, Repr

/-- What the camera uses of `float` and of the external `hlslpp` math library, as
parameters: `F` is the scalar, `P` the three-component vector, `V` the frustum, `S`
the projection settings and `M` the 4x4 matrix.  The library is not part of the
repository. -/
structure CameraMath (F P V S M : Type) where
  zero : F
  half : F
  one : F
  two : F
  add : F → F → F
  div : F → F → F
  not_equal : F → F → Bool
  less : F → F → Bool
  DegreeToRadians : F → F
  frustum_field_of_view_y : F → F → F → F → V
  frustum : F → F → F → F → V
  projection_zclip_zero : V → S
  perspective : S → M
  orthographic : S → M
  look_at : P → P → P → M
  mul : M → M → M

/-- Size of the screen (`Data::FloatSize`). -/
structure FloatSize (F : Type) where
  width : F
  height : F
  deriving DecidableEq, Repr

/-- Camera parameters (`Camera::Parameters`). -/
structure CameraParameters (F : Type) where
  near_depth : F
  far_depth : F
  fov_deg : F
  deriving DecidableEq, Repr

/-- Camera orientation (`Camera::Orientation`). -/
structure CameraOrientation (P : Type) where
  eye : P
  aim : P
  up : P
  deriving DecidableEq, Repr

/-- The members of `Camera` that the matrix getters and the setters use; the cached
matrices and their dirty flags are `mutable` members, which the `const` getters
write. -/
structure Camera (F P S M : Type) where
  m_projection : Projection
  m_screen_size : FloatSize F
  m_aspect_ratio : F
  m_parameters : CameraParameters F
  m_projection_settings : Option S
  m_current_orientation : CameraOrientation P
  m_current_view_matrix : M
  m_current_proj_matrix : M
  m_current_view_proj_matrix : M
  m_is_current_view_matrix_dirty : Bool
  m_is_current_proj_matrix_dirty : Bool
  deriving DecidableEq, Repr

/-- Errors raised by the camera: the null check of `CreateProjMatrix`. -/
inductive CameraError where
  | ProjectionSettingsNotInitialized
  deriving DecidableEq, Repr

section CameraOperations

variable {F P V S M : Type}

/-- Vertical field of view in radians (`Camera::GetFovAngleY`). -/
def Camera.GetFovAngleY (math : CameraMath F P V S M) (camera : Camera F P S M) : F :=
  let fov_angle_y := math.DegreeToRadians camera.m_parameters.fov_deg
  if math.not_equal camera.m_aspect_ratio math.zero && math.less camera.m_aspect_ratio math.one then
    math.div fov_angle_y (math.add math.half (math.div camera.m_aspect_ratio math.two))
  else
    fov_angle_y

/-- Frustum of the current projection (`Camera::CreateFrustum`). -/
def Camera.CreateFrustum (math : CameraMath F P V S M) (camera : Camera F P S M) : V :=
  match camera.m_projection with
  | .Perspective =>
    math.frustum_field_of_view_y (camera.GetFovAngleY math) camera.m_aspect_ratio
      camera.m_parameters.near_depth camera.m_parameters.far_depth
  | .Orthogonal =>
    math.frustum camera.m_screen_size.width camera.m_screen_size.height
      camera.m_parameters.near_depth camera.m_parameters.far_depth

/-- Update of the projection settings (`Camera::UpdateProjectionSettings`). -/
def Camera.UpdateProjectionSettings (math : CameraMath F P V S M) (camera : Camera F P S M) :
    Camera F P S M :=
  { camera with m_projection_settings := some (math.projection_zclip_zero (camera.CreateFrustum math)) }

/-- Change of the screen size (`Camera::Resize`). -/
def Camera.Resize (math : CameraMath F P V S M) (camera : Camera F P S M)
    (screen_size : FloatSize F) : Camera F P S M :=
  Camera.UpdateProjectionSettings math
    { camera with
      m_screen_size := screen_size
      m_aspect_ratio := math.div screen_size.width screen_size.height
      m_is_current_proj_matrix_dirty := true }

/-- Change of the projection kind (`Camera::SetProjection`). -/
def Camera.SetProjection (camera : Camera F P S M) (projection : Projection) : Camera F P S M :=
  { camera with m_projection := projection, m_is_current_proj_matrix_dirty := true }

/-- Change of the parameters (`Camera::SetParameters`). -/
def Camera.SetParameters (math : CameraMath F P V S M) (camera : Camera F P S M)
    (parameters : CameraParameters F) : Camera F P S M :=
  Camera.UpdateProjectionSettings math
    { camera with m_parameters := parameters, m_is_current_proj_matrix_dirty := true }

/-- View matrix of an orientation (`Camera::CreateViewMatrix`). -/
def Camera.CreateViewMatrix (math : CameraMath F P V S M) (orientation : CameraOrientation P) : M :=
  math.look_at orientation.eye orientation.aim orientation.up

/-- Projection matrix of the current settings (`Camera::CreateProjMatrix`); it throws
while the projection settings are not initialised. -/
def Camera.CreateProjMatrix (math : CameraMath F P V S M) (camera : Camera F P S M) :
    Except CameraError M :=
  match camera.m_projection_settings with
  | none => .error CameraError.ProjectionSettingsNotInitialized
  | some projection_settings =>
    match camera.m_projection with
    | .Perspective => .ok (math.perspective projection_settings)
    | .Orthogonal => .ok (math.orthographic projection_settings)

/-- Cached view matrix (`Camera::GetViewMatrix`): the returned matrix and the camera
with its cache as the call leaves it. -/
def Camera.GetViewMatrix (math : CameraMath F P V S M) (camera : Camera F P S M) :
    M × Camera F P S M :=
  if !camera.m_is_current_view_matrix_dirty then
    (camera.m_current_view_matrix, camera)
  else
    let current_view_matrix := Camera.CreateViewMatrix math camera.m_current_orientation
    (current_view_matrix,
      { camera with
        m_current_view_matrix := current_view_matrix
        m_is_current_view_matrix_dirty := false })

/-- Cached projection matrix (`Camera::GetProjMatrix`). -/
def Camera.GetProjMatrix (math : CameraMath F P V S M) (camera : Camera F P S M) :
    Except CameraError (M × Camera F P S M) :=
  if !camera.m_is_current_proj_matrix_dirty then
    .ok (camera.m_current_proj_matrix, camera)
  else
    match camera.CreateProjMatrix math with
    | .error e => .error e
    | .ok current_proj_matrix =>
      .ok (current_proj_matrix,
        { camera with
          m_current_proj_matrix := current_proj_matrix
          m_is_current_proj_matrix_dirty := false })

/-- Cached product of the view and projection matrices (`Camera::GetViewProjMatrix`);
the arguments of `mul` are evaluated view matrix first. -/
def Camera.GetViewProjMatrix (math : CameraMath F P V S M) (camera : Camera F P S M) :
    Except CameraError (M × Camera F P S M) :=
  if !camera.m_is_current_view_matrix_dirty && !camera.m_is_current_proj_matrix_dirty then
    .ok (camera.m_current_view_proj_matrix, camera)
  else
    let viewed := camera.GetViewMatrix math
    match viewed.2.GetProjMatrix math with
    | .error e => .error e
    | .ok projected =>
      let current_view_proj_matrix := math.mul viewed.1 projected.1
      .ok (current_view_proj_matrix,
        { projected.2 with m_current_view_proj_matrix := current_view_proj_matrix })

end CameraOperations

/-! ## Heads-up display -/

/-- Height of the FPS text block in dots (`GetFpsTextHeightInDots`), in unsigned
32-bit arithmetic.  The heights of the major and minor fonts in dots
(`GetTextHeightInDots`) and the height of the text margins in dots are parameters:
the context and the font are not among the sources. -/
def GetFpsTextHeightInDots (major_text_height minor_text_height margin_height : Nat) : Nat :=
  max major_text_height ((minor_text_height * 2 % 2 ^ 32 + margin_height) % 2 ^ 32)

/-- Height of a timing text row in dots (`GetTimingTextHeightInDots`), in unsigned
32-bit arithmetic. -/
def GetTimingTextHeightInDots (major_text_height minor_text_height margin_height : Nat) : Nat :=
  (GetFpsTextHeightInDots major_text_height minor_text_height margin_height + 2 ^ 32
      - margin_height) % 2 ^ 32 / 2

/-! ## Predicates used by the statements -/

/-- No entry of any transition bucket refers to a sampler. -/
def NoSamplerInBuckets (w : World) (pb : ProgramBindings) : Prop :=
  ∀ access_type entry, entry ∈ pb.m_transition_resource_states_by_access access_type →
    (w.resources entry.resource_ptr).GetResourceType ≠ ResourceType.Sampler

/-- The entries that `ApplyResourceStates` visits for a mask, in visiting order:
the buckets of the access types whose bit is set, in enumeration order. -/
def SelectedResourceStates (pb : ProgramBindings) (access : EnumMask ProgramArgumentAccessType) :
    ResourceStates :=
  ((ProgramArgumentAccessType.values.filter (fun access_type => access.HasBit access_type)).map
    pb.m_transition_resource_states_by_access).flatten

/-- Number of views of a list that refer to a resource. -/
def CountViewsOf (resource_ptr : ResourcePtr) (views : ResourceViews) : Nat :=
  views.countP (fun view => decide (view.GetResourcePtr = resource_ptr))

/-- Number of entries of a bucket that refer to a resource. -/
def CountEntriesOf (resource_ptr : ResourcePtr) (bucket : ResourceStates) : Nat :=
  bucket.countP (fun entry => decide (entry.resource_ptr = resource_ptr))

/-- Whether the visit of a bucket entry by `ApplyResourceStates` changes something
in a world: the owner queue family of the resource, when an owner queue is given and
its family is not the owner, or the state of the resource, when it is not the
recorded target state. -/
def EntryChanges (owner_queue_ptr : Option CommandQueue) (w : World) (entry : ResourceAndState) :
    Prop :=
  (∃ owner_queue, owner_queue_ptr = some owner_queue ∧
    (w.resources entry.resource_ptr).m_owner_queue_family_index_opt
      ≠ some owner_queue.GetFamilyIndex) ∨
  (w.resources entry.resource_ptr).m_state ≠ entry.state

/-- What `InitializeArgumentBindings` maintains for the argument-to-binding map `map`
in the world `w`, relative to the binding objects `source` of the world it started
from, whose first free address was `base`, and to the argument bindings `full` it
walks: objects below `base` are untouched; every entry holds a live, fresh object
that equals the source object of its argument; a fresh object belongs to one
argument only; keys are unique. -/
def InitializedFrom (source : BindingPtr → ArgumentBinding) (base : Nat) (full : ArgumentBindings)
    (map : ArgumentBindings) (w : World) : Prop :=
  base ≤ w.bindings_end ∧
  (∀ p, p < base → w.bindings p = source p) ∧
  (∀ entry ∈ map, entry.2 < w.bindings_end ∧
    ∃ p, (entry.1, p) ∈ full ∧ w.bindings entry.2 = source p ∧ base ≤ entry.2) ∧
  (∀ entry1 ∈ map, ∀ entry2 ∈ map, base ≤ entry1.2 → entry1.2 = entry2.2 → entry1.1 = entry2.1) ∧
  (map.map Prod.fst).Nodup

/-- The effect of one entry of `SetResourcesForArguments` on the binding object: the
value is applied with the change notification switched off, which is switched on
again afterwards. -/
def SetBindingValue (argument_binding : ArgumentBinding) (binding_value : BindingValue) :
    ArgumentBinding :=
  (ApplyBindingValue (argument_binding.SetEmitCallbackEnabled false)
    binding_value).SetEmitCallbackEnabled true

/-- The values that a map of binding values holds for an argument, in order. -/
def ValuesOf (argument : ProgramArgument) (values : BindingValueByArgument) : List BindingValue :=
  (values.filter (fun entry => decide (entry.1 = argument))).map Prod.snd

/-- The current value of a binding object as `ReplaceBindingValues` reads it: its
root constant for an argument of RootConstant kind, otherwise its resource views. -/
def SourceBindingValue (argument_binding : ArgumentBinding) : BindingValue :=
  if argument_binding.GetSettings.argument.IsRootConstant then
    BindingValue.RootConstant argument_binding.GetRootConstant
  else
    BindingValue.ResourceViews argument_binding.GetResourceViews

/-- The resource views that a binding value binds: none for a root constant. -/
def ViewsOfValue : BindingValue → ResourceViews
  | .RootConstant _ => []
  | .ResourceView value => [value]
  | .ResourceViews value => value

/-- The resource of a view can be bound to an argument of the declared resource
type: it is a sampler (which is not tracked), or the declared type is Sampler
(for which `GetBoundResourceTargetState` casts nothing), or the resource is of the
declared type. -/
abbrev ResourceTypeMatches (w : World) (resource_type : ResourceType) (view : ResourceView) : Prop :=
  (w.resources view.GetResourcePtr).GetResourceType = ResourceType.Sampler ∨
  resource_type = ResourceType.Sampler ∨
  (w.resources view.GetResourcePtr).GetResourceType = resource_type

/-- The binding object is not unbound: it is of RootConstant kind or holds a
resource view. -/
def IsBound (argument_binding : ArgumentBinding) : Prop :=
  argument_binding.GetSettings.argument.IsRootConstant = true ∨
  argument_binding.GetResourceViews ≠ []

/-! ## Example objects

A small world used to evaluate the code on concrete inputs: the arguments of the
textured-cube program (`g_constants`, `g_texture`, `g_sampler`) and a program with
two buffer arguments. -/

namespace Example

/-- The cube texture: a shader-read image in undefined state. -/
def cube_texture : Resource :=
  { object := ResourceObject.Texture { type := TextureType.Image, usage_mask := [ResourceUsage.ShaderRead] }
    m_state := ResourceState.Undefined
    m_owner_queue_family_index_opt := none }

/-- The texture sampler. -/
def texture_sampler : Resource :=
  { object := ResourceObject.Sampler
    m_state := ResourceState.Undefined
    m_owner_queue_family_index_opt := none }

/-- A second shader-read image, already in shader-resource state. -/
def other_texture : Resource :=
  { object := ResourceObject.Texture { type := TextureType.Image, usage_mask := [ResourceUsage.ShaderRead] }
    m_state := ResourceState.ShaderResource
    m_owner_queue_family_index_opt := none }

/-- A privately stored shader-read buffer. -/
def private_buffer : Resource :=
  { object := ResourceObject.Buffer
      { usage_mask := [ResourceUsage.ShaderRead], storage_mode := StorageMode.Private }
    m_state := ResourceState.Undefined
    m_owner_queue_family_index_opt := none }

/-- A shader-read depth-stencil texture. -/
def depth_texture : Resource :=
  { object := ResourceObject.Texture
      { type := TextureType.DepthStencil, usage_mask := [ResourceUsage.ShaderRead] }
    m_state := ResourceState.DepthWrite
    m_owner_queue_family_index_opt := none }

/-- Argument `g_constants` of the pixel shader. -/
def g_constants : ProgramArgument := { shader_type := ShaderType.Pixel, name := "g_constants" }

/-- Argument `g_texture` of the pixel shader. -/
def g_texture : ProgramArgument := { shader_type := ShaderType.Pixel, name := "g_texture" }

/-- Argument `g_sampler` of the pixel shader. -/
def g_sampler : ProgramArgument := { shader_type := ShaderType.Pixel, name := "g_sampler" }

/-- Argument `g_params` of the pixel shader. -/
def g_params : ProgramArgument := { shader_type := ShaderType.Pixel, name := "g_params" }

/-- Argument `g_data` of the pixel shader. -/
def g_data : ProgramArgument := { shader_type := ShaderType.Pixel, name := "g_data" }

/-- Argument `g_missing`, which no example program declares. -/
def g_missing : ProgramArgument := { shader_type := ShaderType.Pixel, name := "g_missing" }

/-- A binding object without value. -/
def empty_binding (argument : ProgramArgument) (accessor_type : ProgramArgumentAccessType)
    (value_type : ProgramArgumentValueType) (resource_type : ResourceType) : ArgumentBinding :=
  { m_settings :=
      { argument := { argument := argument, accessor_type := accessor_type, value_type := value_type }
        resource_type := resource_type
        resource_count := 1 }
    m_resource_views := []
    m_root_constant := { data := [] }
    m_emit_callback_enabled := true }

/-- The resource objects, by address. -/
def resources : ResourcePtr → Resource
  | 0 => cube_texture
  | 1 => texture_sampler
  | 2 => other_texture
  | 3 => private_buffer
  | 4 => depth_texture
  | _ => texture_sampler

/-- The binding objects of the two programs, by address. -/
def bindings : BindingPtr → ArgumentBinding
  | 0 => empty_binding g_constants ProgramArgumentAccessType.Constant
      ProgramArgumentValueType.RootConstantBuffer ResourceType.Buffer
  | 1 => empty_binding g_texture ProgramArgumentAccessType.Mutable
      ProgramArgumentValueType.ResourceView ResourceType.Texture
  | 2 => empty_binding g_sampler ProgramArgumentAccessType.Mutable
      ProgramArgumentValueType.ResourceView ResourceType.Sampler
  | 3 => empty_binding g_params ProgramArgumentAccessType.Constant
      ProgramArgumentValueType.ResourceView ResourceType.Buffer
  | _ => empty_binding g_data ProgramArgumentAccessType.Mutable
      ProgramArgumentValueType.ResourceView ResourceType.Buffer

/-- The programs: 0 is the textured-cube program, 1 the program with two buffer
arguments. -/
def programs : ProgramPtr → Program
  | 0 => { m_argument_bindings := [(g_constants, 0), (g_texture, 1), (g_sampler, 2)]
           m_bindings_count := 0 }
  | _ => { m_argument_bindings := [(g_params, 3), (g_data, 4)]
           m_bindings_count := 0 }

/-- The example world. -/
def world : World :=
  { resources := resources
    bindings := bindings
    bindings_end := 5
    programs := programs }

/-- A view of the whole resource at an address. -/
def view (resource_ptr : ResourcePtr) : ResourceView :=
  { m_resource_ptr := resource_ptr, offset := 0, size := 0 }

/-- A view of a part of the resource at an address, from an offset on. -/
def subview (resource_ptr : ResourcePtr) (offset : Nat) : ResourceView :=
  { m_resource_ptr := resource_ptr, offset := offset, size := 0 }

/-- Values for the three arguments of the textured-cube program. -/
def cube_values : BindingValueByArgument :=
  [(g_constants, BindingValue.RootConstant { data := [1, 2, 3, 4] }),
   (g_texture, BindingValue.ResourceView (view 0)),
   (g_sampler, BindingValue.ResourceView (view 1))]

/-- The same values without `g_texture`. -/
def cube_values_without_texture : BindingValueByArgument :=
  [(g_constants, BindingValue.RootConstant { data := [1, 2, 3, 4] }),
   (g_sampler, BindingValue.ResourceView (view 1))]

/-- The private buffer bound to both arguments of the buffer program. -/
def buffer_values : BindingValueByArgument :=
  [(g_params, BindingValue.ResourceView (view 3)),
   (g_data, BindingValue.ResourceView (view 3))]

/-- The bindings of the textured-cube program constructed with `cube_values`, with
the object stores after the construction. -/
def cube_bindings : ProgramBindings × World :=
  match ProgramBindings.ConstructWithValues world 0 cube_values 0 with
  | .ok state => state
  | .error _ => ProgramBindings.Construct world 0 0

/-- The state after `ApplyResourceStates` on the mutable bucket of `cube_bindings`,
without owner queue: the barrier set exists from here on. -/
def cube_applied : Bool × ProgramBindings × World :=
  ApplyResourceStates cube_bindings.2 cube_bindings.1 [ProgramArgumentAccessType.Mutable] none

/-- The bindings of the buffer program constructed with `buffer_values`. -/
def buffer_bindings : ProgramBindings × World :=
  match ProgramBindings.ConstructWithValues world 1 buffer_values 0 with
  | .ok state => state
  | .error _ => ProgramBindings.Construct world 1 0

/-- The cube values with the private buffer bound to the texture argument. -/
def cube_values_with_buffer : BindingValueByArgument :=
  [(g_constants, BindingValue.RootConstant { data := [1, 2, 3, 4] }),
   (g_texture, BindingValue.ResourceView (view 3)),
   (g_sampler, BindingValue.ResourceView (view 1))]

/-- The cube values with a value for an argument that the program does not
declare. -/
def cube_values_with_missing : BindingValueByArgument :=
  [(g_constants, BindingValue.RootConstant { data := [1, 2, 3, 4] }),
   (g_texture, BindingValue.ResourceView (view 0)),
   (g_sampler, BindingValue.ResourceView (view 1)),
   (g_missing, BindingValue.ResourceView (view 0))]

/-- Values for the textured-cube program that leave the root constant out. -/
def cube_values_without_constants : BindingValueByArgument :=
  [(g_texture, BindingValue.ResourceView (view 0)),
   (g_sampler, BindingValue.ResourceView (view 1))]

/-- A host-visible shader-read buffer in generic-read state. -/
def upload_buffer : Resource :=
  { object := ResourceObject.Buffer
      { usage_mask := [ResourceUsage.ShaderRead], storage_mode := StorageMode.Managed }
    m_state := ResourceState.GenericRead
    m_owner_queue_family_index_opt := none }

/-- A world with the upload buffer and a program with the one buffer argument
`g_data`. -/
def upload_world : World :=
  { resources := fun _ => upload_buffer
    bindings := fun _ => empty_binding g_data ProgramArgumentAccessType.Mutable
      ProgramArgumentValueType.ResourceView ResourceType.Buffer
    bindings_end := 1
    programs := fun _ => { m_argument_bindings := [(g_data, 0)], m_bindings_count := 0 } }

/-- The upload buffer bound to `g_data`. -/
def upload_values : BindingValueByArgument :=
  [(g_data, BindingValue.ResourceView (view 0))]

/-- The bindings of the upload program constructed with `upload_values`. -/
def upload_bindings : ProgramBindings × World :=
  match ProgramBindings.ConstructWithValues upload_world 0 upload_values 0 with
  | .ok state => state
  | .error _ => ProgramBindings.Construct upload_world 0 0

/-- The string of a binding used in the examples: the name of its argument. -/
def binding_name (argument_binding : ArgumentBinding) : String :=
  argument_binding.GetSettings.argument.argument.name

/-- A DirectX descriptor-table binding for two textures with a reserved range of two
descriptors at offset 4, without heap reservation. -/
def table_binding : DirectXArgumentBinding :=
  { base := empty_binding g_texture ProgramArgumentAccessType.Mutable
      ProgramArgumentValueType.ResourceView ResourceType.Texture
    m_settings_dx :=
      { argument :=
          { argument := g_texture
            accessor_type := ProgramArgumentAccessType.Mutable
            value_type := ProgramArgumentValueType.ResourceView }
        resource_type := ResourceType.Texture
        resource_count := 2
        type := ProgramArgumentBindingType.DescriptorTable }
    m_shader_usage := [ResourceUsage.ShaderRead]
    m_root_parameter_index := 0
    m_descriptor_range :=
      { heap_type := DescriptorHeapType.ShaderResources, offset := 4, count := 2 }
    m_descriptor_heap_reservation_ptr := none
    m_resource_views_dx := [] }

/-- The descriptor table binding of the example with a reservation in a shader-visible
heap of shader resources whose ranges start at the given index. -/
def reserved_table_binding (range_start : Nat) : DirectXArgumentBinding :=
  { table_binding with
    m_descriptor_heap_reservation_ptr :=
      some { heap := { type := DescriptorHeapType.ShaderResources, shader_visible := true }
             range_start := fun _ => range_start } }

/-- The descriptor table binding of the example with the largest 32-bit resource
count. -/
def largest_table_binding : DirectXArgumentBinding :=
  { table_binding with
    m_settings_dx := { table_binding.m_settings_dx with resource_count := 4294967295 } }

/-- A stand-in for the math library in the camera examples: scalars are integers and
a vector, frustum, projection settings or matrix is the list of the numbers it is
built from, tagged by the operation, so that values built from different inputs
differ. -/
def list_math : CameraMath Int (List Int) (List Int) (List Int) (List Int) :=
  { zero := 0
    half := 0
    one := 1
    two := 2
    add := fun a b => a + b
    div := fun a b => a / b
    not_equal := fun a b => decide (a ≠ b)
    less := fun a b => decide (a < b)
    DegreeToRadians := fun a => a
    frustum_field_of_view_y := fun fov aspect near far => [0, fov, aspect, near, far]
    frustum := fun width height near far => [1, width, height, near, far]
    projection_zclip_zero := fun frustum => frustum
    perspective := fun settings => 2 :: settings
    orthographic := fun settings => 3 :: settings
    look_at := fun eye aim up => eye ++ aim ++ up
    mul := fun a b => a ++ b }

/-- A camera with orthogonal projection for a screen of 800 by 600 whose projection
settings are initialised and whose caches are still dirty. -/
def screen_camera : Camera Int (List Int) (List Int) (List Int) :=
  Camera.Resize list_math
    { m_projection := Projection.Orthogonal
      m_screen_size := { width := 0, height := 0 }
      m_aspect_ratio := 0
      m_parameters := { near_depth := 1, far_depth := 100, fov_deg := 90 }
      m_projection_settings := none
      m_current_orientation := { eye := [0, 0, 5], aim := [0, 0, 0], up := [0, 1, 0] }
      m_current_view_matrix := []
      m_current_proj_matrix := []
      m_current_view_proj_matrix := []
      m_is_current_view_matrix_dirty := true
      m_is_current_proj_matrix_dirty := true }
    { width := 800, height := 600 }

/-- The first view-projection matrix of `screen_camera` and the camera after that
call, with its caches filled. -/
def viewed_camera : List Int × Camera Int (List Int) (List Int) (List Int) :=
  match screen_camera.GetViewProjMatrix list_math with
  | .ok first => first
  | .error _ => ([], screen_camera)

/-- The applied textured-cube bindings stored at address 0 and connected to their
binding objects. -/
def cube_instances : Instances :=
  ProgramBindings.Initialize
    { program_bindings := fun _ => cube_applied.2.1, connected_receivers := fun _ => [] } 0

/-- The clone of the applied textured-cube bindings, with the world it is created
in. -/
def cube_clone : ProgramBindings × World :=
  ProgramBindings.Copy cube_applied.2.2 cube_applied.2.1 none

/-- The clone after `ApplyResourceStates` with an owner queue, which creates its
barrier set. -/
def cube_clone_applied : Bool × ProgramBindings × World :=
  ApplyResourceStates cube_clone.2 cube_clone.1 [ProgramArgumentAccessType.Mutable]
    (some { family_index := 1 })

/-- The source at address 0 and the applied clone at address 1, each connected to
its own binding objects. -/
def cube_instances_with_clone : Instances :=
  (ProgramBindings.Initialize (cube_instances.SetProgramBindings 1 cube_clone.1)
    1).SetProgramBindings 1 cube_clone_applied.2.1

end Example

/-- The error of a failed call, if it failed. -/
def ErrorOf {α : Type} (result : Except Error α) : Option Error :=
  match result with
  | .error e => some e
  | .ok _ => none

/-- The value of a successful call, if it succeeded. -/
def ValueOf {α : Type} (result : Except Error α) : Option α :=
  match result with
  | .error _ => none
  | .ok value => some value

/-- The error of a failed argument check, if it failed. -/
def CheckErrorOf {α : Type} (result : Except CheckError α) : Option CheckError :=
  match result with
  | .error e => some e
  | .ok _ => none

/-- The value of a call that passed its argument checks, if it did. -/
def CheckValueOf {α : Type} (result : Except CheckError α) : Option α :=
  match result with
  | .error _ => none
  | .ok value => some value

/-- The value of a camera call that did not throw, if it did not. -/
def CameraValueOf {α : Type} (result : Except CameraError α) : Option α :=
  match result with
  | .error _ => none
  | .ok value => some value

/-! ## Theorems -/


/-- Claim C1: when the declared resource type matches the resource,
`GetBoundResourceTargetState` gives UnorderedAccess for a buffer with ShaderWrite
usage, otherwise the current state of a buffer that is not privately stored,
otherwise ConstantBuffer for a constant accessor, UnorderedAccess for a texture with
ShaderWrite usage, otherwise DepthRead for a shader-read depth-stencil texture, and
ShaderResource in every remaining case (private non-constant buffer, other
textures, samplers). -/
theorem GetBoundResourceTargetState_table (resource : Resource) (resource_type : ResourceType)
    (is_constant_binding : Bool) (h_type : resource_type = resource.GetResourceType) :
    (∀ s, resource.object = ResourceObject.Buffer s →
        s.usage_mask.HasBit ResourceUsage.ShaderWrite = true →
        GetBoundResourceTargetState resource resource_type is_constant_binding
          = .ok ResourceState.UnorderedAccess) ∧
    (∀ s, resource.object = ResourceObject.Buffer s →
        s.usage_mask.HasBit ResourceUsage.ShaderWrite = false →
        s.storage_mode ≠ StorageMode.Private →
        GetBoundResourceTargetState resource resource_type is_constant_binding
          = .ok resource.GetState) ∧
    (∀ s, resource.object = ResourceObject.Buffer s →
        s.usage_mask.HasBit ResourceUsage.ShaderWrite = false →
        s.storage_mode = StorageMode.Private → is_constant_binding = true →
        GetBoundResourceTargetState resource resource_type is_constant_binding
          = .ok ResourceState.ConstantBuffer) ∧
    (∀ s, resource.object = ResourceObject.Texture s →
        s.usage_mask.HasBit ResourceUsage.ShaderWrite = true →
        GetBoundResourceTargetState resource resource_type is_constant_binding
          = .ok ResourceState.UnorderedAccess) ∧
    (∀ s, resource.object = ResourceObject.Texture s →
        s.usage_mask.HasBit ResourceUsage.ShaderWrite = false →
        s.usage_mask.HasBit ResourceUsage.ShaderRead = true →
        s.type = TextureType.DepthStencil →
        GetBoundResourceTargetState resource resource_type is_constant_binding
          = .ok ResourceState.DepthRead) ∧
    (∀ s, resource.object = ResourceObject.Buffer s →
        s.usage_mask.HasBit ResourceUsage.ShaderWrite = false →
        s.storage_mode = StorageMode.Private → is_constant_binding = false →
        GetBoundResourceTargetState resource resource_type is_constant_binding
          = .ok ResourceState.ShaderResource) ∧
    (∀ s, resource.object = ResourceObject.Texture s →
        s.usage_mask.HasBit ResourceUsage.ShaderWrite = false →
        ¬ (s.usage_mask.HasBit ResourceUsage.ShaderRead = true ∧ s.type = TextureType.DepthStencil) →
        GetBoundResourceTargetState resource resource_type is_constant_binding
          = .ok ResourceState.ShaderResource) ∧
    (resource.object = ResourceObject.Sampler →
        GetBoundResourceTargetState resource resource_type is_constant_binding
          = .ok ResourceState.ShaderResource) := by
  subst h_type
  refine ⟨?_, ?_, ?_, ?_, ?_, ?_, ?_, ?_⟩
  · intro s hs hw
    simp [GetBoundResourceTargetState, Resource.GetResourceType, hs, hw]
  · intro s hs hw hp
    simp [GetBoundResourceTargetState, Resource.GetResourceType, hs, hw, hp]
  · intro s hs hw hp hc
    simp [GetBoundResourceTargetState, Resource.GetResourceType, hs, hw, hp, hc]
  · intro s hs hw
    simp [GetBoundResourceTargetState, Resource.GetResourceType, hs, hw]
  · intro s hs hw hr hd
    simp [GetBoundResourceTargetState, Resource.GetResourceType, hs, hw, hr, hd]
  · intro s hs hw hp hc
    simp [GetBoundResourceTargetState, Resource.GetResourceType, hs, hw, hp, hc]
  · intro s hs hw hn
    simp only [not_and] at hn
    by_cases hr : s.usage_mask.HasBit ResourceUsage.ShaderRead = true
    · simp [GetBoundResourceTargetState, Resource.GetResourceType, hs, hw, hr, hn hr]
    · simp [GetBoundResourceTargetState, Resource.GetResourceType, hs, hw, hr]
  · intro hs
    simp [GetBoundResourceTargetState, Resource.GetResourceType, hs]

/-- Witness of C1: the shader-read depth-stencil texture of the example world, bound
to a texture argument, gets DepthRead. -/
theorem GetBoundResourceTargetState_table_witness :
    ResourceType.Texture = Example.depth_texture.GetResourceType ∧
    GetBoundResourceTargetState Example.depth_texture ResourceType.Texture false
      = .ok ResourceState.DepthRead :=
  ⟨rfl, (GetBoundResourceTargetState_table Example.depth_texture ResourceType.Texture false rfl).2.2.2.2.1
    _ rfl (by decide) (by decide) rfl⟩


theorem mem_SetInsert {K : Type} [DecidableEq K] (set : List K) (key x : K) :
    x ∈ SetInsert set key ↔ x ∈ set ∨ x = key := by
  unfold SetInsert
  by_cases h : key ∈ set
  · simp only [h, if_true]
    constructor
    · exact Or.inl
    · rintro (hx | rfl)
      · exact hx
      · exact h
  · simp [h]

theorem nodup_SetInsert {K : Type} [DecidableEq K] (set : List K) (key : K) (h : set.Nodup) :
    (SetInsert set key).Nodup := by
  unfold SetInsert
  by_cases hk : key ∈ set
  · simpa [hk] using h
  · simp only [hk, if_false]
    rw [List.nodup_append]
    refine ⟨h, List.nodup_singleton key, ?_⟩
    intro a ha hb
    simp only [List.mem_singleton] at hb
    subst hb
    exact hk ha

theorem mem_GetUnboundArgumentsLoop (w : World) (map : ArgumentBindings) (acc : ProgramArguments)
    (a : ProgramArgument) :
    a ∈ GetUnboundArgumentsLoop w map acc ↔
      a ∈ acc ∨ ∃ p, (a, p) ∈ map ∧ (w.bindings p).GetSettings.argument.IsRootConstant = false
        ∧ (w.bindings p).GetResourceViews = [] := by
  induction map generalizing acc with
  | nil => simp [GetUnboundArgumentsLoop]
  | cons e rest ih =>
    obtain ⟨k, q⟩ := e
    unfold GetUnboundArgumentsLoop
    by_cases hc : (!(w.bindings q).GetSettings.argument.IsRootConstant
        && (w.bindings q).GetResourceViews.isEmpty) = true
    · rw [if_pos hc, ih, mem_SetInsert]
      simp only [Bool.and_eq_true, Bool.not_eq_true', List.isEmpty_iff] at hc
      constructor
      · rintro ((h | rfl) | ⟨p, hp, h1, h2⟩)
        · exact Or.inl h
        · exact Or.inr ⟨q, List.mem_cons_self _ _, hc.1, hc.2⟩
        · exact Or.inr ⟨p, List.mem_cons_of_mem _ hp, h1, h2⟩
      · rintro (h | ⟨p, hp, h1, h2⟩)
        · exact Or.inl (Or.inl h)
        · rcases List.mem_cons.1 hp with heq | hp
          · injection heq with h3 h4
            exact Or.inl (Or.inr h3)
          · exact Or.inr ⟨p, hp, h1, h2⟩
    · rw [if_neg hc, ih]
      simp only [Bool.and_eq_true, Bool.not_eq_true', List.isEmpty_iff, not_and] at hc
      constructor
      · rintro (h | ⟨p, hp, h1, h2⟩)
        · exact Or.inl h
        · exact Or.inr ⟨p, List.mem_cons_of_mem _ hp, h1, h2⟩
      · rintro (h | ⟨p, hp, h1, h2⟩)
        · exact Or.inl h
        · rcases List.mem_cons.1 hp with heq | hp
          · injection heq with h3 h4
            subst h4
            exact absurd h2 (hc h1)
          · exact Or.inr ⟨p, hp, h1, h2⟩

theorem nodup_GetUnboundArgumentsLoop (w : World) (map : ArgumentBindings) (acc : ProgramArguments)
    (h : acc.Nodup) : (GetUnboundArgumentsLoop w map acc).Nodup := by
  induction map generalizing acc with
  | nil => simpa [GetUnboundArgumentsLoop] using h
  | cons e rest ih =>
    obtain ⟨k, q⟩ := e
    unfold GetUnboundArgumentsLoop
    split
    · exact ih _ (nodup_SetInsert _ _ h)
    · exact ih _ h

/-- Claim C2: `GetUnboundArguments` returns exactly the arguments whose binding is
not of RootConstant kind and has an empty resource-view list: an argument is in the
result if and only if both conditions hold for a binding stored under it, and the
result is a set (no argument twice). -/
theorem GetUnboundArguments_exact (w : World) (pb : ProgramBindings) :
    (∀ a, a ∈ GetUnboundArguments w pb ↔
      ∃ p, (a, p) ∈ pb.m_binding_by_argument
        ∧ (w.bindings p).GetSettings.argument.IsRootConstant = false
        ∧ (w.bindings p).GetResourceViews = []) ∧
    (GetUnboundArguments w pb).Nodup := by
  refine ⟨fun a => ?_, nodup_GetUnboundArgumentsLoop w _ [] List.nodup_nil⟩
  unfold GetUnboundArguments
  rw [mem_GetUnboundArgumentsLoop]
  simp

theorem MapFind_eq_none {K V : Type} [DecidableEq K] (key : K) (map : List (K × V)) :
    MapFind key map = none ↔ ∀ v, (key, v) ∉ map := by
  induction map with
  | nil => simp [MapFind]
  | cons e rest ih =>
    obtain ⟨k, v⟩ := e
    unfold MapFind
    by_cases h : k = key
    · subst h
      simp only [if_true]
      constructor
      · intro h; cases h
      · intro h; exact absurd (List.mem_cons_self _ _) (h v)
    · simp only [h, if_false, ih]
      constructor
      · intro hr v2 hm
        rcases List.mem_cons.1 hm with heq | hm
        · injection heq with h1 h2
          exact h h1.symm
        · exact hr v2 hm
      · intro hr v2 hm
        exact hr v2 (List.mem_cons_of_mem _ hm)

theorem MapFind_mem {K V : Type} [DecidableEq K] (key : K) (map : List (K × V)) (v : V)
    (h : MapFind key map = some v) : (key, v) ∈ map := by
  induction map with
  | nil => simp [MapFind] at h
  | cons e rest ih =>
    obtain ⟨k, v2⟩ := e
    unfold MapFind at h
    by_cases hk : k = key
    · subst hk
      simp only [if_true, Option.some.injEq] at h
      subst h
      exact List.mem_cons_self _ _
    · simp only [hk, if_false] at h
      exact List.mem_cons_of_mem _ (ih h)

theorem MapFind_of_mem_nodup {K V : Type} [DecidableEq K] (key : K) (map : List (K × V)) (v : V)
    (hn : (map.map Prod.fst).Nodup) (h : (key, v) ∈ map) : MapFind key map = some v := by
  induction map with
  | nil => simp at h
  | cons e rest ih =>
    obtain ⟨k, v2⟩ := e
    simp only [List.map_cons, List.nodup_cons, List.mem_map, Prod.exists, exists_and_right,
      exists_eq_right, not_exists] at hn
    unfold MapFind
    rcases List.mem_cons.1 h with heq | hm
    · injection heq with h1 h2
      subst h1; subst h2
      simp
    · have : k ≠ key := by
        rintro rfl
        exact hn.1 v hm
      simp only [this, if_false]
      exact ih hn.2 hm

/-- Claim C3: `VerifyAllArgumentsAreBoundToResources` raises the unbound-arguments
error if and only if `GetUnboundArguments` is non-empty, and the error carries
exactly the unbound arguments; for the textured-cube program, binding `g_constants`,
`g_texture` and `g_sampler` succeeds with no unbound argument, and omitting
`g_texture` fails with the error that names exactly `g_texture`. -/
theorem VerifyAllArgumentsAreBoundToResources_iff (w : World) (pb : ProgramBindings) :
    (VerifyAllArgumentsAreBoundToResources w pb = .ok () ↔ GetUnboundArguments w pb = []) ∧
    (∀ e, VerifyAllArgumentsAreBoundToResources w pb = .error e ↔
      (GetUnboundArguments w pb ≠ [] ∧
        e = Error.UnboundArguments pb.m_program_ptr (GetUnboundArguments w pb))) ∧
    (ValueOf (ProgramBindings.ConstructWithValues Example.world 0 Example.cube_values 0)).map
        (fun state => (GetUnboundArguments state.2 state.1,
          ErrorOf (VerifyAllArgumentsAreBoundToResources state.2 state.1)))
      = some ([], none) ∧
    ErrorOf (ProgramBindings.ConstructWithValues Example.world 0
        Example.cube_values_without_texture 0)
      = some (Error.UnboundArguments 0 [Example.g_texture]) := by
  refine ⟨?_, ?_, by decide, by decide⟩
  · unfold VerifyAllArgumentsAreBoundToResources
    cases h : GetUnboundArguments w pb <;> simp
  · intro e
    unfold VerifyAllArgumentsAreBoundToResources
    cases h : GetUnboundArguments w pb with
    | nil => simp
    | cons a l =>
      simp only [List.isEmpty_cons, Bool.not_false, if_true, Except.error.injEq, ne_eq,
        not_false_eq_true, true_and, reduceCtorEq]
      exact eq_comm

/-- Claim C5: `Get` returns the binding stored for the argument when the argument
has a binding entry, and raises the argument-not-found error if and only if the
argument has no entry; `Get` only reads the program bindings, its result is the
looked-up binding and nothing else, so the state is the same after the call. -/
theorem Get_found_or_not_found (pb : ProgramBindings) (argument : ProgramArgument) :
    ((∃ p, (argument, p) ∈ pb.m_binding_by_argument) →
      ∃ p, Get pb argument = .ok p ∧ (argument, p) ∈ pb.m_binding_by_argument) ∧
    (∀ p, (pb.m_binding_by_argument.map Prod.fst).Nodup →
      (argument, p) ∈ pb.m_binding_by_argument → Get pb argument = .ok p) ∧
    (∀ e, Get pb argument = .error e ↔
      (e = Error.ProgramArgumentNotFound pb.m_program_ptr argument
        ∧ ∀ p, (argument, p) ∉ pb.m_binding_by_argument)) := by
  refine ⟨?_, ?_, ?_⟩
  · rintro ⟨p, hp⟩
    cases h : MapFind argument pb.m_binding_by_argument with
    | none => exact absurd hp ((MapFind_eq_none _ _).1 h p)
    | some q => exact ⟨q, by simp [Get, h], MapFind_mem _ _ _ h⟩
  · intro p hn hp
    simp [Get, MapFind_of_mem_nodup _ _ _ hn hp]
  · intro e
    cases h : MapFind argument pb.m_binding_by_argument with
    | none =>
      simp only [Get, h, Except.error.injEq]
      constructor
      · intro he
        exact ⟨he.symm, (MapFind_eq_none _ _).1 h⟩
      · intro he
        exact he.1.symm
    | some q =>
      simp only [Get, h, reduceCtorEq, false_iff, not_and, not_forall, not_not]
      intro _
      exact ⟨q, MapFind_mem _ _ _ h⟩

/-- Witness of C5: in the bindings constructed for the textured-cube program, `Get`
of `g_texture` returns the binding object created for it. -/
theorem Get_found_or_not_found_witness :
    ((ProgramBindings.Construct Example.world 0 0).1.m_binding_by_argument.map Prod.fst).Nodup ∧
    (Example.g_texture, 6) ∈ (ProgramBindings.Construct Example.world 0 0).1.m_binding_by_argument ∧
    Get (ProgramBindings.Construct Example.world 0 0).1 Example.g_texture = .ok 6 :=
  ⟨by decide, by decide,
    (Get_found_or_not_found (ProgramBindings.Construct Example.world 0 0).1 Example.g_texture).2.1 6
      (by decide) (by decide)⟩

/-! ### Frame lemmas and the sampler invariant -/

@[simp] theorem SetBinding_resources (w : World) (p : BindingPtr) (b : ArgumentBinding) :
    (w.SetBinding p b).resources = w.resources := rfl

@[simp] theorem SetBinding_programs (w : World) (p : BindingPtr) (b : ArgumentBinding) :
    (w.SetBinding p b).programs = w.programs := rfl

@[simp] theorem SetBinding_bindings_end (w : World) (p : BindingPtr) (b : ArgumentBinding) :
    (w.SetBinding p b).bindings_end = w.bindings_end := rfl

@[simp] theorem SetProgram_resources (w : World) (p : ProgramPtr) (b : Program) :
    (w.SetProgram p b).resources = w.resources := rfl

@[simp] theorem SetProgram_bindings (w : World) (p : ProgramPtr) (b : Program) :
    (w.SetProgram p b).bindings = w.bindings := rfl

@[simp] theorem SetProgram_bindings_end (w : World) (p : ProgramPtr) (b : Program) :
    (w.SetProgram p b).bindings_end = w.bindings_end := rfl

@[simp] theorem SetResource_bindings (w : World) (p : ResourcePtr) (r : Resource) :
    (w.SetResource p r).bindings = w.bindings := rfl

theorem SetBucket_apply (buckets : ProgramArgumentAccessType → ResourceStates)
    (index i : ProgramArgumentAccessType) (bucket : ResourceStates) :
    SetBucket buckets index bucket i = if i = index then bucket else buckets i := rfl

@[simp] theorem SetBucket_same (buckets : ProgramArgumentAccessType → ResourceStates)
    (index : ProgramArgumentAccessType) (bucket : ResourceStates) :
    SetBucket buckets index bucket index = bucket := by
  simp [SetBucket]

theorem SetBucket_other (buckets : ProgramArgumentAccessType → ResourceStates)
    (index i : ProgramArgumentAccessType) (bucket : ResourceStates) (h : i ≠ index) :
    SetBucket buckets index bucket i = buckets i := by
  simp [SetBucket, h]

theorem CreateArgumentBindingInstance_resources (w : World) (p : BindingPtr) (f : Nat) :
    (CreateArgumentBindingInstance w p f).2.resources = w.resources := rfl

theorem InitializeArgumentBindingsLoop_frame (l : ArgumentBindings) (pb : ProgramBindings) (w : World) :
    (InitializeArgumentBindingsLoop l (pb, w)).1.m_transition_resource_states_by_access
        = pb.m_transition_resource_states_by_access ∧
    (InitializeArgumentBindingsLoop l (pb, w)).1.m_resource_state_transition_barriers_ptr
        = pb.m_resource_state_transition_barriers_ptr ∧
    (InitializeArgumentBindingsLoop l (pb, w)).1.m_program_ptr = pb.m_program_ptr ∧
    (InitializeArgumentBindingsLoop l (pb, w)).1.m_frame_index = pb.m_frame_index ∧
    (InitializeArgumentBindingsLoop l (pb, w)).2.resources = w.resources := by
  induction l generalizing pb w with
  | nil => simp [InitializeArgumentBindingsLoop]
  | cons e rest ih =>
    obtain ⟨a, p⟩ := e
    unfold InitializeArgumentBindingsLoop
    dsimp only
    split
    · exact ih _ _
    · obtain ⟨h1, h2, h3, h4, h5⟩ := ih
        { pb with
          m_arguments := SetInsert pb.m_arguments a
          m_binding_by_argument := MapTryEmplace pb.m_binding_by_argument a
            (CreateArgumentBindingInstance w p pb.m_frame_index).1 }
        (CreateArgumentBindingInstance w p pb.m_frame_index).2
      exact ⟨h1, h2, h3, h4, by rw [h5, CreateArgumentBindingInstance_resources]⟩

theorem AddTransitionResourceStatesLoop_no_sampler (w : World)
    (settings : ProgramArgumentBindingSettings) (views : ResourceViews)
    (acc result : ResourceStates)
    (h : AddTransitionResourceStatesLoop w settings views acc = .ok result)
    (hacc : ∀ entry ∈ acc, (w.resources entry.resource_ptr).GetResourceType ≠ ResourceType.Sampler) :
    ∀ entry ∈ result, (w.resources entry.resource_ptr).GetResourceType ≠ ResourceType.Sampler := by
  induction views generalizing acc with
  | nil =>
    simp only [AddTransitionResourceStatesLoop, Except.ok.injEq] at h
    subst h
    exact hacc
  | cons v rest ih =>
    unfold AddTransitionResourceStatesLoop at h
    dsimp only at h
    split at h
    · exact ih acc h hacc
    · rename_i hns
      split at h
      · cases h
      · refine ih _ h ?_
        intro entry he
        rcases List.mem_append.1 he with he | he
        · exact hacc entry he
        · simp only [List.mem_singleton] at he
          subst he
          exact hns

theorem AddTransitionResourceStates_no_sampler (w : World) (pb pb1 : ProgramBindings)
    (binding : ArgumentBinding) (h : AddTransitionResourceStates w pb binding = .ok pb1)
    (hinv : NoSamplerInBuckets w pb) : NoSamplerInBuckets w pb1 := by
  unfold AddTransitionResourceStates at h
  dsimp only at h
  split at h
  · cases h
  · rename_i states hloop
    simp only [Except.ok.injEq] at h
    subst h
    intro t entry he
    dsimp only at he
    rw [SetBucket_apply] at he
    split at he
    · exact AddTransitionResourceStatesLoop_no_sampler w _ _ _ _ hloop (fun e2 h2 => hinv _ e2 h2) entry he
    · exact hinv t entry he

theorem SetResourcesForArgumentsLoop_no_sampler (values : BindingValueByArgument)
    (pb : ProgramBindings) (w : World) (state : ProgramBindings × World)
    (h : SetResourcesForArgumentsLoop values (pb, w) = .ok state)
    (hinv : NoSamplerInBuckets w pb) :
    state.2.resources = w.resources ∧ NoSamplerInBuckets state.2 state.1 := by
  induction values generalizing pb w with
  | nil =>
    simp only [SetResourcesForArgumentsLoop, Except.ok.injEq] at h
    subst h
    exact ⟨rfl, hinv⟩
  | cons e rest ih =>
    obtain ⟨a, v⟩ := e
    unfold SetResourcesForArgumentsLoop at h
    split at h
    · cases h
    · rename_i p hget
      dsimp only at h
      split at h
      · cases h
      · rename_i pb1 hadd
        have hinv1 : NoSamplerInBuckets (w.SetBinding p
            ((ApplyBindingValue ((w.bindings p).SetEmitCallbackEnabled false) v).SetEmitCallbackEnabled true)) pb :=
          hinv
        have := ih pb1 _ h (AddTransitionResourceStates_no_sampler _ _ _ _ hadd hinv1)
        exact ⟨this.1, this.2⟩

theorem SetResourcesForArguments_no_sampler (values : BindingValueByArgument)
    (pb : ProgramBindings) (w : World) (state : ProgramBindings × World)
    (h : SetResourcesForArguments w pb values = .ok state)
    (hinv : NoSamplerInBuckets w pb) :
    state.2.resources = w.resources ∧ NoSamplerInBuckets state.2 state.1 := by
  unfold SetResourcesForArguments at h
  split at h
  · cases h
  · rename_i s hloop
    simp only [Except.ok.injEq] at h
    subst h
    have := SetResourcesForArgumentsLoop_no_sampler values pb w s hloop hinv
    exact ⟨this.1, this.2⟩



theorem RemoveTransitionResourceStates_subset (w : World) (pb : ProgramBindings)
    (binding : ArgumentBinding) (r : ResourcePtr) (t : ProgramArgumentAccessType)
    (entry : ResourceAndState)
    (h : entry ∈ (RemoveTransitionResourceStates w pb binding r).m_transition_resource_states_by_access t) :
    entry ∈ pb.m_transition_resource_states_by_access t := by
  unfold RemoveTransitionResourceStates at h
  split at h
  · exact h
  · dsimp only at h
    rw [SetBucket_apply] at h
    split at h
    · rename_i heq
      subst heq
      exact List.mem_of_mem_eraseP h
    · exact h

theorem RemoveTransitionResourceStates_barriers (w : World) (pb : ProgramBindings)
    (binding : ArgumentBinding) (r : ResourcePtr) :
    (RemoveTransitionResourceStates w pb binding r).m_resource_state_transition_barriers_ptr
      = pb.m_resource_state_transition_barriers_ptr := by
  unfold RemoveTransitionResourceStates
  split <;> rfl

theorem RemoveUnusedResourcesLoop_subset (w : World) (binding : ArgumentBinding)
    (new_views old_views : ResourceViews) (processed : List ResourcePtr) (pb : ProgramBindings)
    (t : ProgramArgumentAccessType) (entry : ResourceAndState)
    (h : entry ∈ (RemoveUnusedResourcesLoop w binding new_views old_views processed
      pb).m_transition_resource_states_by_access t) :
    entry ∈ pb.m_transition_resource_states_by_access t := by
  induction old_views generalizing processed pb with
  | nil => exact h
  | cons v rest ih =>
    unfold RemoveUnusedResourcesLoop at h
    split at h
    · exact ih _ _ h
    · split at h
      · exact ih _ _ h
      · dsimp only at h
        have h2 := ih _ _ h
        have h3 := RemoveTransitionResourceStates_subset _ _ _ _ _ _ h2
        exact h3


theorem AddTransitionResourceState_no_sampler (w : World) (pb pb1 : ProgramBindings)
    (binding : ArgumentBinding) (r : ResourcePtr)
    (h : AddTransitionResourceState w pb binding r = .ok pb1)
    (hinv : NoSamplerInBuckets w pb) : NoSamplerInBuckets w pb1 := by
  unfold AddTransitionResourceState at h
  split at h
  · simp only [Except.ok.injEq] at h
    subst h
    exact hinv
  · rename_i hns
    dsimp only at h
    split at h
    · cases h
    · simp only [Except.ok.injEq] at h
      subst h
      intro t entry he
      dsimp only at he
      rw [SetBucket_apply] at he
      split at he
      · rcases List.mem_append.1 he with he | he
        · exact hinv _ entry he
        · simp only [List.mem_singleton] at he
          subst he
          exact hns
      · exact hinv t entry he

theorem AddNewResourcesLoop_no_sampler (w : World) (binding : ArgumentBinding)
    (views : ResourceViews) (pb pb1 : ProgramBindings)
    (h : AddNewResourcesLoop w binding views pb = .ok pb1)
    (hinv : NoSamplerInBuckets w pb) : NoSamplerInBuckets w pb1 := by
  induction views generalizing pb with
  | nil =>
    simp only [AddNewResourcesLoop, Except.ok.injEq] at h
    subst h
    exact hinv
  | cons v rest ih =>
    unfold AddNewResourcesLoop at h
    split at h
    · cases h
    · rename_i pb2 hadd
      exact ih pb2 h (AddTransitionResourceState_no_sampler _ _ _ _ _ hadd hinv)

theorem OnProgramArgumentBindingResourceViewsChanged_no_sampler (w : World)
    (pb pb1 : ProgramBindings) (binding : ArgumentBinding) (old_views new_views : ResourceViews)
    (h : OnProgramArgumentBindingResourceViewsChanged w pb binding old_views new_views = .ok pb1)
    (hinv : NoSamplerInBuckets w pb) : NoSamplerInBuckets w pb1 := by
  unfold OnProgramArgumentBindingResourceViewsChanged at h
  split at h
  · simp only [Except.ok.injEq] at h
    subst h
    exact hinv
  · refine AddNewResourcesLoop_no_sampler _ _ _ _ _ h ?_
    intro t entry he
    exact hinv t entry (RemoveUnusedResourcesLoop_subset _ _ _ _ _ _ _ _ he)



theorem SetState_object (w : World) (p : ResourcePtr) (s : ResourceState)
    (b : Option ResourceBarriers) (r : ResourcePtr) :
    ((SetState w p s b).2.1.resources r).object = (w.resources r).object := by
  unfold SetState
  dsimp only
  split
  · rfl
  · simp only [World.SetResource]
    split
    · rename_i h; subst h; rfl
    · rfl

theorem SetOwnerQueueFamily_object (w : World) (p : ResourcePtr) (f : Nat)
    (b : Option ResourceBarriers) (r : ResourcePtr) :
    ((SetOwnerQueueFamily w p f b).2.1.resources r).object = (w.resources r).object := by
  unfold SetOwnerQueueFamily
  dsimp only
  split
  · rfl
  · simp only [World.SetResource]
    split
    · rename_i h; subst h; rfl
    · rfl

theorem ApplyResourceStatesLoop_object (q : Option CommandQueue) (l : ResourceStates)
    (c : Bool) (w : World) (b : Option ResourceBarriers) (r : ResourcePtr) :
    ((ApplyResourceStatesLoop q l (c, w, b)).2.1.resources r).object = (w.resources r).object := by
  induction l generalizing c w b with
  | nil => rfl
  | cons e rest ih =>
    unfold ApplyResourceStatesLoop
    dsimp only
    rw [ih, SetState_object]
    cases q with
    | none => rfl
    | some queue => exact SetOwnerQueueFamily_object _ _ _ _ _

theorem ApplyResourceStatesLoop_append (q : Option CommandQueue) (l1 l2 : ResourceStates)
    (state : Bool × World × Option ResourceBarriers) :
    ApplyResourceStatesLoop q (l1 ++ l2) state
      = ApplyResourceStatesLoop q l2 (ApplyResourceStatesLoop q l1 state) := by
  induction l1 generalizing state with
  | nil => rfl
  | cons e rest ih =>
    obtain ⟨c, w, b⟩ := state
    simp only [List.cons_append, ApplyResourceStatesLoop]
    exact ih _

theorem foldl_ApplyResourceStatesLoop (q : Option CommandQueue)
    (buckets : ProgramArgumentAccessType → ResourceStates)
    (types : List ProgramArgumentAccessType) (state : Bool × World × Option ResourceBarriers) :
    types.foldl (fun s t => ApplyResourceStatesLoop q (buckets t) s) state
      = ApplyResourceStatesLoop q (types.map buckets).flatten state := by
  induction types generalizing state with
  | nil =>
    obtain ⟨c, w, b⟩ := state
    rfl
  | cons t rest ih =>
    simp only [List.foldl_cons, List.map_cons, List.flatten_cons, ApplyResourceStatesLoop_append]
    exact ih _

theorem ApplyResourceStates_eq (w : World) (pb : ProgramBindings)
    (access : EnumMask ProgramArgumentAccessType) (q : Option CommandQueue) :
    ApplyResourceStates w pb access q =
      ((ApplyResourceStatesLoop q (SelectedResourceStates pb access)
          (false, w, pb.m_resource_state_transition_barriers_ptr)).1,
        { pb with m_resource_state_transition_barriers_ptr :=
            (ApplyResourceStatesLoop q (SelectedResourceStates pb access)
              (false, w, pb.m_resource_state_transition_barriers_ptr)).2.2 },
        (ApplyResourceStatesLoop q (SelectedResourceStates pb access)
          (false, w, pb.m_resource_state_transition_barriers_ptr)).2.1) := by
  unfold ApplyResourceStates ForEachBitInEnumMask SelectedResourceStates
  simp only [foldl_ApplyResourceStatesLoop]

theorem ApplyResourceStates_no_sampler (w : World) (pb : ProgramBindings)
    (access : EnumMask ProgramArgumentAccessType) (q : Option CommandQueue)
    (hinv : NoSamplerInBuckets w pb) :
    NoSamplerInBuckets (ApplyResourceStates w pb access q).2.2
      (ApplyResourceStates w pb access q).2.1 := by
  rw [ApplyResourceStates_eq]
  intro t entry he
  have := hinv t entry he
  unfold Resource.GetResourceType at this ⊢
  dsimp only
  rw [ApplyResourceStatesLoop_object]
  exact this


theorem Construct_frame (w : World) (program : ProgramPtr) (frame_index : Nat) :
    (ProgramBindings.Construct w program frame_index).1.m_transition_resource_states_by_access
        = (fun _ => []) ∧
    (ProgramBindings.Construct w program frame_index).1.m_resource_state_transition_barriers_ptr
        = none ∧
    (ProgramBindings.Construct w program frame_index).2.resources = w.resources := by
  unfold ProgramBindings.Construct InitializeArgumentBindings
  dsimp only
  obtain ⟨h1, h2, -, -, h5⟩ := InitializeArgumentBindingsLoop_frame
    ((GetBindingsCountAndIncrement w program).2.programs program).GetArgumentBindings
    { m_program_ptr := program
      m_frame_index := frame_index
      m_arguments := []
      m_binding_by_argument := []
      m_transition_resource_states_by_access := fun _ => []
      m_resource_refs_by_access := fun _ => []
      m_resource_state_transition_barriers_ptr := none
      m_bindings_index := (GetBindingsCountAndIncrement w program).1 }
    (GetBindingsCountAndIncrement w program).2
  exact ⟨h1, h2, h5⟩

theorem Copy_frame (w : World) (other : ProgramBindings) (frame_index : Option Nat) :
    (ProgramBindings.Copy w other frame_index).1.m_transition_resource_states_by_access
        = other.m_transition_resource_states_by_access ∧
    (ProgramBindings.Copy w other frame_index).1.m_resource_state_transition_barriers_ptr
        = none ∧
    (ProgramBindings.Copy w other frame_index).1.m_frame_index
        = frame_index.getD other.m_frame_index ∧
    (ProgramBindings.Copy w other frame_index).2.resources = w.resources := by
  unfold ProgramBindings.Copy InitializeArgumentBindings
  dsimp only
  obtain ⟨h1, h2, -, h4, h5⟩ := InitializeArgumentBindingsLoop_frame
    other.GetArgumentBindings
    { m_program_ptr := other.m_program_ptr
      m_frame_index := frame_index.getD other.m_frame_index
      m_arguments := []
      m_binding_by_argument := []
      m_transition_resource_states_by_access := other.m_transition_resource_states_by_access
      m_resource_refs_by_access := fun _ => []
      m_resource_state_transition_barriers_ptr := none
      m_bindings_index := (GetBindingsCountAndIncrement w other.m_program_ptr).1 }
    (GetBindingsCountAndIncrement w other.m_program_ptr).2
  exact ⟨h1, h2, h4, h5⟩

theorem Construct_no_sampler (w : World) (program : ProgramPtr) (frame_index : Nat) :
    NoSamplerInBuckets (ProgramBindings.Construct w program frame_index).2
      (ProgramBindings.Construct w program frame_index).1 := by
  intro t entry he
  rw [(Construct_frame w program frame_index).1] at he
  cases he

theorem Copy_no_sampler (w : World) (other : ProgramBindings) (frame_index : Option Nat)
    (hinv : NoSamplerInBuckets w other) :
    NoSamplerInBuckets (ProgramBindings.Copy w other frame_index).2
      (ProgramBindings.Copy w other frame_index).1 := by
  intro t entry he
  rw [(Copy_frame w other frame_index).1] at he
  rw [(Copy_frame w other frame_index).2.2.2]
  exact hinv t entry he

/-- Claim C7: no transition bucket ever holds an entry whose resource is a sampler:
this holds after each of the four construction forms (for the two copy forms when
it holds of the source) and is preserved by `SetResourcesForArguments`, by every
resource-views-changed notification and by `ApplyResourceStates`, whatever is
bound. -/
theorem NoSamplerInBuckets_invariant :
    (∀ w program frame_index,
      NoSamplerInBuckets (ProgramBindings.Construct w program frame_index).2
        (ProgramBindings.Construct w program frame_index).1) ∧
    (∀ w program values frame_index state,
      ProgramBindings.ConstructWithValues w program values frame_index = .ok state →
      NoSamplerInBuckets state.2 state.1) ∧
    (∀ w other frame_index, NoSamplerInBuckets w other →
      NoSamplerInBuckets (ProgramBindings.Copy w other frame_index).2
        (ProgramBindings.Copy w other frame_index).1) ∧
    (∀ w other replace frame_index state, NoSamplerInBuckets w other →
      ProgramBindings.CopyWithReplacement w other replace frame_index = .ok state →
      NoSamplerInBuckets state.2 state.1) ∧
    (∀ w pb values state, NoSamplerInBuckets w pb →
      SetResourcesForArguments w pb values = .ok state →
      NoSamplerInBuckets state.2 state.1) ∧
    (∀ w pb argument_binding old_resource_views new_resource_views pb1,
      NoSamplerInBuckets w pb →
      OnProgramArgumentBindingResourceViewsChanged w pb argument_binding
        old_resource_views new_resource_views = .ok pb1 →
      NoSamplerInBuckets w pb1) ∧
    (∀ w pb access owner_queue_ptr, NoSamplerInBuckets w pb →
      NoSamplerInBuckets (ApplyResourceStates w pb access owner_queue_ptr).2.2
        (ApplyResourceStates w pb access owner_queue_ptr).2.1) := by
  refine ⟨Construct_no_sampler, ?_, Copy_no_sampler, ?_, ?_, ?_, ?_⟩
  · intro w program values frame_index state h
    unfold ProgramBindings.ConstructWithValues at h
    dsimp only at h
    split at h
    · cases h
    · rename_i s hset
      split at h
      · cases h
      · simp only [Except.ok.injEq] at h
        subst h
        exact (SetResourcesForArguments_no_sampler _ _ _ _ hset (Construct_no_sampler _ _ _)).2
  · intro w other replace frame_index state hinv h
    unfold ProgramBindings.CopyWithReplacement at h
    dsimp only at h
    split at h
    · cases h
    · rename_i s hset
      split at h
      · cases h
      · simp only [Except.ok.injEq] at h
        subst h
        exact (SetResourcesForArguments_no_sampler _ _ _ _ hset (Copy_no_sampler _ _ _ hinv)).2
  · intro w pb values state hinv h
    exact (SetResourcesForArguments_no_sampler _ _ _ _ h hinv).2
  · intro w pb binding old_views new_views pb1 hinv h
    exact OnProgramArgumentBindingResourceViewsChanged_no_sampler _ _ _ _ _ _ h hinv
  · intro w pb access q hinv
    exact ApplyResourceStates_no_sampler _ _ _ _ hinv

/-- Witness of C7: the bindings constructed with the values of the textured-cube
program, among them a sampler, hold no sampler in their buckets. -/
theorem NoSamplerInBuckets_invariant_witness :
    ∃ state, ProgramBindings.ConstructWithValues Example.world 0 Example.cube_values 0 = .ok state
      ∧ NoSamplerInBuckets state.2 state.1 := by
  have h : ErrorOf (ProgramBindings.ConstructWithValues Example.world 0 Example.cube_values 0)
      = none := by decide
  cases hx : ProgramBindings.ConstructWithValues Example.world 0 Example.cube_values 0 with
  | error e => rw [hx] at h; cases h
  | ok state => exact ⟨state, rfl, NoSamplerInBuckets_invariant.2.1 _ _ _ _ state hx⟩

/-! ### The change notification -/


theorem mem_StdSetEmplace (x y : Nat) (l : List Nat) :
    y ∈ StdSetEmplace x l ↔ y = x ∨ y ∈ l := by
  induction l with
  | nil => simp [StdSetEmplace]
  | cons z rest ih =>
    unfold StdSetEmplace
    split
    · simp
    · split
      · rename_i h
        subst h
        simp
      · simp only [List.mem_cons, ih]
        tauto

theorem CountEntriesOf_eraseP_same (r : ResourcePtr) (bucket : ResourceStates) :
    CountEntriesOf r (bucket.eraseP (fun entry => decide (entry.resource_ptr = r)))
      = CountEntriesOf r bucket - 1 := by
  induction bucket with
  | nil => rfl
  | cons e rest ih =>
    by_cases h : e.resource_ptr = r
    · simp [CountEntriesOf, List.eraseP_cons, h, List.countP_cons]
    · simp only [CountEntriesOf] at ih
      simp [CountEntriesOf, List.eraseP_cons, h, List.countP_cons, ih]

theorem CountEntriesOf_eraseP_other (r x : ResourcePtr) (bucket : ResourceStates) (h : x ≠ r) :
    CountEntriesOf r (bucket.eraseP (fun entry => decide (entry.resource_ptr = x)))
      = CountEntriesOf r bucket := by
  induction bucket with
  | nil => rfl
  | cons e rest ih =>
    by_cases hx : e.resource_ptr = x
    · have : e.resource_ptr ≠ r := by rw [hx]; exact h
      simp [CountEntriesOf, List.eraseP_cons, hx, List.countP_cons, h]
    · simp only [CountEntriesOf] at ih
      simp only [CountEntriesOf, List.eraseP_cons, hx, decide_False, cond_false, List.countP_cons, ih]

theorem RemoveTransitionResourceStates_bucket (w : World) (pb : ProgramBindings)
    (binding : ArgumentBinding) (r : ResourcePtr)
    (hns : (w.resources r).GetResourceType ≠ ResourceType.Sampler) :
    (RemoveTransitionResourceStates w pb binding r).m_transition_resource_states_by_access
        binding.GetSettings.argument.GetAccessorIndex
      = (pb.m_transition_resource_states_by_access
          binding.GetSettings.argument.GetAccessorIndex).eraseP
            (fun entry => decide (entry.resource_ptr = r)) := by
  unfold RemoveTransitionResourceStates
  rw [if_neg hns]
  simp

theorem RemoveUnusedResourcesLoop_barriers_isSome (w : World) (binding : ArgumentBinding)
    (new_views old_views : ResourceViews) (processed : List ResourcePtr) (pb : ProgramBindings) :
    (RemoveUnusedResourcesLoop w binding new_views old_views processed
      pb).m_resource_state_transition_barriers_ptr.isSome
      = pb.m_resource_state_transition_barriers_ptr.isSome := by
  induction old_views generalizing processed pb with
  | nil => rfl
  | cons v rest ih =>
    unfold RemoveUnusedResourcesLoop
    split
    · exact ih _ _
    · split
      · exact ih _ _
      · dsimp only
        rw [ih, RemoveTransitionResourceStates_barriers]
        cases pb.m_resource_state_transition_barriers_ptr <;> rfl

theorem RemoveUnusedResourcesLoop_count (w : World) (binding : ArgumentBinding)
    (new_views old_views : ResourceViews) (processed : List ResourcePtr) (pb : ProgramBindings)
    (r : ResourcePtr) (hns : (w.resources r).GetResourceType ≠ ResourceType.Sampler)
    (hnew : ∀ v ∈ new_views, v.GetResourcePtr ≠ r) (hproc : r ∉ processed) :
    CountEntriesOf r ((RemoveUnusedResourcesLoop w binding new_views old_views processed
        pb).m_transition_resource_states_by_access binding.GetSettings.argument.GetAccessorIndex)
      = CountEntriesOf r (pb.m_transition_resource_states_by_access
          binding.GetSettings.argument.GetAccessorIndex) - CountViewsOf r old_views := by
  induction old_views generalizing processed pb with
  | nil => simp [RemoveUnusedResourcesLoop, CountViewsOf]
  | cons v rest ih =>
    unfold RemoveUnusedResourcesLoop
    split
    · rename_i hskip
      have hne : v.GetResourcePtr ≠ r := by
        rintro rfl
        simp only [Bool.or_eq_true, decide_eq_true_eq] at hskip
        rcases hskip with h | h
        · exact hns h
        · exact hproc h
      rw [ih _ _ hproc]
      simp [CountViewsOf, List.countP_cons, hne]
    · rename_i hskip
      split
      · rename_i hused
        have hne : v.GetResourcePtr ≠ r := by
          rintro rfl
          simp only [List.any_eq_true, decide_eq_true_eq] at hused
          obtain ⟨nv, hnv, heq⟩ := hused
          exact hnew nv hnv heq
        rw [ih _ _ (by
          rw [mem_StdSetEmplace]
          rintro (h | h)
          · exact hne h.symm
          · exact hproc h)]
        simp [CountViewsOf, List.countP_cons, hne]
      · dsimp only
        simp only [Bool.or_eq_true, decide_eq_true_eq, not_or] at hskip
        rw [ih _ _ hproc, RemoveTransitionResourceStates_bucket _ _ _ _ hskip.1]
        dsimp only
        by_cases hne : v.GetResourcePtr = r
        · rw [hne, CountEntriesOf_eraseP_same]
          simp [CountViewsOf, List.countP_cons, hne]
          omega
        · rw [CountEntriesOf_eraseP_other _ _ _ hne]
          simp [CountViewsOf, List.countP_cons, hne]

theorem AddTransitionResourceState_bucket (w : World) (pb pb1 : ProgramBindings)
    (binding : ArgumentBinding) (r : ResourcePtr)
    (h : AddTransitionResourceState w pb binding r = .ok pb1) :
    ((w.resources r).GetResourceType = ResourceType.Sampler → pb1 = pb) ∧
    ((w.resources r).GetResourceType ≠ ResourceType.Sampler →
      ∃ target, GetBoundResourceTargetState (w.resources r) binding.GetSettings.resource_type
          binding.GetSettings.argument.IsConstant = .ok target ∧
        pb1 = { pb with
                m_transition_resource_states_by_access :=
                  SetBucket pb.m_transition_resource_states_by_access
                    binding.GetSettings.argument.GetAccessorIndex
                    (pb.m_transition_resource_states_by_access
                      binding.GetSettings.argument.GetAccessorIndex ++ [ResourceAndState.mk r target]) }) := by
  unfold AddTransitionResourceState at h
  split at h
  · rename_i hs
    simp only [Except.ok.injEq] at h
    exact ⟨fun _ => h.symm, fun hn => absurd hs hn⟩
  · rename_i hns
    refine ⟨fun hs => absurd hs hns, fun _ => ?_⟩
    dsimp only at h
    split at h
    · cases h
    · rename_i target htarget
      simp only [Except.ok.injEq] at h
      exact ⟨target, htarget, h.symm⟩

theorem AddNewResourcesLoop_bucket (w : World) (binding : ArgumentBinding)
    (views : ResourceViews) (pb pb1 : ProgramBindings)
    (h : AddNewResourcesLoop w binding views pb = .ok pb1) :
    (∀ entry ∈ pb.m_transition_resource_states_by_access
        binding.GetSettings.argument.GetAccessorIndex,
      entry ∈ pb1.m_transition_resource_states_by_access
        binding.GetSettings.argument.GetAccessorIndex) ∧
    (∀ v ∈ views, (w.resources v.GetResourcePtr).GetResourceType ≠ ResourceType.Sampler →
      ∃ entry ∈ pb1.m_transition_resource_states_by_access
          binding.GetSettings.argument.GetAccessorIndex,
        entry.resource_ptr = v.GetResourcePtr) ∧
    (∀ r, (∀ v ∈ views, v.GetResourcePtr ≠ r) →
      CountEntriesOf r (pb1.m_transition_resource_states_by_access
          binding.GetSettings.argument.GetAccessorIndex)
        = CountEntriesOf r (pb.m_transition_resource_states_by_access
          binding.GetSettings.argument.GetAccessorIndex)) := by
  induction views generalizing pb with
  | nil =>
    simp only [AddNewResourcesLoop, Except.ok.injEq] at h
    subst h
    simp
  | cons v rest ih =>
    unfold AddNewResourcesLoop at h
    split at h
    · cases h
    · rename_i pb2 hadd
      obtain ⟨ih1, ih2, ih3⟩ := ih pb2 h
      obtain ⟨hs, hn⟩ := AddTransitionResourceState_bucket _ _ _ _ _ hadd
      by_cases hsam : (w.resources v.GetResourcePtr).GetResourceType = ResourceType.Sampler
      · have := hs hsam
        subst this
        refine ⟨ih1, ?_, ?_⟩
        · intro v2 hv2 hns
          rcases List.mem_cons.1 hv2 with heq | hv2
          · subst heq
            exact absurd hsam hns
          · exact ih2 v2 hv2 hns
        · intro r hr
          exact ih3 r (fun v2 hv2 => hr v2 (List.mem_cons_of_mem _ hv2))
      · obtain ⟨target, -, heq⟩ := hn hsam
        subst heq
        simp only [SetBucket_same] at ih1 ih2 ih3
        refine ⟨?_, ?_, ?_⟩
        · intro entry he
          exact ih1 entry (List.mem_append_left _ he)
        · intro v2 hv2 hns
          rcases List.mem_cons.1 hv2 with heq | hv2
          · subst heq
            exact ⟨ResourceAndState.mk v2.GetResourcePtr target,
              ih1 _ (List.mem_append_right _ (List.mem_singleton_self _)), rfl⟩
          · exact ih2 v2 hv2 hns
        · intro r hr
          rw [ih3 r (fun v2 hv2 => hr v2 (List.mem_cons_of_mem _ hv2))]
          have hne : v.GetResourcePtr ≠ r := hr v (List.mem_cons_self _ _)
          simp [CountEntriesOf, List.countP_append, hne]


theorem AddNewResourcesLoop_ok (w : World) (binding : ArgumentBinding)
    (views : ResourceViews) (pb : ProgramBindings)
    (hcast : ∀ v ∈ views, (w.resources v.GetResourcePtr).GetResourceType = ResourceType.Sampler ∨
      ∃ target, GetBoundResourceTargetState (w.resources v.GetResourcePtr)
        binding.GetSettings.resource_type binding.GetSettings.argument.IsConstant = .ok target) :
    ∃ pb1, AddNewResourcesLoop w binding views pb = .ok pb1 := by
  induction views generalizing pb with
  | nil => exact ⟨pb, rfl⟩
  | cons v rest ih =>
    unfold AddNewResourcesLoop
    have hrest := fun pb2 => ih pb2 (fun v2 hv2 => hcast v2 (List.mem_cons_of_mem _ hv2))
    rcases hcast v (List.mem_cons_self _ _) with hs | ⟨target, ht⟩
    · simp only [AddTransitionResourceState, hs, if_true]
      exact hrest _
    · by_cases hs : (w.resources v.GetResourcePtr).GetResourceType = ResourceType.Sampler
      · simp only [AddTransitionResourceState, hs, if_true]
        exact hrest _
      · simp only [AddTransitionResourceState, hs, if_false, ht]
        exact hrest _

/-- Claim C6 (amended): a resource-views-changed notification that arrives while the
barrier set does not exist leaves the program bindings as they are.  When the
barrier set exists and the new resources are of the declared type, the notification
succeeds, and afterwards the bucket of the accessor type of the argument holds an
entry for every non-sampler resource of the new views; for a non-sampler resource
that no new view refers to, the number of its entries in that bucket has dropped by
the number of old views that refer to it, so that no entry of it remains when the
bucket held at most as many entries of it as the old views refer to it. -/
theorem OnProgramArgumentBindingResourceViewsChanged_bucket (w : World) (pb : ProgramBindings)
    (argument_binding : ArgumentBinding) (old_resource_views new_resource_views : ResourceViews) :
    (pb.m_resource_state_transition_barriers_ptr = none →
      OnProgramArgumentBindingResourceViewsChanged w pb argument_binding
        old_resource_views new_resource_views = .ok pb) ∧
    ((∀ v ∈ new_resource_views,
        (w.resources v.GetResourcePtr).GetResourceType = ResourceType.Sampler ∨
        ∃ target, GetBoundResourceTargetState (w.resources v.GetResourcePtr)
          argument_binding.GetSettings.resource_type
          argument_binding.GetSettings.argument.IsConstant = .ok target) →
      ∃ pb1, OnProgramArgumentBindingResourceViewsChanged w pb argument_binding
        old_resource_views new_resource_views = .ok pb1) ∧
    (∀ pb1, pb.m_resource_state_transition_barriers_ptr ≠ none →
      OnProgramArgumentBindingResourceViewsChanged w pb argument_binding
        old_resource_views new_resource_views = .ok pb1 →
      (∀ v ∈ new_resource_views,
        (w.resources v.GetResourcePtr).GetResourceType ≠ ResourceType.Sampler →
        ∃ entry ∈ pb1.m_transition_resource_states_by_access
            argument_binding.GetSettings.argument.GetAccessorIndex,
          entry.resource_ptr = v.GetResourcePtr) ∧
      (∀ r, (w.resources r).GetResourceType ≠ ResourceType.Sampler →
        (∀ v ∈ new_resource_views, v.GetResourcePtr ≠ r) →
        CountEntriesOf r (pb1.m_transition_resource_states_by_access
            argument_binding.GetSettings.argument.GetAccessorIndex)
          = CountEntriesOf r (pb.m_transition_resource_states_by_access
              argument_binding.GetSettings.argument.GetAccessorIndex)
            - CountViewsOf r old_resource_views) ∧
      (∀ r, (w.resources r).GetResourceType ≠ ResourceType.Sampler →
        (∀ v ∈ new_resource_views, v.GetResourcePtr ≠ r) →
        CountEntriesOf r (pb.m_transition_resource_states_by_access
            argument_binding.GetSettings.argument.GetAccessorIndex)
          ≤ CountViewsOf r old_resource_views →
        ∀ entry ∈ pb1.m_transition_resource_states_by_access
            argument_binding.GetSettings.argument.GetAccessorIndex,
          entry.resource_ptr ≠ r)) := by
  refine ⟨?_, ?_, ?_⟩
  · intro hnone
    simp [OnProgramArgumentBindingResourceViewsChanged, hnone]
  · intro hcast
    unfold OnProgramArgumentBindingResourceViewsChanged
    split
    · exact ⟨pb, rfl⟩
    · exact AddNewResourcesLoop_ok _ _ _ _ hcast
  · intro pb1 hsome h
    unfold OnProgramArgumentBindingResourceViewsChanged at h
    have hs : pb.m_resource_state_transition_barriers_ptr.isNone = false := by
      cases hb : pb.m_resource_state_transition_barriers_ptr with
      | none => exact absurd hb hsome
      | some b => rfl
    rw [hs] at h
    simp only [Bool.false_eq_true, if_false] at h
    obtain ⟨-, hadd, hcount⟩ := AddNewResourcesLoop_bucket _ _ _ _ _ h
    have hdrop : ∀ r, (w.resources r).GetResourceType ≠ ResourceType.Sampler →
        (∀ v ∈ new_resource_views, v.GetResourcePtr ≠ r) →
        CountEntriesOf r (pb1.m_transition_resource_states_by_access
            argument_binding.GetSettings.argument.GetAccessorIndex)
          = CountEntriesOf r (pb.m_transition_resource_states_by_access
              argument_binding.GetSettings.argument.GetAccessorIndex)
            - CountViewsOf r old_resource_views := by
      intro r hns hnew
      rw [hcount r hnew]
      exact RemoveUnusedResourcesLoop_count _ _ _ _ _ _ r hns hnew (List.not_mem_nil r)
    refine ⟨hadd, hdrop, ?_⟩
    intro r hns hnew hle entry he heq
    have h0 := hdrop r hns hnew
    rw [Nat.sub_eq_zero_of_le hle] at h0
    simp only [CountEntriesOf, List.countP_eq_zero, decide_eq_true_eq] at h0
    exact h0 entry he heq

/-- Witness of C6 (amended): once the barrier set of the textured-cube bindings
exists, re-binding `g_texture` from the cube texture (address 0) to the other
texture (address 2) leaves no entry of the former and an entry of the latter in the
mutable bucket. -/
theorem OnProgramArgumentBindingResourceViewsChanged_bucket_witness :
    ∃ pb1, OnProgramArgumentBindingResourceViewsChanged Example.cube_applied.2.2
        Example.cube_applied.2.1 (Example.cube_applied.2.2.bindings 6)
        [Example.view 0] [Example.view 2] = .ok pb1 ∧
      (∀ entry ∈ pb1.m_transition_resource_states_by_access ProgramArgumentAccessType.Mutable,
        entry.resource_ptr ≠ 0) ∧
      (∃ entry ∈ pb1.m_transition_resource_states_by_access ProgramArgumentAccessType.Mutable,
        entry.resource_ptr = 2) := by
  have hthm := OnProgramArgumentBindingResourceViewsChanged_bucket Example.cube_applied.2.2
    Example.cube_applied.2.1 (Example.cube_applied.2.2.bindings 6)
    [Example.view 0] [Example.view 2]
  obtain ⟨pb1, hpb1⟩ := hthm.2.1 (by
    intro v hv
    rw [List.mem_singleton] at hv
    subst hv
    exact Or.inr ⟨ResourceState.ShaderResource, rfl⟩)
  obtain ⟨hnew, -, hold⟩ := hthm.2.2 pb1 (by decide) hpb1
  exact ⟨pb1, hpb1, hold 0 (by decide) (by decide) (by decide),
    hnew (Example.view 2) (by decide) (by decide)⟩

/-- Counterexample to C6 as stated: (1) the textured-cube bindings are constructed
with the cube texture (address 0) bound to `g_texture`; no barrier set exists yet,
and when the binding reports the change of its views from the cube texture to the
other texture (address 2) the mutable bucket still holds the entry of the cube
texture and none of the new texture.  (2) Once the barrier set exists, the change
from the view of the cube texture to another view of the same texture and then to
the other texture leaves an entry of the cube texture, which only the old views
referred to. -/
theorem OnProgramArgumentBindingResourceViewsChanged_stale_entries :
    ErrorOf (ProgramBindings.ConstructWithValues Example.world 0 Example.cube_values 0) = none ∧
    Example.cube_bindings.1.m_resource_state_transition_barriers_ptr = none ∧
    (ValueOf (OnProgramArgumentBindingResourceViewsChanged Example.cube_bindings.2
        Example.cube_bindings.1 (Example.cube_bindings.2.bindings 6)
        [Example.view 0] [Example.view 2])).map
      (fun pb1 => (pb1.m_transition_resource_states_by_access
        ProgramArgumentAccessType.Mutable).map (fun entry => entry.resource_ptr))
      = some [0] ∧
    Example.cube_applied.2.1.m_resource_state_transition_barriers_ptr ≠ none ∧
    ((ValueOf (OnProgramArgumentBindingResourceViewsChanged Example.cube_applied.2.2
        Example.cube_applied.2.1 (Example.cube_applied.2.2.bindings 6)
        [Example.view 0] [Example.subview 0 16])).bind
      (fun pb1 => ValueOf (OnProgramArgumentBindingResourceViewsChanged Example.cube_applied.2.2
        pb1 (Example.cube_applied.2.2.bindings 6)
        [Example.subview 0 16] [Example.view 2]))).map
      (fun pb2 => (pb2.m_transition_resource_states_by_access
        ProgramArgumentAccessType.Mutable).map (fun entry => entry.resource_ptr))
      = some [0, 2] := by
  decide

/-! ### Applying the resource states -/


theorem SetState_spec (w : World) (p : ResourcePtr) (s : ResourceState)
    (b : Option ResourceBarriers) :
    ((SetState w p s b).1 = true ↔ (w.resources p).m_state ≠ s) ∧
    ((SetState w p s b).1 = false → (SetState w p s b).2 = (w, b)) ∧
    ((SetState w p s b).2.1.resources p).m_state = s ∧
    (∀ r, r ≠ p → (SetState w p s b).2.1.resources r = w.resources r) ∧
    (∀ r, ((SetState w p s b).2.1.resources r).m_owner_queue_family_index_opt
      = (w.resources r).m_owner_queue_family_index_opt) := by
  unfold SetState
  dsimp only
  by_cases h : (w.resources p).m_state = s
  · simp [h]
  · simp only [h, if_false, ne_eq, not_false_eq_true, iff_self, reduceCtorEq, false_implies,
      true_and, World.SetResource, if_true]
    refine ⟨?_, ?_⟩
    · intro r hr
      simp [hr]
    · intro r
      split
      · rename_i heq
        subst heq
        rfl
      · rfl

theorem SetOwnerQueueFamily_spec (w : World) (p : ResourcePtr) (f : Nat)
    (b : Option ResourceBarriers) :
    ((SetOwnerQueueFamily w p f b).1 = true ↔
      (w.resources p).m_owner_queue_family_index_opt ≠ some f) ∧
    ((SetOwnerQueueFamily w p f b).1 = false → (SetOwnerQueueFamily w p f b).2 = (w, b)) ∧
    (∀ r, ((SetOwnerQueueFamily w p f b).2.1.resources r).m_state = (w.resources r).m_state) := by
  unfold SetOwnerQueueFamily
  dsimp only
  by_cases h : (w.resources p).m_owner_queue_family_index_opt = some f
  · simp [h]
  · simp only [h, if_false, ne_eq, not_false_eq_true, iff_self, reduceCtorEq, false_implies,
      true_and, World.SetResource]
    intro r
    split
    · rename_i heq
      subst heq
      rfl
    · rfl

/-- One step of the loop of `ApplyResourceStates`, as a function of the world. -/
theorem ApplyResourceStatesLoop_cons (q : Option CommandQueue) (e : ResourceAndState)
    (rest : ResourceStates) (c : Bool) (w : World) (b : Option ResourceBarriers) :
    ∃ (c1 : Bool) (w1 : World) (b1 : Option ResourceBarriers),
      ApplyResourceStatesLoop q (e :: rest) (c, w, b)
        = ApplyResourceStatesLoop q rest ((c || c1), w1, b1) ∧
      ApplyResourceStatesLoop q [e] (c, w, b) = ((c || c1), w1, b1) ∧
      (c1 = true ↔ EntryChanges q w e) ∧
      (c1 = false → w1 = w ∧ b1 = b) ∧
      (w1.resources e.resource_ptr).m_state = e.state ∧
      (∀ r, r ≠ e.resource_ptr → (w1.resources r).m_state = (w.resources r).m_state) := by
  cases q with
  | none =>
    obtain ⟨h1, h2, h3, h4, -⟩ := SetState_spec w e.resource_ptr e.state b
    refine ⟨(SetState w e.resource_ptr e.state b).1, (SetState w e.resource_ptr e.state b).2.1,
      (SetState w e.resource_ptr e.state b).2.2, ?_, ?_, ?_, ?_, h3, ?_⟩
    · simp [ApplyResourceStatesLoop]
    · simp [ApplyResourceStatesLoop]
    · rw [h1]
      simp [EntryChanges]
    · intro hf
      have := h2 hf
      exact ⟨congrArg Prod.fst this, congrArg Prod.snd this⟩
    · intro r hr
      rw [h4 r hr]
  | some queue =>
    obtain ⟨o1, o2, o3⟩ := SetOwnerQueueFamily_spec w e.resource_ptr queue.GetFamilyIndex b
    obtain ⟨h1, h2, h3, h4, -⟩ := SetState_spec
      (SetOwnerQueueFamily w e.resource_ptr queue.GetFamilyIndex b).2.1 e.resource_ptr e.state
      (SetOwnerQueueFamily w e.resource_ptr queue.GetFamilyIndex b).2.2
    refine ⟨(SetOwnerQueueFamily w e.resource_ptr queue.GetFamilyIndex b).1 ||
        (SetState (SetOwnerQueueFamily w e.resource_ptr queue.GetFamilyIndex b).2.1
          e.resource_ptr e.state
          (SetOwnerQueueFamily w e.resource_ptr queue.GetFamilyIndex b).2.2).1,
      (SetState (SetOwnerQueueFamily w e.resource_ptr queue.GetFamilyIndex b).2.1
          e.resource_ptr e.state
          (SetOwnerQueueFamily w e.resource_ptr queue.GetFamilyIndex b).2.2).2.1,
      (SetState (SetOwnerQueueFamily w e.resource_ptr queue.GetFamilyIndex b).2.1
          e.resource_ptr e.state
          (SetOwnerQueueFamily w e.resource_ptr queue.GetFamilyIndex b).2.2).2.2,
      ?_, ?_, ?_, ?_, h3, ?_⟩
    · simp [ApplyResourceStatesLoop, Bool.or_assoc]
    · simp [ApplyResourceStatesLoop, Bool.or_assoc]
    · rw [Bool.or_eq_true, o1, h1, o3]
      simp [EntryChanges]
    · intro hf
      rw [Bool.or_eq_false_iff] at hf
      have ho := o2 hf.1
      have hs := h2 hf.2
      rw [hs]
      exact ⟨congrArg Prod.fst ho, congrArg Prod.snd ho⟩
    · intro r hr
      rw [h4 r hr, o3]

theorem ApplyResourceStatesLoop_changed (q : Option CommandQueue) (l : ResourceStates)
    (c : Bool) (w : World) (b : Option ResourceBarriers) :
    (ApplyResourceStatesLoop q l (c, w, b)).1 = true ↔
      c = true ∨ ∃ before entry after, l = before ++ entry :: after ∧
        EntryChanges q (ApplyResourceStatesLoop q before (c, w, b)).2.1 entry := by
  induction l generalizing c w b with
  | nil => simp [ApplyResourceStatesLoop]
  | cons e rest ih =>
    obtain ⟨c1, w1, b1, hstep, hone, hc1, -, -, -⟩ := ApplyResourceStatesLoop_cons q e rest c w b
    rw [hstep, ih, Bool.or_eq_true, hc1]
    constructor
    · rintro ((hc | hch) | ⟨before, entry, after, hl, hch⟩)
      · exact Or.inl hc
      · exact Or.inr ⟨[], e, rest, rfl, hch⟩
      · refine Or.inr ⟨e :: before, entry, after, by rw [hl]; rfl, ?_⟩
        have : ApplyResourceStatesLoop q (e :: before) (c, w, b)
            = ApplyResourceStatesLoop q before ((c || c1), w1, b1) := by
          rw [show e :: before = [e] ++ before from rfl, ApplyResourceStatesLoop_append, hone]
        rw [this]
        exact hch
    · rintro (hc | ⟨before, entry, after, hl, hch⟩)
      · exact Or.inl (Or.inl hc)
      · cases before with
        | nil =>
          simp only [List.nil_append, List.cons.injEq] at hl
          obtain ⟨h1, h2⟩ := hl
          subst h1
          exact Or.inl (Or.inr hch)
        | cons e2 before2 =>
          simp only [List.cons_append, List.cons.injEq] at hl
          obtain ⟨h1, h2⟩ := hl
          subst h1
          refine Or.inr ⟨before2, entry, after, h2, ?_⟩
          have : ApplyResourceStatesLoop q (e :: before2) (c, w, b)
              = ApplyResourceStatesLoop q before2 ((c || c1), w1, b1) := by
            rw [show e :: before2 = [e] ++ before2 from rfl, ApplyResourceStatesLoop_append, hone]
          rw [this] at hch
          exact hch

theorem ApplyResourceStatesLoop_unchanged (q : Option CommandQueue) (l : ResourceStates)
    (c : Bool) (w : World) (b : Option ResourceBarriers)
    (h : (ApplyResourceStatesLoop q l (c, w, b)).1 = false) :
    (ApplyResourceStatesLoop q l (c, w, b)).2 = (w, b) := by
  induction l generalizing c w b with
  | nil => rfl
  | cons e rest ih =>
    obtain ⟨c1, w1, b1, hstep, -, -, hsame, -, -⟩ := ApplyResourceStatesLoop_cons q e rest c w b
    rw [hstep] at h ⊢
    have hc : (c || c1) = false := by
      cases ht : (c || c1) with
      | false => rfl
      | true =>
        have := (ApplyResourceStatesLoop_changed q rest (c || c1) w1 b1).2 (Or.inl ht)
        rw [this] at h
        cases h
    rw [Bool.or_eq_false_iff] at hc
    obtain ⟨hw, hb⟩ := hsame hc.2
    rw [ih _ _ _ h, hw, hb]

theorem ApplyResourceStatesLoop_state (q : Option CommandQueue) (l : ResourceStates)
    (c : Bool) (w : World) (b : Option ResourceBarriers) (r : ResourcePtr) (s : ResourceState)
    (hall : ∀ entry ∈ l, entry.resource_ptr = r → entry.state = s)
    (hsome : (∃ entry ∈ l, entry.resource_ptr = r) ∨ (w.resources r).m_state = s) :
    ((ApplyResourceStatesLoop q l (c, w, b)).2.1.resources r).m_state = s := by
  induction l generalizing c w b with
  | nil =>
    rcases hsome with ⟨entry, he, -⟩ | h
    · cases he
    · exact h
  | cons e rest ih =>
    obtain ⟨c1, w1, b1, hstep, -, -, -, hset, hother⟩ := ApplyResourceStatesLoop_cons q e rest c w b
    rw [hstep]
    apply ih
    · intro entry he
      exact hall entry (List.mem_cons_of_mem _ he)
    · by_cases her : e.resource_ptr = r
      · right
        rw [← her, hset, hall e (List.mem_cons_self _ _) her]
      · rcases hsome with ⟨entry, he, hr⟩ | h
        · rcases List.mem_cons.1 he with heq | he
          · subst heq
            exact absurd hr her
          · exact Or.inl ⟨entry, he, hr⟩
        · right
          rw [hother r (fun h2 => her h2.symm)]
          exact h


theorem mem_SelectedResourceStates (pb : ProgramBindings)
    (access : EnumMask ProgramArgumentAccessType) (entry : ResourceAndState) :
    entry ∈ SelectedResourceStates pb access ↔
      ∃ access_type, access.HasBit access_type = true ∧
        entry ∈ pb.m_transition_resource_states_by_access access_type := by
  unfold SelectedResourceStates
  simp only [List.mem_flatten, List.mem_map, List.mem_filter]
  constructor
  · rintro ⟨l, ⟨t, ⟨-, ht⟩, rfl⟩, he⟩
    exact ⟨t, ht, he⟩
  · rintro ⟨t, ht, he⟩
    refine ⟨_, ⟨t, ⟨?_, ht⟩, rfl⟩, he⟩
    cases t <;> simp [ProgramArgumentAccessType.values]

/-- Claim C8 (amended): `ApplyResourceStates` returns true if and only if, for some
entry of the selected buckets, the call of `SetOwnerQueueFamily` (made when an owner
queue is given) or the call of `SetState` for that entry is not a no-op, in the
world reached when the entry is visited; without owner queue this is: some
`SetState` is not a no-op.  When it returns false, no resource and no barrier has
changed. -/
theorem ApplyResourceStates_changed_iff (w : World) (pb : ProgramBindings)
    (access : EnumMask ProgramArgumentAccessType) (owner_queue_ptr : Option CommandQueue) :
    ((ApplyResourceStates w pb access owner_queue_ptr).1 = true ↔
      ∃ before entry after, SelectedResourceStates pb access = before ++ entry :: after ∧
        EntryChanges owner_queue_ptr
          (ApplyResourceStatesLoop owner_queue_ptr before
            (false, w, pb.m_resource_state_transition_barriers_ptr)).2.1 entry) ∧
    (owner_queue_ptr = none →
      ((ApplyResourceStates w pb access owner_queue_ptr).1 = true ↔
        ∃ before entry after, SelectedResourceStates pb access = before ++ entry :: after ∧
          ((ApplyResourceStatesLoop owner_queue_ptr before
            (false, w, pb.m_resource_state_transition_barriers_ptr)).2.1.resources
              entry.resource_ptr).m_state ≠ entry.state)) ∧
    ((ApplyResourceStates w pb access owner_queue_ptr).1 = false →
      (ApplyResourceStates w pb access owner_queue_ptr).2.2 = w ∧
      (ApplyResourceStates w pb access owner_queue_ptr).2.1 = pb) := by
  have hiff := ApplyResourceStatesLoop_changed owner_queue_ptr (SelectedResourceStates pb access)
    false w pb.m_resource_state_transition_barriers_ptr
  simp only [Bool.false_eq_true, false_or] at hiff
  refine ⟨?_, ?_, ?_⟩
  · rw [ApplyResourceStates_eq]
    exact hiff
  · intro hq
    rw [ApplyResourceStates_eq]
    dsimp only
    rw [hiff]
    subst hq
    simp [EntryChanges]
  · intro hfalse
    rw [ApplyResourceStates_eq] at hfalse ⊢
    dsimp only at hfalse ⊢
    have := ApplyResourceStatesLoop_unchanged _ _ _ _ _ hfalse
    rw [this]
    exact ⟨rfl, rfl⟩

/-- Counterexample to C8 as stated: the cube texture is in its target state
ShaderResource and has no owner queue family; `ApplyResourceStates` on the mutable
bucket with an owner queue of family 0 returns true, although the state of every
recorded resource equals its target before the call (every `SetState` is a no-op)
and is the same after the call. -/
theorem ApplyResourceStates_true_without_state_change :
    (ApplyResourceStates Example.cube_applied.2.2 Example.cube_applied.2.1
      [ProgramArgumentAccessType.Mutable] (some { family_index := 0 })).1 = true ∧
    (∀ entry ∈ SelectedResourceStates Example.cube_applied.2.1 [ProgramArgumentAccessType.Mutable],
      (Example.cube_applied.2.2.resources entry.resource_ptr).m_state = entry.state) ∧
    (∀ entry ∈ SelectedResourceStates Example.cube_applied.2.1 [ProgramArgumentAccessType.Mutable],
      ((ApplyResourceStates Example.cube_applied.2.2 Example.cube_applied.2.1
        [ProgramArgumentAccessType.Mutable] (some { family_index := 0 })).2.2.resources
          entry.resource_ptr).m_state
        = (Example.cube_applied.2.2.resources entry.resource_ptr).m_state) ∧
    SelectedResourceStates Example.cube_applied.2.1 [ProgramArgumentAccessType.Mutable]
      = [{ resource_ptr := 0, state := ResourceState.ShaderResource }] := by
  decide

/-- Claim C9 (amended): after `ApplyResourceStates`, for every access type set in
the mask and every (resource, target state) pair recorded in that bucket, the
current state of the resource equals the recorded target state, provided every
entry of the selected buckets for that resource records the same target state. -/
theorem ApplyResourceStates_reaches_target (w : World) (pb : ProgramBindings)
    (access : EnumMask ProgramArgumentAccessType) (owner_queue_ptr : Option CommandQueue)
    (access_type : ProgramArgumentAccessType) (entry : ResourceAndState)
    (h_bit : access.HasBit access_type = true)
    (h_entry : entry ∈ pb.m_transition_resource_states_by_access access_type)
    (h_consistent : ∀ other ∈ SelectedResourceStates pb access,
      other.resource_ptr = entry.resource_ptr → other.state = entry.state) :
    ((ApplyResourceStates w pb access owner_queue_ptr).2.2.resources entry.resource_ptr).m_state
      = entry.state := by
  rw [ApplyResourceStates_eq]
  dsimp only
  apply ApplyResourceStatesLoop_state _ _ _ _ _ _ _ h_consistent
  exact Or.inl ⟨entry, (mem_SelectedResourceStates _ _ _).2 ⟨access_type, h_bit, h_entry⟩, rfl⟩

/-- Witness of C9 (amended): after `ApplyResourceStates` on the mutable bucket of the
textured-cube bindings the cube texture is in the recorded state ShaderResource. -/
theorem ApplyResourceStates_reaches_target_witness :
    ((ApplyResourceStates Example.cube_bindings.2 Example.cube_bindings.1
      [ProgramArgumentAccessType.Mutable] none).2.2.resources 0).m_state
      = ResourceState.ShaderResource :=
  ApplyResourceStates_reaches_target Example.cube_bindings.2 Example.cube_bindings.1
    [ProgramArgumentAccessType.Mutable] none ProgramArgumentAccessType.Mutable
    { resource_ptr := 0, state := ResourceState.ShaderResource }
    (by decide) (by decide) (by decide)

/-- Counterexample to C9 as stated: the private buffer (address 3) is bound to the
constant argument `g_params` and to the mutable argument `g_data`, so the constant
bucket records it with ConstantBuffer and the mutable bucket with ShaderResource;
after `ApplyResourceStates` over both buckets the buffer is in ShaderResource state,
not in the ConstantBuffer state recorded in the constant bucket. -/
theorem ApplyResourceStates_misses_recorded_target :
    ErrorOf (ProgramBindings.ConstructWithValues Example.world 1 Example.buffer_values 0) = none ∧
    Example.buffer_bindings.1.m_transition_resource_states_by_access
        ProgramArgumentAccessType.Constant
      = [{ resource_ptr := 3, state := ResourceState.ConstantBuffer }] ∧
    Example.buffer_bindings.1.m_transition_resource_states_by_access
        ProgramArgumentAccessType.Mutable
      = [{ resource_ptr := 3, state := ResourceState.ShaderResource }] ∧
    ((ApplyResourceStates Example.buffer_bindings.2 Example.buffer_bindings.1
      [ProgramArgumentAccessType.Constant, ProgramArgumentAccessType.Mutable]
      none).2.2.resources 3).m_state = ResourceState.ShaderResource := by
  decide

/-- Witness of C8 (amended): a second `ApplyResourceStates` on the mutable bucket of
the textured-cube bindings, without owner queue, returns false and leaves the world
as it is. -/
theorem ApplyResourceStates_changed_iff_witness :
    (ApplyResourceStates Example.cube_applied.2.2 Example.cube_applied.2.1
      [ProgramArgumentAccessType.Mutable] none).1 = false ∧
    (ApplyResourceStates Example.cube_applied.2.2 Example.cube_applied.2.1
      [ProgramArgumentAccessType.Mutable] none).2.2 = Example.cube_applied.2.2 :=
  ⟨by decide,
    ((ApplyResourceStates_changed_iff Example.cube_applied.2.2 Example.cube_applied.2.1
      [ProgramArgumentAccessType.Mutable] none).2.2 (by decide)).1⟩

/-! ### Creation of the binding objects -/


theorem MapContains_eq_false {K V : Type} [DecidableEq K] (key : K) (map : List (K × V)) :
    MapContains key map = false ↔ ∀ v, (key, v) ∉ map := by
  unfold MapContains
  rw [← MapFind_eq_none]
  cases MapFind key map <;> simp

theorem MapContains_eq_true {K V : Type} [DecidableEq K] (key : K) (map : List (K × V)) :
    MapContains key map = true ↔ ∃ v, (key, v) ∈ map := by
  cases h : MapContains key map with
  | false =>
    have := (MapContains_eq_false key map).1 h
    simp only [Bool.false_eq_true, false_iff, not_exists]
    exact this
  | true =>
    simp only [true_iff]
    by_contra hne
    simp only [not_exists] at hne
    rw [(MapContains_eq_false key map).2 hne] at h
    cases h

theorem CreateArgumentBindingInstance_spec (w : World) (p : BindingPtr) (f : Nat) :
    (CreateArgumentBindingInstance w p f).2.bindings (CreateArgumentBindingInstance w p f).1
      = w.bindings p ∧
    (∀ x, x < w.bindings_end → (CreateArgumentBindingInstance w p f).2.bindings x = w.bindings x) ∧
    w.bindings_end ≤ (CreateArgumentBindingInstance w p f).2.bindings_end ∧
    ((CreateArgumentBindingInstance w p f).1 = w.bindings_end ∧
      (CreateArgumentBindingInstance w p f).2.bindings_end = w.bindings_end + 1) ∧
    (CreateArgumentBindingInstance w p f).2.programs = w.programs := by
  unfold CreateArgumentBindingInstance
  refine ⟨?_, ?_, ?_, ?_, ?_⟩
  · simp [World.SetBinding]
  · intro x hx
    simp [World.SetBinding, Nat.ne_of_lt hx]
  · simp [World.SetBinding]
  · simp [World.SetBinding]
  · rfl

theorem InitializeArgumentBindingsLoop_spec (source : BindingPtr → ArgumentBinding) (base : Nat)
    (full l : ArgumentBindings) (pb : ProgramBindings) (w : World)
    (hsub : ∀ e ∈ l, e ∈ full) (hfull : ∀ e ∈ full, e.2 < base)
    (hinv : InitializedFrom source base full pb.m_binding_by_argument w) :
    InitializedFrom source base full
      (InitializeArgumentBindingsLoop l (pb, w)).1.m_binding_by_argument
      (InitializeArgumentBindingsLoop l (pb, w)).2 := by
  induction l generalizing pb w with
  | nil => exact hinv
  | cons e rest ih =>
    obtain ⟨a, p⟩ := e
    unfold InitializeArgumentBindingsLoop
    dsimp only
    have hrest : ∀ e ∈ rest, e ∈ full := fun e he => hsub e (List.mem_cons_of_mem _ he)
    split
    · exact ih _ _ hrest hinv
    · rename_i hnc
      simp only [Bool.not_eq_true] at hnc
      have hnotin := (MapContains_eq_false _ _).1 hnc
      apply ih _ _ hrest
      dsimp only
      obtain ⟨hbase, hlow, hentries, hinj, hnodup⟩ := hinv
      obtain ⟨hobj, hkeep, hmono, hcase, -⟩ := CreateArgumentBindingInstance_spec w p pb.m_frame_index
      have hp : p < base := hfull (a, p) (hsub _ (List.mem_cons_self _ _))
      have hsrc : w.bindings p = source p := hlow p hp
      have hemplace : MapTryEmplace pb.m_binding_by_argument a
          (CreateArgumentBindingInstance w p pb.m_frame_index).1
          = pb.m_binding_by_argument ++ [(a, (CreateArgumentBindingInstance w p pb.m_frame_index).1)] := by
        simp [MapTryEmplace, hnc]
      rw [hemplace]
      have hnew : (CreateArgumentBindingInstance w p pb.m_frame_index).1
            < (CreateArgumentBindingInstance w p pb.m_frame_index).2.bindings_end ∧
          base ≤ (CreateArgumentBindingInstance w p pb.m_frame_index).1 ∧
          (base ≤ (CreateArgumentBindingInstance w p pb.m_frame_index).1 →
            (CreateArgumentBindingInstance w p pb.m_frame_index).1 = w.bindings_end) := by
        obtain ⟨h1, h3⟩ := hcase
        rw [h1, h3]
        exact ⟨Nat.lt_succ_self _, hbase, fun _ => rfl⟩
      refine ⟨le_trans hbase hmono, ?_, ?_, ?_, ?_⟩
      · intro x hx
        rw [hkeep x (Nat.lt_of_lt_of_le hx hbase), hlow x hx]
      · intro entry he
        rcases List.mem_append.1 he with he | he
        · obtain ⟨h1, q, h2, h3, h4⟩ := hentries entry he
          exact ⟨Nat.lt_of_lt_of_le h1 hmono, q, h2, by rw [hkeep _ h1, h3], h4⟩
        · simp only [List.mem_singleton] at he
          subst he
          exact ⟨hnew.1, p, hsub _ (List.mem_cons_self _ _), by rw [hobj, hsrc], hnew.2.1⟩
      · intro e1 he1 e2 he2 hb heq
        rcases List.mem_append.1 he1 with he1 | he1 <;> rcases List.mem_append.1 he2 with he2 | he2
        · exact hinj e1 he1 e2 he2 hb heq
        · simp only [List.mem_singleton] at he2
          subst he2
          dsimp only at heq ⊢
          have h1 := (hentries e1 he1).1
          have h2 := hnew.2.2 (by rw [← heq]; exact hb)
          rw [heq, h2] at h1
          exact absurd h1 (Nat.lt_irrefl _)
        · simp only [List.mem_singleton] at he1
          subst he1
          dsimp only at heq hb ⊢
          have h1 := (hentries e2 he2).1
          have h2 := hnew.2.2 hb
          rw [← heq, h2] at h1
          exact absurd h1 (Nat.lt_irrefl _)
        · simp only [List.mem_singleton] at he1 he2
          subst he1; subst he2
          rfl
      · rw [List.map_append, List.nodup_append]
        refine ⟨hnodup, by simp, ?_⟩
        intro k hk1 hk2
        simp only [List.map_cons, List.map_nil, List.mem_singleton] at hk2
        subst hk2
        simp only [List.mem_map, Prod.exists, exists_and_right, exists_eq_right] at hk1
        obtain ⟨v, hv⟩ := hk1
        exact hnotin v hv

theorem InitializeArgumentBindingsLoop_keys (l : ArgumentBindings) (pb : ProgramBindings) (w : World)
    (hnodup : (pb.m_binding_by_argument.map Prod.fst ++ l.map Prod.fst).Nodup) :
    (InitializeArgumentBindingsLoop l (pb, w)).1.m_binding_by_argument.map Prod.fst
      = pb.m_binding_by_argument.map Prod.fst ++ l.map Prod.fst := by
  induction l generalizing pb w with
  | nil => simp [InitializeArgumentBindingsLoop]
  | cons e rest ih =>
    obtain ⟨a, p⟩ := e
    unfold InitializeArgumentBindingsLoop
    dsimp only
    have hnot : MapContains a pb.m_binding_by_argument = false := by
      rw [MapContains_eq_false]
      intro v hv
      rw [List.nodup_append] at hnodup
      exact hnodup.2.2 (List.mem_map_of_mem Prod.fst hv) (by simp)
    rw [hnot]
    simp only [Bool.false_eq_true, if_false]
    rw [ih]
    · simp [MapTryEmplace, hnot]
    · simp only [MapTryEmplace, hnot, Bool.false_eq_true, if_false, List.map_append, List.map_cons,
        List.map_nil, List.append_assoc, List.singleton_append]
      simpa using hnodup


theorem Copy_spec (w : World) (other : ProgramBindings) (frame_index : Option Nat)
    (h_alloc : ∀ entry ∈ other.m_binding_by_argument, entry.2 < w.bindings_end)
    (h_keys : (other.m_binding_by_argument.map Prod.fst).Nodup) :
    InitializedFrom w.bindings w.bindings_end other.m_binding_by_argument
      (ProgramBindings.Copy w other frame_index).1.m_binding_by_argument
      (ProgramBindings.Copy w other frame_index).2 ∧
    (ProgramBindings.Copy w other frame_index).1.m_binding_by_argument.map Prod.fst
      = other.m_binding_by_argument.map Prod.fst := by
  unfold ProgramBindings.Copy InitializeArgumentBindings
  dsimp only
  constructor
  · apply InitializeArgumentBindingsLoop_spec _ _ _ _ _ _ (fun e he => he) h_alloc
    exact ⟨Nat.le_refl _, fun _ _ => rfl, fun e he => absurd he (List.not_mem_nil e),
      fun e he => absurd he (List.not_mem_nil e), List.nodup_nil⟩
  · rw [InitializeArgumentBindingsLoop_keys]
    · rfl
    · simpa [ProgramBindings.GetArgumentBindings] using h_keys

theorem Construct_spec (w : World) (program : ProgramPtr) (frame_index : Nat)
    (h_alloc : ∀ entry ∈ (w.programs program).GetArgumentBindings, entry.2 < w.bindings_end)
    (h_keys : ((w.programs program).GetArgumentBindings.map Prod.fst).Nodup) :
    InitializedFrom w.bindings w.bindings_end (w.programs program).GetArgumentBindings
      (ProgramBindings.Construct w program frame_index).1.m_binding_by_argument
      (ProgramBindings.Construct w program frame_index).2 ∧
    (ProgramBindings.Construct w program frame_index).1.m_binding_by_argument.map Prod.fst
      = (w.programs program).GetArgumentBindings.map Prod.fst := by
  have hprog : ((GetBindingsCountAndIncrement w program).2.programs program).GetArgumentBindings
      = (w.programs program).GetArgumentBindings := by
    simp [GetBindingsCountAndIncrement, World.SetProgram, Program.GetArgumentBindings]
  unfold ProgramBindings.Construct InitializeArgumentBindings
  dsimp only
  rw [hprog]
  constructor
  · apply InitializeArgumentBindingsLoop_spec _ _ _ _ _ _ (fun e he => he) h_alloc
    exact ⟨Nat.le_refl _, fun _ _ => rfl, fun e he => absurd he (List.not_mem_nil e),
      fun e he => absurd he (List.not_mem_nil e), List.nodup_nil⟩
  · rw [InitializeArgumentBindingsLoop_keys]
    · rfl
    · simpa using h_keys



theorem MapFind_append {K V : Type} [DecidableEq K] (key : K) (m1 m2 : List (K × V)) :
    MapFind key (m1 ++ m2) = match MapFind key m1 with
      | some v => some v
      | none => MapFind key m2 := by
  induction m1 with
  | nil => rfl
  | cons e rest ih =>
    obtain ⟨k, v⟩ := e
    simp only [List.cons_append, MapFind]
    split
    · rfl
    · exact ih

theorem MapFind_MapTryEmplace_same {K V : Type} [DecidableEq K] (key : K) (map : List (K × V))
    (v : V) (h : MapContains key map = false) : MapFind key (MapTryEmplace map key v) = some v := by
  have hnone : MapFind key map = none := by
    unfold MapContains at h
    cases hf : MapFind key map with
    | none => rfl
    | some x => rw [hf] at h; cases h
  simp [MapTryEmplace, h, MapFind_append, hnone, MapFind]

theorem MapFind_MapTryEmplace_other {K V : Type} [DecidableEq K] (key k2 : K) (map : List (K × V))
    (v : V) (h : k2 ≠ key) : MapFind key (MapTryEmplace map k2 v) = MapFind key map := by
  unfold MapTryEmplace
  split
  · rfl
  · rw [MapFind_append]
    cases MapFind key map with
    | none => simp [MapFind, h]
    | some x => rfl

theorem ReplaceBindingValuesLoop_keep (w : World) (l : ArgumentBindings)
    (acc : BindingValueByArgument) (a : ProgramArgument) (v : BindingValue)
    (h : MapFind a acc = some v) : MapFind a (ReplaceBindingValuesLoop w l acc) = some v := by
  induction l generalizing acc with
  | nil => exact h
  | cons e rest ih =>
    obtain ⟨k, p⟩ := e
    unfold ReplaceBindingValuesLoop
    dsimp only
    have hemp : ∀ x, MapFind a (MapTryEmplace acc k x) = some v := by
      intro x
      by_cases hk : k = a
      · subst hk
        have : MapContains k acc = true := by simp [MapContains, h]
        simp [MapTryEmplace, this, h]
      · rw [MapFind_MapTryEmplace_other _ _ _ _ hk, h]
    split
    · exact ih _ h
    · split
      · exact ih _ (hemp _)
      · exact ih _ (hemp _)

theorem ReplaceBindingValuesLoop_find (w : World) (l : ArgumentBindings)
    (acc : BindingValueByArgument) (a : ProgramArgument) (p : BindingPtr)
    (hnodup : (l.map Prod.fst).Nodup) (hin : (a, p) ∈ l)
    (hnc : (w.bindings p).GetSettings.argument.IsConstant = false)
    (hacc : MapContains a acc = false) :
    MapFind a (ReplaceBindingValuesLoop w l acc)
      = some (if (w.bindings p).GetSettings.argument.IsRootConstant
          then BindingValue.RootConstant (w.bindings p).GetRootConstant
          else BindingValue.ResourceViews (w.bindings p).GetResourceViews) := by
  induction l generalizing acc with
  | nil => cases hin
  | cons e rest ih =>
    obtain ⟨k, pk⟩ := e
    simp only [List.map_cons, List.nodup_cons] at hnodup
    unfold ReplaceBindingValuesLoop
    dsimp only
    rcases List.mem_cons.1 hin with heq | hin
    · injection heq with h1 h2
      subst h1; subst h2
      simp only [hnc, hacc, Bool.or_self, Bool.false_eq_true, if_false]
      split
      · rename_i hrc
        exact ReplaceBindingValuesLoop_keep _ _ _ _ _ (MapFind_MapTryEmplace_same _ _ _ hacc)
      · rename_i hrc
        exact ReplaceBindingValuesLoop_keep _ _ _ _ _ (MapFind_MapTryEmplace_same _ _ _ hacc)
    · have hk : k ≠ a := by
        rintro rfl
        exact hnodup.1 (List.mem_map_of_mem Prod.fst hin)
      have hemp : ∀ x, MapContains a (MapTryEmplace acc k x) = false := by
        intro x
        unfold MapContains at hacc ⊢
        rw [MapFind_MapTryEmplace_other _ _ _ _ hk]
        exact hacc
      split
      · exact ih _ hnodup.2 hin hacc
      · split
        · exact ih _ hnodup.2 hin (hemp _)
        · exact ih _ hnodup.2 hin (hemp _)

/-! ### Applying binding values -/


theorem AddTransitionResourceStates_frame (w : World) (pb pb1 : ProgramBindings)
    (binding : ArgumentBinding) (h : AddTransitionResourceStates w pb binding = .ok pb1) :
    pb1.m_binding_by_argument = pb.m_binding_by_argument ∧
    pb1.m_program_ptr = pb.m_program_ptr ∧
    pb1.m_frame_index = pb.m_frame_index ∧
    pb1.m_resource_state_transition_barriers_ptr = pb.m_resource_state_transition_barriers_ptr := by
  unfold AddTransitionResourceStates at h
  dsimp only at h
  split at h
  · cases h
  · simp only [Except.ok.injEq] at h
    subst h
    exact ⟨rfl, rfl, rfl, rfl⟩

theorem SetResourcesForArgumentsLoop_frame (values : BindingValueByArgument)
    (pb : ProgramBindings) (w : World) (state : ProgramBindings × World)
    (h : SetResourcesForArgumentsLoop values (pb, w) = .ok state) :
    state.1.m_binding_by_argument = pb.m_binding_by_argument ∧
    state.1.m_program_ptr = pb.m_program_ptr ∧
    state.1.m_frame_index = pb.m_frame_index ∧
    state.1.m_resource_state_transition_barriers_ptr
      = pb.m_resource_state_transition_barriers_ptr ∧
    state.2.bindings_end = w.bindings_end ∧
    state.2.programs = w.programs ∧
    (∀ q, (state.2.bindings q).GetSettings = (w.bindings q).GetSettings) := by
  induction values generalizing pb w with
  | nil =>
    simp only [SetResourcesForArgumentsLoop, Except.ok.injEq] at h
    subst h
    exact ⟨rfl, rfl, rfl, rfl, rfl, rfl, fun _ => rfl⟩
  | cons e rest ih =>
    obtain ⟨a, v⟩ := e
    unfold SetResourcesForArgumentsLoop at h
    split at h
    · cases h
    · rename_i p hget
      dsimp only at h
      split at h
      · cases h
      · rename_i pb1 hadd
        obtain ⟨h1, h2, h3, h4, h5, h6, h7⟩ := ih pb1 _ h
        obtain ⟨g1, g2, g3, g4⟩ := AddTransitionResourceStates_frame _ _ _ _ hadd
        refine ⟨by rw [h1, g1], by rw [h2, g2], by rw [h3, g3], by rw [h4, g4], by rw [h5]; rfl,
          by rw [h6]; rfl, ?_⟩
        intro q
        rw [h7 q]
        simp only [World.SetBinding]
        split
        · rename_i heq
          subst heq
          cases v <;> simp [ApplyBindingValue, ArgumentBinding.SetEmitCallbackEnabled,
            ArgumentBinding.GetSettings, ArgumentBinding.SetRootConstant,
            ArgumentBinding.SetResourceView, ArgumentBinding.SetResourceViews]
          split <;> rfl
        · rfl

theorem Get_eq_ok (pb : ProgramBindings) (a : ProgramArgument) (q : BindingPtr) :
    Get pb a = .ok q ↔ MapFind a pb.m_binding_by_argument = some q := by
  unfold Get
  cases MapFind a pb.m_binding_by_argument <;> simp

/-- The binding object of an argument after `SetResourcesForArguments`, when the
object belongs to that argument only: the values given for the argument have been
applied to it in order. -/
theorem SetResourcesForArgumentsLoop_object (values : BindingValueByArgument)
    (pb : ProgramBindings) (w : World) (state : ProgramBindings × World)
    (a : ProgramArgument) (q : BindingPtr)
    (h : SetResourcesForArgumentsLoop values (pb, w) = .ok state)
    (hq : MapFind a pb.m_binding_by_argument = some q)
    (hown : ∀ k qk, MapFind k pb.m_binding_by_argument = some qk → qk = q → k = a) :
    state.2.bindings q = (ValuesOf a values).foldl SetBindingValue (w.bindings q) := by
  induction values generalizing pb w with
  | nil =>
    simp only [SetResourcesForArgumentsLoop, Except.ok.injEq] at h
    subst h
    rfl
  | cons e rest ih =>
    obtain ⟨k, v⟩ := e
    unfold SetResourcesForArgumentsLoop at h
    split at h
    · cases h
    · rename_i p hget
      dsimp only at h
      split at h
      · cases h
      · rename_i pb1 hadd
        have hmap := (AddTransitionResourceStates_frame _ _ _ _ hadd).1
        have hp := (Get_eq_ok _ _ _).1 hget
        rw [ih pb1 _ h (by rw [hmap]; exact hq) (by rw [hmap]; exact hown)]
        by_cases hk : k = a
        · subst hk
          rw [hq] at hp
          injection hp with hp
          subst hp
          simp [ValuesOf, World.SetBinding, SetBindingValue]
        · have hne : q ≠ p := by
            intro heq
            exact hk (hown k p hp heq.symm)
          simp [ValuesOf, World.SetBinding, hk, hne]

theorem ValuesOf_append (a : ProgramArgument) (m1 m2 : BindingValueByArgument) :
    ValuesOf a (m1 ++ m2) = ValuesOf a m1 ++ ValuesOf a m2 := by
  simp [ValuesOf]

theorem ValuesOf_eq_nil (a : ProgramArgument) (m : BindingValueByArgument)
    (h : ∀ v, (a, v) ∉ m) : ValuesOf a m = [] := by
  simp only [ValuesOf, List.map_eq_nil_iff, List.filter_eq_nil_iff, decide_eq_true_eq]
  intro e he heq
  exact h e.2 (by rw [← heq]; exact he)

theorem ValuesOf_MapTryEmplace_other (a k : ProgramArgument) (m : BindingValueByArgument)
    (x : BindingValue) (hk : k ≠ a) : ValuesOf a (MapTryEmplace m k x) = ValuesOf a m := by
  unfold MapTryEmplace
  split
  · rfl
  · rw [ValuesOf_append]
    simp [ValuesOf, hk]

theorem MapTryEmplace_absent {K V : Type} [DecidableEq K] (map : List (K × V)) (key : K) (v : V)
    (h : MapContains key map = false) : MapTryEmplace map key v = map ++ [(key, v)] := by
  simp [MapTryEmplace, h]

theorem ReplaceBindingValuesLoop_values_absent (w : World) (l : ArgumentBindings)
    (acc : BindingValueByArgument) (a : ProgramArgument) (h : ∀ p, (a, p) ∉ l) :
    ValuesOf a (ReplaceBindingValuesLoop w l acc) = ValuesOf a acc := by
  induction l generalizing acc with
  | nil => rfl
  | cons e rest ih =>
    obtain ⟨k, pk⟩ := e
    have hk : k ≠ a := by
      rintro rfl
      exact h pk (List.mem_cons_self _ _)
    have hrest : ∀ p, (a, p) ∉ rest := fun p hp => h p (List.mem_cons_of_mem _ hp)
    unfold ReplaceBindingValuesLoop
    dsimp only
    split
    · exact ih _ hrest
    · split
      · rw [ih _ hrest, ValuesOf_MapTryEmplace_other _ _ _ _ hk]
      · rw [ih _ hrest, ValuesOf_MapTryEmplace_other _ _ _ _ hk]

theorem ReplaceBindingValuesLoop_values (w : World) (l : ArgumentBindings)
    (acc : BindingValueByArgument) (a : ProgramArgument) (p : BindingPtr)
    (hnodup : (l.map Prod.fst).Nodup) (hin : (a, p) ∈ l)
    (hnc : (w.bindings p).GetSettings.argument.IsConstant = false)
    (hacc : ∀ v, (a, v) ∉ acc) :
    ValuesOf a (ReplaceBindingValuesLoop w l acc)
      = [if (w.bindings p).GetSettings.argument.IsRootConstant
          then BindingValue.RootConstant (w.bindings p).GetRootConstant
          else BindingValue.ResourceViews (w.bindings p).GetResourceViews] := by
  induction l generalizing acc with
  | nil => cases hin
  | cons e rest ih =>
    obtain ⟨k, pk⟩ := e
    simp only [List.map_cons, List.nodup_cons] at hnodup
    have hcontains := (MapContains_eq_false a acc).2 hacc
    unfold ReplaceBindingValuesLoop
    dsimp only
    rcases List.mem_cons.1 hin with heq | hin
    · injection heq with h1 h2
      subst h1; subst h2
      have habsent : ∀ q, (a, q) ∉ rest := by
        intro q hq
        exact hnodup.1 (List.mem_map_of_mem Prod.fst hq)
      simp only [hnc, hcontains, Bool.or_self, Bool.false_eq_true, if_false]
      split
      · rw [ReplaceBindingValuesLoop_values_absent _ _ _ _ habsent]
        rw [MapTryEmplace_absent _ _ _ hcontains, ValuesOf_append, ValuesOf_eq_nil _ _ hacc]
        simp [ValuesOf]
      · rw [ReplaceBindingValuesLoop_values_absent _ _ _ _ habsent]
        rw [MapTryEmplace_absent _ _ _ hcontains, ValuesOf_append, ValuesOf_eq_nil _ _ hacc]
        simp [ValuesOf]
    · have hk : k ≠ a := by
        rintro rfl
        exact hnodup.1 (List.mem_map_of_mem Prod.fst hin)
      have hemp : ∀ x, ∀ v, (a, v) ∉ MapTryEmplace acc k x := by
        intro x v hv
        unfold MapTryEmplace at hv
        split at hv
        · exact hacc v hv
        · rcases List.mem_append.1 hv with hv | hv
          · exact hacc v hv
          · simp only [List.mem_singleton, Prod.mk.injEq] at hv
            exact hk hv.1.symm
      split
      · exact ih _ hnodup.2 hin hacc
      · split
        · exact ih _ hnodup.2 hin (hemp _)
        · exact ih _ hnodup.2 hin (hemp _)

/-! ### Cloning with replacement -/


theorem SetBindingValue_SourceBindingValue (b : ArgumentBinding) :
    (SetBindingValue b (SourceBindingValue b)).GetResourceViews = b.GetResourceViews ∧
    (SetBindingValue b (SourceBindingValue b)).GetRootConstant = b.GetRootConstant := by
  unfold SourceBindingValue SetBindingValue
  split
  · simp only [ApplyBindingValue]
    split <;> exact ⟨rfl, rfl⟩
  · exact ⟨rfl, rfl⟩

theorem SetResourcesForArguments_loop (w : World) (pb : ProgramBindings)
    (values : BindingValueByArgument) (state : ProgramBindings × World)
    (h : SetResourcesForArguments w pb values = .ok state) :
    ∃ looped, SetResourcesForArgumentsLoop values (pb, w) = .ok looped ∧
      state = (InitResourceRefsByAccess looped.2 looped.1, looped.2) := by
  unfold SetResourcesForArguments at h
  split at h
  · cases h
  · rename_i looped hloop
    simp only [Except.ok.injEq] at h
    exact ⟨looped, hloop, h.symm⟩

theorem CopyWithReplacement_ok (w : World) (other : ProgramBindings)
    (replace : BindingValueByArgument) (frame_index : Option Nat) (state : ProgramBindings × World)
    (h : ProgramBindings.CopyWithReplacement w other replace frame_index = .ok state) :
    SetResourcesForArguments (ProgramBindings.Copy w other frame_index).2
      (ProgramBindings.Copy w other frame_index).1
      (ReplaceBindingValues (ProgramBindings.Copy w other frame_index).2
        other.GetArgumentBindings replace) = .ok state ∧
    VerifyAllArgumentsAreBoundToResources state.2 state.1 = .ok () := by
  unfold ProgramBindings.CopyWithReplacement at h
  dsimp only at h
  split at h
  · cases h
  · rename_i s hset
    split at h
    · cases h
    · rename_i hver
      simp only [Except.ok.injEq] at h
      subst h
      exact ⟨hset, hver⟩

/-- Claim C10: when program bindings are cloned with a replacement map, for every
argument of the source that is not a constant accessor and is not a key of the
replacement map, the value applied to the clone is the value of the source binding
at the moment of cloning (its root constant for an argument of RootConstant kind,
otherwise its resource views), and it is the only value applied for that argument;
when the construction succeeds, the binding object of the clone for that argument
is a fresh object that holds the resource views and the root constant of the source
binding. -/
theorem CopyWithReplacement_source_value (w : World) (other : ProgramBindings)
    (replace : BindingValueByArgument) (frame_index : Option Nat)
    (argument : ProgramArgument) (p : BindingPtr)
    (h_alloc : ∀ entry ∈ other.m_binding_by_argument, entry.2 < w.bindings_end)
    (h_keys : (other.m_binding_by_argument.map Prod.fst).Nodup)
    (h_entry : (argument, p) ∈ other.m_binding_by_argument)
    (h_not_constant : (w.bindings p).GetSettings.argument.IsConstant = false)
    (h_not_replaced : ∀ v, (argument, v) ∉ replace) :
    MapFind argument (ReplaceBindingValues (ProgramBindings.Copy w other frame_index).2
        other.GetArgumentBindings replace) = some (SourceBindingValue (w.bindings p)) ∧
    ValuesOf argument (ReplaceBindingValues (ProgramBindings.Copy w other frame_index).2
        other.GetArgumentBindings replace) = [SourceBindingValue (w.bindings p)] ∧
    (∀ state, ProgramBindings.CopyWithReplacement w other replace frame_index = .ok state →
      ∃ q, Get state.1 argument = .ok q ∧ w.bindings_end ≤ q ∧
        (state.2.bindings q).GetResourceViews = (w.bindings p).GetResourceViews ∧
        (state.2.bindings q).GetRootConstant = (w.bindings p).GetRootConstant) := by
  obtain ⟨⟨hbase, hlow, hentries, hinj, hnodup⟩, hkeys⟩ := Copy_spec w other frame_index h_alloc h_keys
  have hp : p < w.bindings_end := h_alloc _ h_entry
  have hsame : (ProgramBindings.Copy w other frame_index).2.bindings p = w.bindings p := hlow p hp
  have hnc : ((ProgramBindings.Copy w other frame_index).2.bindings p).GetSettings.argument.IsConstant
      = false := by rw [hsame]; exact h_not_constant
  have hfind := ReplaceBindingValuesLoop_find (ProgramBindings.Copy w other frame_index).2
    other.m_binding_by_argument replace argument p h_keys h_entry hnc
    ((MapContains_eq_false _ _).2 h_not_replaced)
  have hvalues := ReplaceBindingValuesLoop_values (ProgramBindings.Copy w other frame_index).2
    other.m_binding_by_argument replace argument p h_keys h_entry hnc h_not_replaced
  rw [hsame] at hfind hvalues
  have hvalues2 : ValuesOf argument (ReplaceBindingValues
      (ProgramBindings.Copy w other frame_index).2 other.GetArgumentBindings replace)
      = [SourceBindingValue (w.bindings p)] := hvalues
  refine ⟨hfind, hvalues, ?_⟩
  intro state hstate
  obtain ⟨hset, -⟩ := CopyWithReplacement_ok _ _ _ _ _ hstate
  obtain ⟨looped, hloop, hstate_eq⟩ := SetResourcesForArguments_loop _ _ _ _ hset
  have hmap := (SetResourcesForArgumentsLoop_frame _ _ _ _ hloop).1
  have hkey : argument ∈ (ProgramBindings.Copy w other frame_index).1.m_binding_by_argument.map
      Prod.fst := by
    rw [hkeys]
    exact List.mem_map_of_mem Prod.fst h_entry
  simp only [List.mem_map, Prod.exists, exists_and_right, exists_eq_right] at hkey
  obtain ⟨q, hq⟩ := hkey
  obtain ⟨-, p2, hp2, hobj, hcase⟩ := hentries _ hq
  have hpp : p2 = p := by
    have h1 := MapFind_of_mem_nodup _ _ _ h_keys hp2
    have h2 := MapFind_of_mem_nodup _ _ _ h_keys h_entry
    rw [h1] at h2
    injection h2
  subst hpp
  have hfresh : w.bindings_end ≤ q := hcase
  have hqfind := MapFind_of_mem_nodup _ _ _ hnodup hq
  have hown : ∀ k qk,
      MapFind k (ProgramBindings.Copy w other frame_index).1.m_binding_by_argument = some qk →
      qk = q → k = argument := by
    intro k qk hk heq
    exact (hinj _ hq _ (MapFind_mem _ _ _ hk) hfresh heq.symm).symm
  have hobject := SetResourcesForArgumentsLoop_object _ _ _ _ argument q hloop hqfind hown
  refine ⟨q, ?_, hfresh, ?_, ?_⟩
  · rw [Get_eq_ok, hstate_eq]
    show MapFind argument looped.1.m_binding_by_argument = some q
    rw [hmap]
    exact hqfind
  · rw [hstate_eq]
    show (looped.2.bindings q).GetResourceViews = _
    rw [hobject]
    rw [hvalues2, hobj]
    exact (SetBindingValue_SourceBindingValue _).1
  · rw [hstate_eq]
    show (looped.2.bindings q).GetRootConstant = _
    rw [hobject]
    rw [hvalues2, hobj]
    exact (SetBindingValue_SourceBindingValue _).2

/-- Witness of C10: in a clone of the textured-cube bindings without replacement,
the value applied for `g_texture` is the view of the cube texture that the source
holds, and the successfully constructed clone holds that view. -/
theorem CopyWithReplacement_source_value_witness :
    MapFind Example.g_texture
        (ReplaceBindingValues (ProgramBindings.Copy Example.cube_bindings.2
          Example.cube_bindings.1 none).2 Example.cube_bindings.1.GetArgumentBindings [])
      = some (BindingValue.ResourceViews [Example.view 0]) ∧
    ErrorOf (ProgramBindings.CopyWithReplacement Example.cube_bindings.2
      Example.cube_bindings.1 [] none) = none ∧
    (∀ state, ProgramBindings.CopyWithReplacement Example.cube_bindings.2
        Example.cube_bindings.1 [] none = .ok state →
      ∃ q, Get state.1 Example.g_texture = .ok q ∧
        (state.2.bindings q).GetResourceViews = [Example.view 0]) := by
  have h := CopyWithReplacement_source_value Example.cube_bindings.2 Example.cube_bindings.1 []
    none Example.g_texture 6 (by decide) (by decide) (by decide) (by decide)
    (fun v hv => absurd hv (List.not_mem_nil _))
  refine ⟨h.1, by decide, ?_⟩
  intro state hstate
  obtain ⟨q, hq, -, hviews, -⟩ := h.2.2 state hstate
  exact ⟨q, hq, hviews⟩

/-! ### Construction with initial values -/


theorem GetBoundResourceTargetState_ok (w : World) (resource_type : ResourceType)
    (view : ResourceView) (is_constant : Bool)
    (hns : (w.resources view.GetResourcePtr).GetResourceType ≠ ResourceType.Sampler)
    (h : ResourceTypeMatches w resource_type view) :
    ∃ target, GetBoundResourceTargetState (w.resources view.GetResourcePtr) resource_type
      is_constant = .ok target := by
  rcases h with h | h | h
  · exact absurd h hns
  · subst h
    exact ⟨_, rfl⟩
  · subst h
    unfold GetBoundResourceTargetState Resource.GetResourceType
    cases hobj : (w.resources view.GetResourcePtr).object with
    | Buffer s =>
      dsimp only
      split
      · exact ⟨_, rfl⟩
      · split
        · exact ⟨_, rfl⟩
        · split <;> exact ⟨_, rfl⟩
    | Texture s =>
      dsimp only
      split
      · exact ⟨_, rfl⟩
      · split <;> exact ⟨_, rfl⟩
    | Sampler => exact ⟨_, rfl⟩

theorem AddTransitionResourceStatesLoop_ok (w : World) (settings : ProgramArgumentBindingSettings)
    (views : ResourceViews) (acc : ResourceStates)
    (h : ∀ view ∈ views, ResourceTypeMatches w settings.resource_type view) :
    ∃ result, AddTransitionResourceStatesLoop w settings views acc = .ok result := by
  induction views generalizing acc with
  | nil => exact ⟨acc, rfl⟩
  | cons v rest ih =>
    have hrest : ∀ view ∈ rest, ResourceTypeMatches w settings.resource_type view :=
      fun view hv => h view (List.mem_cons_of_mem _ hv)
    unfold AddTransitionResourceStatesLoop
    dsimp only
    split
    · exact ih _ hrest
    · rename_i hns
      obtain ⟨target, ht⟩ := GetBoundResourceTargetState_ok w settings.resource_type v
        settings.argument.IsConstant hns (h v (List.mem_cons_self _ _))
      rw [ht]
      exact ih _ hrest

theorem AddTransitionResourceStates_ok (w : World) (pb : ProgramBindings)
    (binding : ArgumentBinding)
    (h : ∀ view ∈ binding.GetResourceViews,
      ResourceTypeMatches w binding.GetSettings.resource_type view) :
    ∃ pb1, AddTransitionResourceStates w pb binding = .ok pb1 := by
  unfold AddTransitionResourceStates
  dsimp only
  obtain ⟨result, hr⟩ := AddTransitionResourceStatesLoop_ok w binding.GetSettings
    binding.GetResourceViews
    (pb.m_transition_resource_states_by_access binding.GetSettings.argument.GetAccessorIndex) h
  rw [hr]
  exact ⟨_, rfl⟩

theorem SetBindingValue_spec (b : ArgumentBinding) (v : BindingValue) :
    (SetBindingValue b v).GetSettings = b.GetSettings ∧
    ((SetBindingValue b v).GetResourceViews = ViewsOfValue v ∨
      (ViewsOfValue v = [] ∧ (SetBindingValue b v).GetResourceViews = b.GetResourceViews)) := by
  cases v with
  | RootConstant value =>
    unfold SetBindingValue ApplyBindingValue ViewsOfValue
    dsimp only
    split <;> exact ⟨rfl, Or.inr ⟨rfl, rfl⟩⟩
  | ResourceView value => exact ⟨rfl, Or.inl rfl⟩
  | ResourceViews value => exact ⟨rfl, Or.inl rfl⟩

/-- Success of `SetResourcesForArguments` and the bound arguments after it.  The map
and the settings of the binding objects do not change; `settings` are the settings
when the loop starts. -/
theorem SetResourcesForArgumentsLoop_ok (values : BindingValueByArgument)
    (pb : ProgramBindings) (w : World)
    (settings : BindingPtr → ProgramArgumentBindingSettings)
    (hsettings : ∀ q, (w.bindings q).GetSettings = settings q)
    (hdeclared : ∀ entry ∈ values, ∃ q, MapFind entry.1 pb.m_binding_by_argument = some q)
    (hnonempty : ∀ entry ∈ values, ∀ q, MapFind entry.1 pb.m_binding_by_argument = some q →
      (settings q).argument.IsRootConstant = false → ViewsOfValue entry.2 ≠ [])
    (htyped : ∀ entry ∈ values, ∀ q, MapFind entry.1 pb.m_binding_by_argument = some q →
      ∀ view ∈ ViewsOfValue entry.2, ResourceTypeMatches w (settings q).resource_type view)
    (hheld : ∀ entry ∈ pb.m_binding_by_argument, ∀ view ∈ (w.bindings entry.2).GetResourceViews,
      ResourceTypeMatches w (settings entry.2).resource_type view) :
    ∃ state, SetResourcesForArgumentsLoop values (pb, w) = .ok state ∧
      ∀ q, (IsBound (w.bindings q) ∨
          ∃ entry ∈ values, MapFind entry.1 pb.m_binding_by_argument = some q) →
        IsBound (state.2.bindings q) := by
  induction values generalizing pb w with
  | nil =>
    refine ⟨(pb, w), rfl, ?_⟩
    rintro q (h | ⟨entry, he, -⟩)
    · exact h
    · cases he
  | cons e rest ih =>
    obtain ⟨k, v⟩ := e
    obtain ⟨qk, hqk⟩ := hdeclared (k, v) (List.mem_cons_self _ _)
    have hget : Get pb k = .ok qk := (Get_eq_ok _ _ _).2 hqk
    obtain ⟨hset, hviews⟩ := SetBindingValue_spec (w.bindings qk) v
    have hsettings1 : ∀ q, ((w.SetBinding qk (SetBindingValue (w.bindings qk) v)).bindings
        q).GetSettings = settings q := by
      intro q
      simp only [World.SetBinding]
      split
      · rename_i heq
        subst heq
        rw [hset, hsettings]
      · exact hsettings q
    have hnewviews : ∀ view ∈ (SetBindingValue (w.bindings qk) v).GetResourceViews,
        ResourceTypeMatches w (settings qk).resource_type view := by
      intro view hview
      rcases hviews with h1 | ⟨-, h1⟩
      · rw [h1] at hview
        exact htyped (k, v) (List.mem_cons_self _ _) qk hqk view hview
      · rw [h1] at hview
        exact hheld (k, qk) (MapFind_mem _ _ _ hqk) view hview
    obtain ⟨pb1, hadd⟩ := AddTransitionResourceStates_ok
      (w.SetBinding qk (SetBindingValue (w.bindings qk) v)) pb
      (SetBindingValue (w.bindings qk) v) (by
        intro view hview
        rw [hset, hsettings]
        exact hnewviews view hview)
    have hmap := (AddTransitionResourceStates_frame _ _ _ _ hadd).1
    obtain ⟨state, hstate, hbound⟩ := ih pb1
      (w.SetBinding qk (SetBindingValue (w.bindings qk) v)) hsettings1
      (by
        intro entry he
        rw [hmap]
        exact hdeclared entry (List.mem_cons_of_mem _ he))
      (by
        intro entry he q hq
        rw [hmap] at hq
        exact hnonempty entry (List.mem_cons_of_mem _ he) q hq)
      (by
        intro entry he q hq
        rw [hmap] at hq
        exact htyped entry (List.mem_cons_of_mem _ he) q hq)
      (by
        intro entry he view hview
        rw [hmap] at he
        simp only [World.SetBinding] at hview
        split at hview
        · rename_i heq
          rw [heq]
          exact hnewviews view hview
        · exact hheld entry he view hview)
    refine ⟨state, ?_, ?_⟩
    · unfold SetResourcesForArgumentsLoop
      rw [hget]
      dsimp only
      have hadd2 : AddTransitionResourceStates
          (w.SetBinding qk ((ApplyBindingValue ((w.bindings qk).SetEmitCallbackEnabled false)
            v).SetEmitCallbackEnabled true)) pb
          ((ApplyBindingValue ((w.bindings qk).SetEmitCallbackEnabled false)
            v).SetEmitCallbackEnabled true) = .ok pb1 := hadd
      rw [hadd2]
      exact hstate
    · intro q hq
      apply hbound q
      have hstep : IsBound (w.bindings qk) ∨ ViewsOfValue v ≠ [] →
          IsBound ((w.SetBinding qk (SetBindingValue (w.bindings qk) v)).bindings qk) := by
        intro hor
        have hobj : (w.SetBinding qk (SetBindingValue (w.bindings qk) v)).bindings qk
            = SetBindingValue (w.bindings qk) v := by simp [World.SetBinding]
        rw [hobj]
        unfold IsBound
        rw [hset]
        by_cases hrc : (w.bindings qk).GetSettings.argument.IsRootConstant = true
        · exact Or.inl hrc
        · right
          simp only [Bool.not_eq_true] at hrc
          have hne := hnonempty (k, v) (List.mem_cons_self _ _) qk hqk
            (by rw [← hsettings]; exact hrc)
          rcases hviews with h1 | ⟨h1, -⟩
          · rw [h1]
            exact hne
          · exact absurd h1 hne
      have hstep2 : IsBound ((w.SetBinding qk (SetBindingValue (w.bindings qk) v)).bindings qk) := by
        by_cases hrc : (w.bindings qk).GetSettings.argument.IsRootConstant = true
        · exact hstep (Or.inl (Or.inl hrc))
        · simp only [Bool.not_eq_true] at hrc
          exact hstep (Or.inr (hnonempty (k, v) (List.mem_cons_self _ _) qk hqk
            (by rw [← hsettings]; exact hrc)))
      rcases hq with hq | ⟨entry, he, hfind⟩
      · left
        by_cases heq : q = qk
        · subst heq
          exact hstep2
        · simp only [World.SetBinding, heq, if_false]
          exact hq
      · rcases List.mem_cons.1 he with heq | he
        · subst heq
          dsimp only at hfind
          rw [hqk] at hfind
          injection hfind with hfind
          subst hfind
          exact Or.inl hstep2
        · right
          exact ⟨entry, he, by rw [hmap]; exact hfind⟩


theorem GetUnboundArguments_eq_nil (w : World) (pb : ProgramBindings)
    (h : ∀ entry ∈ pb.m_binding_by_argument, IsBound (w.bindings entry.2)) :
    GetUnboundArguments w pb = [] := by
  rw [List.eq_nil_iff_forall_not_mem]
  intro a ha
  unfold GetUnboundArguments at ha
  rw [mem_GetUnboundArgumentsLoop] at ha
  rcases ha with ha | ⟨p, hp, h1, h2⟩
  · cases ha
  rcases h (a, p) hp with hb | hb
  · rw [h1] at hb
    cases hb
  · exact hb h2

theorem VerifyAllArgumentsAreBoundToResources_ok (w : World) (pb : ProgramBindings)
    (h : GetUnboundArguments w pb = []) :
    VerifyAllArgumentsAreBoundToResources w pb = .ok () := by
  simp [VerifyAllArgumentsAreBoundToResources, h]

/-- Claim C4 (amended): for a program with N declared arguments, constructing program
bindings with initial values whose keys are declared arguments, that give every
declared argument a value (a non-empty resource-view list for each non-RootConstant
argument) and whose resources are of the resource type declared for their argument,
succeeds and yields exactly N binding entries, one per declared argument, and an
empty `GetUnboundArguments`. -/
theorem ConstructWithValues_all_bound (w : World) (program : ProgramPtr)
    (values : BindingValueByArgument) (frame_index : Nat)
    (h_alloc : ∀ entry ∈ (w.programs program).GetArgumentBindings, entry.2 < w.bindings_end)
    (h_keys : ((w.programs program).GetArgumentBindings.map Prod.fst).Nodup)
    (h_declared : ∀ entry ∈ values,
      entry.1 ∈ (w.programs program).GetArgumentBindings.map Prod.fst)
    (h_all : ∀ entry ∈ (w.programs program).GetArgumentBindings,
      ∃ value ∈ values, value.1 = entry.1)
    (h_nonempty : ∀ entry ∈ (w.programs program).GetArgumentBindings,
      (w.bindings entry.2).GetSettings.argument.IsRootConstant = false →
      ∀ value ∈ values, value.1 = entry.1 → ViewsOfValue value.2 ≠ [])
    (h_typed : ∀ entry ∈ (w.programs program).GetArgumentBindings,
      (∀ view ∈ (w.bindings entry.2).GetResourceViews,
        ResourceTypeMatches w (w.bindings entry.2).GetSettings.resource_type view) ∧
      ∀ value ∈ values, value.1 = entry.1 → ∀ view ∈ ViewsOfValue value.2,
        ResourceTypeMatches w (w.bindings entry.2).GetSettings.resource_type view) :
    ∃ state, ProgramBindings.ConstructWithValues w program values frame_index = .ok state ∧
      state.1.m_binding_by_argument.length = (w.programs program).GetArgumentBindings.length ∧
      state.1.m_binding_by_argument.map Prod.fst
        = (w.programs program).GetArgumentBindings.map Prod.fst ∧
      GetUnboundArguments state.2 state.1 = [] := by
  obtain ⟨⟨-, -, hentries, -, hnodup⟩, hkeys⟩ := Construct_spec w program frame_index h_alloc h_keys
  have hres := (Construct_frame w program frame_index).2.2
  have hsrc : ∀ k q, MapFind k (ProgramBindings.Construct w program frame_index).1.m_binding_by_argument
      = some q → ∃ p, (k, p) ∈ (w.programs program).GetArgumentBindings ∧
        (ProgramBindings.Construct w program frame_index).2.bindings q = w.bindings p := by
    intro k q hq
    obtain ⟨-, p, hp, hobj, -⟩ := hentries (k, q) (MapFind_mem _ _ _ hq)
    exact ⟨p, hp, hobj⟩
  have hmatch : ∀ rt view, ResourceTypeMatches w rt view →
      ResourceTypeMatches (ProgramBindings.Construct w program frame_index).2 rt view := by
    intro rt view h
    unfold ResourceTypeMatches
    rw [hres]
    exact h
  obtain ⟨looped, hloop, hbound⟩ := SetResourcesForArgumentsLoop_ok values
    (ProgramBindings.Construct w program frame_index).1
    (ProgramBindings.Construct w program frame_index).2
    (fun q => ((ProgramBindings.Construct w program frame_index).2.bindings q).GetSettings)
    (fun _ => rfl)
    (by
      intro entry he
      have hk := h_declared entry he
      rw [← hkeys] at hk
      simp only [List.mem_map, Prod.exists, exists_and_right, exists_eq_right] at hk
      obtain ⟨q, hq⟩ := hk
      exact ⟨q, MapFind_of_mem_nodup _ _ _ hnodup hq⟩)
    (by
      intro entry he q hq hrc
      obtain ⟨p, hp, hobj⟩ := hsrc _ _ hq
      dsimp only at hrc
      rw [hobj] at hrc
      exact h_nonempty (entry.1, p) hp hrc entry he rfl)
    (by
      intro entry he q hq view hview
      obtain ⟨p, hp, hobj⟩ := hsrc _ _ hq
      dsimp only
      rw [hobj]
      exact hmatch _ _ ((h_typed (entry.1, p) hp).2 entry he rfl view hview))
    (by
      intro entry he view hview
      obtain ⟨p, hp, hobj⟩ := hsrc _ _ (MapFind_of_mem_nodup _ _ _ hnodup he)
      dsimp only
      rw [hobj] at hview ⊢
      exact hmatch _ _ ((h_typed (entry.1, p) hp).1 view hview))
  have hmap := (SetResourcesForArgumentsLoop_frame _ _ _ _ hloop).1
  have hunbound : GetUnboundArguments looped.2 (InitResourceRefsByAccess looped.2 looped.1) = [] := by
    apply GetUnboundArguments_eq_nil
    intro entry he
    have he2 : entry ∈ (ProgramBindings.Construct w program frame_index).1.m_binding_by_argument := by
      rw [← hmap]
      exact he
    apply hbound
    right
    have hfind := MapFind_of_mem_nodup _ _ _ hnodup he2
    obtain ⟨p, hp, -⟩ := hsrc _ _ hfind
    obtain ⟨value, hv, hveq⟩ := h_all (entry.1, p) hp
    exact ⟨value, hv, by rw [hveq]; exact hfind⟩
  refine ⟨(InitResourceRefsByAccess looped.2 looped.1, looped.2), ?_, ?_, ?_, hunbound⟩
  · unfold ProgramBindings.ConstructWithValues SetResourcesForArguments
    dsimp only
    rw [hloop]
    dsimp only
    have hver : VerifyAllArgumentsAreBoundToResources looped.2
        (InitResourceRefsByAccess looped.2 looped.1) = .ok () :=
      VerifyAllArgumentsAreBoundToResources_ok _ _ hunbound
    rw [hver]
  · show looped.1.m_binding_by_argument.length = _
    rw [hmap, ← List.length_map _ Prod.fst, hkeys, List.length_map]
  · show looped.1.m_binding_by_argument.map Prod.fst = _
    rw [hmap, hkeys]

/-- Witness of C4 (amended): the textured-cube program with values for its three
arguments. -/
theorem ConstructWithValues_all_bound_witness :
    ∃ state, ProgramBindings.ConstructWithValues Example.world 0 Example.cube_values 0 = .ok state ∧
      state.1.m_binding_by_argument.length = 3 ∧
      GetUnboundArguments state.2 state.1 = [] := by
  obtain ⟨state, h1, h2, -, h4⟩ := ConstructWithValues_all_bound Example.world 0
    Example.cube_values 0 (by decide) (by decide) (by decide) (by decide) (by decide) (by decide)
  exact ⟨state, h1, h2, h4⟩

/-- Counterexample to C4 as stated: the values give each of the three arguments of
the textured-cube program a value, a resource view for `g_texture` and `g_sampler`,
and yet the construction fails: (1) when the resource bound to the texture argument
is a buffer, with the bad cast of `GetBoundResourceTargetState`; (2) when the map
holds, besides, a value for an argument that the program does not declare, with the
argument-not-found error. -/
theorem ConstructWithValues_fails :
    ErrorOf (ProgramBindings.ConstructWithValues Example.world 0
      Example.cube_values_with_buffer 0) = some Error.BadCast ∧
    ErrorOf (ProgramBindings.ConstructWithValues Example.world 0
      Example.cube_values_with_missing 0)
      = some (Error.ProgramArgumentNotFound 0 Example.g_missing) := by
  decide

/-! ### Clone and source -/

theorem SetState_bindings (w : World) (p : ResourcePtr) (s : ResourceState)
    (b : Option ResourceBarriers) :
    (SetState w p s b).2.1.bindings = w.bindings ∧
    (SetState w p s b).2.1.bindings_end = w.bindings_end ∧
    (SetState w p s b).2.1.programs = w.programs := by
  unfold SetState
  dsimp only
  split <;> exact ⟨rfl, rfl, rfl⟩

theorem SetOwnerQueueFamily_bindings (w : World) (p : ResourcePtr) (f : Nat)
    (b : Option ResourceBarriers) :
    (SetOwnerQueueFamily w p f b).2.1.bindings = w.bindings ∧
    (SetOwnerQueueFamily w p f b).2.1.bindings_end = w.bindings_end ∧
    (SetOwnerQueueFamily w p f b).2.1.programs = w.programs := by
  unfold SetOwnerQueueFamily
  dsimp only
  split <;> exact ⟨rfl, rfl, rfl⟩

theorem ApplyResourceStatesLoop_bindings (q : Option CommandQueue) (l : ResourceStates)
    (c : Bool) (w : World) (b : Option ResourceBarriers) :
    (ApplyResourceStatesLoop q l (c, w, b)).2.1.bindings = w.bindings ∧
    (ApplyResourceStatesLoop q l (c, w, b)).2.1.bindings_end = w.bindings_end ∧
    (ApplyResourceStatesLoop q l (c, w, b)).2.1.programs = w.programs := by
  induction l generalizing c w b with
  | nil => exact ⟨rfl, rfl, rfl⟩
  | cons e rest ih =>
    unfold ApplyResourceStatesLoop
    dsimp only
    refine ⟨(ih _ _ _).1.trans ?_, (ih _ _ _).2.1.trans ?_, (ih _ _ _).2.2.trans ?_⟩
    · rw [(SetState_bindings _ _ _ _).1]
      cases q with
      | none => rfl
      | some queue => exact (SetOwnerQueueFamily_bindings _ _ _ _).1
    · rw [(SetState_bindings _ _ _ _).2.1]
      cases q with
      | none => rfl
      | some queue => exact (SetOwnerQueueFamily_bindings _ _ _ _).2.1
    · rw [(SetState_bindings _ _ _ _).2.2]
      cases q with
      | none => rfl
      | some queue => exact (SetOwnerQueueFamily_bindings _ _ _ _).2.2

theorem SetResourcesForArgumentsLoop_untouched (values : BindingValueByArgument)
    (pb : ProgramBindings) (w : World) (state : ProgramBindings × World)
    (h : SetResourcesForArgumentsLoop values (pb, w) = .ok state) (p : BindingPtr)
    (hp : ∀ entry ∈ pb.m_binding_by_argument, entry.2 ≠ p) :
    state.2.bindings p = w.bindings p := by
  induction values generalizing pb w with
  | nil =>
    simp only [SetResourcesForArgumentsLoop, Except.ok.injEq] at h
    subst h
    rfl
  | cons e rest ih =>
    obtain ⟨k, v⟩ := e
    unfold SetResourcesForArgumentsLoop at h
    split at h
    · cases h
    · rename_i q hget
      dsimp only at h
      split at h
      · cases h
      · rename_i pb1 hadd
        have hmap := (AddTransitionResourceStates_frame _ _ _ _ hadd).1
        rw [ih pb1 _ h (by rw [hmap]; exact hp)]
        have hq := MapFind_mem _ _ _ ((Get_eq_ok _ _ _).1 hget)
        have hne : p ≠ q := fun heq => hp (k, q) hq heq.symm
        simp [World.SetBinding, hne]

theorem SetResourcesForArguments_untouched (values : BindingValueByArgument)
    (pb : ProgramBindings) (w : World) (state : ProgramBindings × World)
    (h : SetResourcesForArguments w pb values = .ok state) (p : BindingPtr)
    (hp : ∀ entry ∈ pb.m_binding_by_argument, entry.2 ≠ p) :
    state.2.bindings p = w.bindings p := by
  obtain ⟨looped, hloop, heq⟩ := SetResourcesForArguments_loop _ _ _ _ h
  rw [heq]
  exact SetResourcesForArgumentsLoop_untouched _ _ _ _ hloop p hp

/-- The binding objects of the clone are allocated by the copy constructor: none of
them existed before. -/
theorem Copy_fresh (w : World) (other : ProgramBindings) (frame_index : Option Nat)
    (h_alloc : ∀ entry ∈ other.m_binding_by_argument, entry.2 < w.bindings_end)
    (h_keys : (other.m_binding_by_argument.map Prod.fst).Nodup) :
    ∀ clone_entry ∈ (ProgramBindings.Copy w other frame_index).1.m_binding_by_argument,
      w.bindings_end ≤ clone_entry.2 := by
  obtain ⟨⟨-, -, hentries, -, -⟩, -⟩ := Copy_spec w other frame_index h_alloc h_keys
  intro clone_entry hc
  obtain ⟨-, p, -, -, hcase⟩ := hentries clone_entry hc
  exact hcase

/-- The binding objects of the source are not among the binding objects of the
clone. -/
theorem Copy_separate (w : World) (other : ProgramBindings) (frame_index : Option Nat)
    (h_alloc : ∀ entry ∈ other.m_binding_by_argument, entry.2 < w.bindings_end)
    (h_keys : (other.m_binding_by_argument.map Prod.fst).Nodup)
    (entry : ProgramArgument × BindingPtr) (h_entry : entry ∈ other.m_binding_by_argument) :
    ∀ clone_entry ∈ (ProgramBindings.Copy w other frame_index).1.m_binding_by_argument,
      clone_entry.2 ≠ entry.2 := by
  intro clone_entry hc heq
  have h1 := Copy_fresh w other frame_index h_alloc h_keys clone_entry hc
  rw [heq] at h1
  exact absurd (h_alloc entry h_entry) (Nat.not_lt.2 h1)

theorem Connect_program_bindings (instances : Instances) (b : BindingPtr) (r : ProgramBindingsPtr) :
    (Connect instances b r).program_bindings = instances.program_bindings := by
  unfold Connect
  split <;> rfl

theorem Connect_other (instances : Instances) (b p : BindingPtr) (r : ProgramBindingsPtr)
    (h : p ≠ b) :
    (Connect instances b r).connected_receivers p = instances.connected_receivers p := by
  unfold Connect
  split
  · rfl
  · simp [h]

theorem Connect_connected (instances : Instances) (b : BindingPtr) (r : ProgramBindingsPtr)
    (h : r ∈ instances.connected_receivers b) :
    Connect instances b r = instances := by
  unfold Connect
  rw [if_pos h]

theorem Connect_new (instances : Instances) (b : BindingPtr) (r : ProgramBindingsPtr)
    (h : r ∉ instances.connected_receivers b) :
    (Connect instances b r).connected_receivers b = instances.connected_receivers b ++ [r] := by
  unfold Connect
  rw [if_neg h]
  simp

theorem InitializeLoop_program_bindings (this_ptr : ProgramBindingsPtr) (l : ArgumentBindings)
    (instances : Instances) :
    (InitializeLoop this_ptr l instances).program_bindings = instances.program_bindings := by
  induction l generalizing instances with
  | nil => rfl
  | cons e rest ih =>
    obtain ⟨k, b⟩ := e
    unfold InitializeLoop
    rw [ih, Connect_program_bindings]

theorem InitializeLoop_other (this_ptr : ProgramBindingsPtr) (l : ArgumentBindings)
    (instances : Instances) (p : BindingPtr) (h : ∀ e ∈ l, e.2 ≠ p) :
    (InitializeLoop this_ptr l instances).connected_receivers p
      = instances.connected_receivers p := by
  induction l generalizing instances with
  | nil => rfl
  | cons e rest ih =>
    obtain ⟨k, b⟩ := e
    unfold InitializeLoop
    rw [ih _ (fun e he => h e (List.mem_cons_of_mem _ he))]
    exact Connect_other _ _ _ _ (fun heq => h (k, b) (List.mem_cons_self _ _) heq.symm)

theorem InitializeLoop_connected (this_ptr : ProgramBindingsPtr) (l : ArgumentBindings)
    (instances : Instances) (p : BindingPtr)
    (h : this_ptr ∈ instances.connected_receivers p) :
    (InitializeLoop this_ptr l instances).connected_receivers p
      = instances.connected_receivers p := by
  induction l generalizing instances with
  | nil => rfl
  | cons e rest ih =>
    obtain ⟨k, b⟩ := e
    unfold InitializeLoop
    by_cases hb : p = b
    · subst hb
      rw [Connect_connected _ _ _ h]
      exact ih _ h
    · rw [ih _ (by rw [Connect_other _ _ _ _ hb]; exact h)]
      exact Connect_other _ _ _ _ hb

theorem InitializeLoop_new (this_ptr : ProgramBindingsPtr) (l : ArgumentBindings)
    (instances : Instances) (p : BindingPtr) (hp : ∃ e ∈ l, e.2 = p)
    (h : this_ptr ∉ instances.connected_receivers p) :
    (InitializeLoop this_ptr l instances).connected_receivers p
      = instances.connected_receivers p ++ [this_ptr] := by
  induction l generalizing instances with
  | nil =>
    obtain ⟨e, he, -⟩ := hp
    cases he
  | cons e rest ih =>
    obtain ⟨k, b⟩ := e
    unfold InitializeLoop
    by_cases hb : p = b
    · subst hb
      rw [InitializeLoop_connected _ _ _ _ (by rw [Connect_new _ _ _ h]; simp)]
      exact Connect_new _ _ _ h
    · have hrest : ∃ e ∈ rest, e.2 = p := by
        obtain ⟨e, he, hep⟩ := hp
        rcases List.mem_cons.1 he with he | he
        · subst he
          exact absurd hep.symm hb
        · exact ⟨e, he, hep⟩
      rw [ih _ hrest (by rw [Connect_other _ _ _ _ hb]; exact h)]
      rw [Connect_other _ _ _ _ hb]

theorem EmitResourceViewsChanged_frame (w : World) (binding : ArgumentBinding)
    (old_views new_views : ResourceViews) (receivers : List ProgramBindingsPtr)
    (instances result : Instances)
    (h : EmitResourceViewsChanged w binding old_views new_views receivers instances = .ok result) :
    result.connected_receivers = instances.connected_receivers ∧
    ∀ p, p ∉ receivers → result.program_bindings p = instances.program_bindings p := by
  induction receivers generalizing instances with
  | nil =>
    simp only [EmitResourceViewsChanged, Except.ok.injEq] at h
    subst h
    exact ⟨rfl, fun _ _ => rfl⟩
  | cons r rest ih =>
    unfold EmitResourceViewsChanged at h
    split at h
    · cases h
    · rename_i pb hpb
      obtain ⟨h1, h2⟩ := ih _ h
      refine ⟨h1, ?_⟩
      intro p hp
      rw [h2 p (fun hmem => hp (List.mem_cons_of_mem _ hmem))]
      have hne : p ≠ r := fun heq => hp (by rw [heq]; exact List.mem_cons_self _ _)
      simp [Instances.SetProgramBindings, hne]

theorem SetResourceViewsAt_frame (w : World) (instances : Instances) (b : BindingPtr)
    (views : ResourceViews) (state : Instances × World)
    (h : SetResourceViewsAt w instances b views = .ok state) :
    (∀ p, p ≠ b → state.2.bindings p = w.bindings p) ∧
    state.2.resources = w.resources ∧
    state.1.connected_receivers = instances.connected_receivers ∧
    ∀ p, p ∉ instances.connected_receivers b →
      state.1.program_bindings p = instances.program_bindings p := by
  unfold SetResourceViewsAt at h
  dsimp only at h
  split at h
  · split at h
    · split at h
      · cases h
      · rename_i instances1 hemit
        simp only [Except.ok.injEq] at h
        subst h
        obtain ⟨h1, h2⟩ := EmitResourceViewsChanged_frame _ _ _ _ _ _ _ hemit
        refine ⟨?_, rfl, h1, h2⟩
        intro p hp
        simp [World.SetBinding, hp]
    · simp only [Except.ok.injEq] at h
      subst h
      refine ⟨?_, rfl, rfl, fun _ _ => rfl⟩
      intro p hp
      simp [World.SetBinding, hp]
  · simp only [Except.ok.injEq] at h
    subst h
    exact ⟨fun _ _ => rfl, rfl, rfl, fun _ _ => rfl⟩


theorem SetResourcesForArgumentsAt_ok (w : World) (instances : Instances)
    (this_ptr : ProgramBindingsPtr) (values : BindingValueByArgument) (state : Instances × World)
    (h : SetResourcesForArgumentsAt w instances this_ptr values = .ok state) :
    ∃ result, SetResourcesForArguments w (instances.program_bindings this_ptr) values = .ok result ∧
      state = (instances.SetProgramBindings this_ptr result.1, result.2) := by
  unfold SetResourcesForArgumentsAt at h
  split at h
  · cases h
  · rename_i result hresult
    simp only [Except.ok.injEq] at h
    exact ⟨result, hresult, h.symm⟩

/-- Claim C11: changing the clone never changes the source.  The source instance is
stored at `source_ptr`; its clone is stored at another address and connected by
`Initialize` to its binding objects, which the copy constructor allocates, so that
before no receiver is connected to them.  (1) Cloning leaves every binding object of
the source as it is, and storing and connecting the clone leaves the source instance
and the receivers of the source's binding objects as they are; the only receiver of
each binding object of the clone is the clone.  (2) A value replacement on the clone
(`SetResourcesForArguments` called on the instance at the clone's address, in any
later state in which it holds the clone's argument-to-binding map) leaves the source
instance, transition buckets included, and the binding object of every argument of
the source, constant accessors included, as they were.  (3) So does the replacement
made by a clone with a replacement map.  (4) So does a replacement of the resource
views of a binding object of the clone with the change notification it emits to its
receivers, in any later state in which the receivers of that binding object are
those connected by `Initialize`.  (5) `ApplyResourceStates` changes no binding
object. -/
theorem Copy_leaves_source (w : World) (instances : Instances)
    (source_ptr clone_ptr : ProgramBindingsPtr) (frame_index : Option Nat)
    (h_alloc : ∀ entry ∈ (instances.program_bindings source_ptr).m_binding_by_argument,
      entry.2 < w.bindings_end)
    (h_keys : ((instances.program_bindings source_ptr).m_binding_by_argument.map Prod.fst).Nodup)
    (h_distinct : clone_ptr ≠ source_ptr)
    (h_unconnected : ∀ p, w.bindings_end ≤ p → instances.connected_receivers p = []) :
    ((∀ entry ∈ (instances.program_bindings source_ptr).m_binding_by_argument,
        (ProgramBindings.Copy w (instances.program_bindings source_ptr) frame_index).2.bindings
            entry.2 = w.bindings entry.2 ∧
        (ProgramBindings.Initialize (instances.SetProgramBindings clone_ptr
            (ProgramBindings.Copy w (instances.program_bindings source_ptr) frame_index).1)
          clone_ptr).connected_receivers entry.2 = instances.connected_receivers entry.2) ∧
      (ProgramBindings.Initialize (instances.SetProgramBindings clone_ptr
          (ProgramBindings.Copy w (instances.program_bindings source_ptr) frame_index).1)
        clone_ptr).program_bindings source_ptr = instances.program_bindings source_ptr ∧
      (∀ clone_entry ∈ (ProgramBindings.Copy w (instances.program_bindings source_ptr)
          frame_index).1.m_binding_by_argument,
        (ProgramBindings.Initialize (instances.SetProgramBindings clone_ptr
            (ProgramBindings.Copy w (instances.program_bindings source_ptr) frame_index).1)
          clone_ptr).connected_receivers clone_entry.2 = [clone_ptr])) ∧
    (∀ instances1 w1 values state,
      (instances1.program_bindings clone_ptr).m_binding_by_argument
        = (ProgramBindings.Copy w (instances.program_bindings source_ptr)
            frame_index).1.m_binding_by_argument →
      SetResourcesForArgumentsAt w1 instances1 clone_ptr values = .ok state →
      state.1.program_bindings source_ptr = instances1.program_bindings source_ptr ∧
      ∀ entry ∈ (instances.program_bindings source_ptr).m_binding_by_argument,
        state.2.bindings entry.2 = w1.bindings entry.2) ∧
    (∀ replace state,
      ProgramBindings.CopyWithReplacement w (instances.program_bindings source_ptr) replace
        frame_index = .ok state →
      ∀ entry ∈ (instances.program_bindings source_ptr).m_binding_by_argument,
        state.2.bindings entry.2 = w.bindings entry.2) ∧
    (∀ instances1 w1 resource_views state,
      ∀ clone_entry ∈ (ProgramBindings.Copy w (instances.program_bindings source_ptr)
          frame_index).1.m_binding_by_argument,
      instances1.connected_receivers clone_entry.2
        = (ProgramBindings.Initialize (instances.SetProgramBindings clone_ptr
            (ProgramBindings.Copy w (instances.program_bindings source_ptr) frame_index).1)
          clone_ptr).connected_receivers clone_entry.2 →
      SetResourceViewsAt w1 instances1 clone_entry.2 resource_views = .ok state →
      state.1.program_bindings source_ptr = instances1.program_bindings source_ptr ∧
      ∀ entry ∈ (instances.program_bindings source_ptr).m_binding_by_argument,
        state.2.bindings entry.2 = w1.bindings entry.2) ∧
    (∀ pb access owner_queue_ptr,
      (ApplyResourceStates
        (ProgramBindings.Copy w (instances.program_bindings source_ptr) frame_index).2 pb access
        owner_queue_ptr).2.2.bindings
        = (ProgramBindings.Copy w (instances.program_bindings source_ptr)
            frame_index).2.bindings) := by
  obtain ⟨⟨-, hlow, -, -, -⟩, -⟩ :=
    Copy_spec w (instances.program_bindings source_ptr) frame_index h_alloc h_keys
  have hfresh := Copy_fresh w (instances.program_bindings source_ptr) frame_index h_alloc h_keys
  have hseparate := Copy_separate w (instances.program_bindings source_ptr) frame_index h_alloc
    h_keys
  have hmap : ((instances.SetProgramBindings clone_ptr
      (ProgramBindings.Copy w (instances.program_bindings source_ptr) frame_index).1).program_bindings
        clone_ptr).m_binding_by_argument
      = (ProgramBindings.Copy w (instances.program_bindings source_ptr)
          frame_index).1.m_binding_by_argument := by
    simp [Instances.SetProgramBindings]
  have hreceivers : ∀ clone_entry ∈ (ProgramBindings.Copy w (instances.program_bindings source_ptr)
        frame_index).1.m_binding_by_argument,
      (ProgramBindings.Initialize (instances.SetProgramBindings clone_ptr
          (ProgramBindings.Copy w (instances.program_bindings source_ptr) frame_index).1)
        clone_ptr).connected_receivers clone_entry.2 = [clone_ptr] := by
    intro clone_entry hc
    unfold ProgramBindings.Initialize
    rw [hmap]
    have hempty : (instances.SetProgramBindings clone_ptr
        (ProgramBindings.Copy w (instances.program_bindings source_ptr)
          frame_index).1).connected_receivers clone_entry.2 = [] :=
      h_unconnected _ (hfresh clone_entry hc)
    rw [InitializeLoop_new _ _ _ _ ⟨clone_entry, hc, rfl⟩ (by rw [hempty]; simp), hempty]
    rfl
  refine ⟨⟨?_, ?_, hreceivers⟩, ?_, ?_, ?_, ?_⟩
  · intro entry he
    refine ⟨hlow _ (h_alloc entry he), ?_⟩
    unfold ProgramBindings.Initialize
    rw [hmap]
    exact InitializeLoop_other _ _ _ _ (fun clone_entry hc => hseparate entry he clone_entry hc)
  · unfold ProgramBindings.Initialize
    rw [InitializeLoop_program_bindings]
    simp [Instances.SetProgramBindings, h_distinct.symm]
  · intro instances1 w1 values state hmap1 hset
    obtain ⟨result, hresult, hstate⟩ := SetResourcesForArgumentsAt_ok _ _ _ _ _ hset
    subst hstate
    refine ⟨by simp [Instances.SetProgramBindings, h_distinct.symm], ?_⟩
    intro entry he
    apply SetResourcesForArguments_untouched _ _ _ _ hresult
    rw [hmap1]
    exact hseparate entry he
  · intro replace state hstate entry he
    obtain ⟨hset, -⟩ := CopyWithReplacement_ok _ _ _ _ _ hstate
    rw [SetResourcesForArguments_untouched _ _ _ _ hset entry.2 (hseparate entry he)]
    exact hlow _ (h_alloc entry he)
  · intro instances1 w1 resource_views state clone_entry hc hsame hset
    obtain ⟨h1, -, -, h2⟩ := SetResourceViewsAt_frame _ _ _ _ _ hset
    refine ⟨h2 _ ?_, ?_⟩
    · rw [hsame, hreceivers clone_entry hc]
      simpa using h_distinct.symm
    · intro entry he
      exact h1 _ (fun heq => hseparate entry he clone_entry hc heq.symm)
  · intro pb access q
    rw [ApplyResourceStates_eq]
    exact (ApplyResourceStatesLoop_bindings _ _ _ _ _).1


theorem cube_instances_unconnected :
    ∀ p, Example.cube_applied.2.2.bindings_end ≤ p →
      Example.cube_instances.connected_receivers p = [] := by
  intro p hp
  have hend : Example.cube_applied.2.2.bindings_end = 8 := by decide
  rw [hend] at hp
  have hlow : ∀ e ∈ Example.cube_applied.2.1.m_binding_by_argument, e.2 < 8 := by decide
  unfold Example.cube_instances ProgramBindings.Initialize
  rw [InitializeLoop_other]
  intro e he heq
  have hlt := hlow e he
  rw [heq] at hlt
  exact absurd hlt (Nat.not_lt.2 hp)

/-- Witness of C11: the applied textured-cube bindings are stored at address 0 and
connected to their binding objects (addresses 5 to 7); their clone, with the binding
objects at addresses 8 to 10, is stored at address 1, connected and applied.  When
the clone's binding of `g_texture` is re-bound to the other texture, the clone's
mutable bucket records the other texture while the source's mutable bucket and
binding of `g_texture` still hold the cube texture; when a root constant is bound to
the constant argument `g_constants` of the clone, the clone's binding object holds
it and the source's binding object still holds its own. -/
theorem Copy_leaves_source_witness :
    (ValueOf (SetResourceViewsAt Example.cube_clone_applied.2.2 Example.cube_instances_with_clone
        9 [Example.view 2])).map
      (fun state => ((state.1.program_bindings 1).m_transition_resource_states_by_access
        ProgramArgumentAccessType.Mutable, (state.2.bindings 9).GetResourceViews))
      = some ([{ resource_ptr := 2, state := ResourceState.ShaderResource }], [Example.view 2]) ∧
    (∀ state, SetResourceViewsAt Example.cube_clone_applied.2.2 Example.cube_instances_with_clone
        9 [Example.view 2] = .ok state →
      (state.1.program_bindings 0).m_transition_resource_states_by_access
          ProgramArgumentAccessType.Mutable
        = [{ resource_ptr := 0, state := ResourceState.ShaderResource }] ∧
      (state.2.bindings 6).GetResourceViews = [Example.view 0]) ∧
    (Example.cube_clone_applied.2.2.bindings 5).GetSettings.argument.IsConstant = true ∧
    (ValueOf (SetResourcesForArgumentsAt Example.cube_clone_applied.2.2
        Example.cube_instances_with_clone 1
        [(Example.g_constants, BindingValue.RootConstant { data := [7] })])).map
      (fun state => (state.2.bindings 8).GetRootConstant) = some { data := [7] } ∧
    (∀ state, SetResourcesForArgumentsAt Example.cube_clone_applied.2.2
        Example.cube_instances_with_clone 1
        [(Example.g_constants, BindingValue.RootConstant { data := [7] })] = .ok state →
      (state.2.bindings 5).GetRootConstant = { data := [1, 2, 3, 4] } ∧
      (state.1.program_bindings 0).m_transition_resource_states_by_access
          ProgramArgumentAccessType.Mutable
        = [{ resource_ptr := 0, state := ResourceState.ShaderResource }]) := by
  have h := Copy_leaves_source Example.cube_applied.2.2 Example.cube_instances 0 1 none
    (by decide) (by decide) (by decide) cube_instances_unconnected
  refine ⟨by decide, ?_, by decide, by decide, ?_⟩
  · intro state hstate
    obtain ⟨h1, h2⟩ := h.2.2.2.1 Example.cube_instances_with_clone Example.cube_clone_applied.2.2
      [Example.view 2] state (Example.g_texture, 9) (by decide) rfl hstate
    rw [h1, h2 (Example.g_texture, 6) (by decide)]
    decide
  · intro state hstate
    obtain ⟨h1, h2⟩ := h.2.1 Example.cube_instances_with_clone Example.cube_clone_applied.2.2
      [(Example.g_constants, BindingValue.RootConstant { data := [7] })] state (by decide) hstate
    rw [h1, h2 (Example.g_constants, 5) (by decide)]
    decide

/-! ### The argument-to-binding map -/

theorem RemoveTransitionResourceStates_frame (w : World) (pb : ProgramBindings)
    (binding : ArgumentBinding) (r : ResourcePtr) :
    (RemoveTransitionResourceStates w pb binding r).m_binding_by_argument
        = pb.m_binding_by_argument ∧
    (RemoveTransitionResourceStates w pb binding r).m_resource_refs_by_access
        = pb.m_resource_refs_by_access := by
  unfold RemoveTransitionResourceStates
  split <;> exact ⟨rfl, rfl⟩

theorem RemoveUnusedResourcesLoop_frame (w : World) (binding : ArgumentBinding)
    (new_views old_views : ResourceViews) (processed : List ResourcePtr) (pb : ProgramBindings) :
    (RemoveUnusedResourcesLoop w binding new_views old_views processed pb).m_binding_by_argument
        = pb.m_binding_by_argument ∧
    (RemoveUnusedResourcesLoop w binding new_views old_views processed
      pb).m_resource_refs_by_access = pb.m_resource_refs_by_access := by
  induction old_views generalizing processed pb with
  | nil => exact ⟨rfl, rfl⟩
  | cons v rest ih =>
    unfold RemoveUnusedResourcesLoop
    split
    · exact ih _ _
    · split
      · exact ih _ _
      · dsimp only
        obtain ⟨h1, h2⟩ := ih processed (RemoveTransitionResourceStates w
          { pb with m_resource_state_transition_barriers_ptr :=
                      pb.m_resource_state_transition_barriers_ptr.map
                        (fun b => b.RemoveStateTransition v.GetResourcePtr) }
          binding v.GetResourcePtr)
        obtain ⟨g1, g2⟩ := RemoveTransitionResourceStates_frame w
          { pb with m_resource_state_transition_barriers_ptr :=
                      pb.m_resource_state_transition_barriers_ptr.map
                        (fun b => b.RemoveStateTransition v.GetResourcePtr) }
          binding v.GetResourcePtr
        exact ⟨by rw [h1, g1], by rw [h2, g2]⟩

theorem AddTransitionResourceState_frame (w : World) (pb pb1 : ProgramBindings)
    (binding : ArgumentBinding) (r : ResourcePtr)
    (h : AddTransitionResourceState w pb binding r = .ok pb1) :
    pb1.m_binding_by_argument = pb.m_binding_by_argument ∧
    pb1.m_resource_refs_by_access = pb.m_resource_refs_by_access := by
  unfold AddTransitionResourceState at h
  split at h
  · simp only [Except.ok.injEq] at h
    subst h
    exact ⟨rfl, rfl⟩
  · dsimp only at h
    split at h
    · cases h
    · simp only [Except.ok.injEq] at h
      subst h
      exact ⟨rfl, rfl⟩

theorem AddNewResourcesLoop_frame (w : World) (binding : ArgumentBinding)
    (views : ResourceViews) (pb pb1 : ProgramBindings)
    (h : AddNewResourcesLoop w binding views pb = .ok pb1) :
    pb1.m_binding_by_argument = pb.m_binding_by_argument ∧
    pb1.m_resource_refs_by_access = pb.m_resource_refs_by_access := by
  induction views generalizing pb with
  | nil =>
    simp only [AddNewResourcesLoop, Except.ok.injEq] at h
    subst h
    exact ⟨rfl, rfl⟩
  | cons v rest ih =>
    unfold AddNewResourcesLoop at h
    split at h
    · cases h
    · rename_i pb2 hadd
      obtain ⟨h1, h2⟩ := ih pb2 h
      obtain ⟨g1, g2⟩ := AddTransitionResourceState_frame _ _ _ _ _ hadd
      exact ⟨by rw [h1, g1], by rw [h2, g2]⟩

theorem OnProgramArgumentBindingResourceViewsChanged_frame (w : World)
    (pb pb1 : ProgramBindings) (binding : ArgumentBinding) (old_views new_views : ResourceViews)
    (h : OnProgramArgumentBindingResourceViewsChanged w pb binding old_views new_views = .ok pb1) :
    pb1.m_binding_by_argument = pb.m_binding_by_argument ∧
    pb1.m_resource_refs_by_access = pb.m_resource_refs_by_access := by
  unfold OnProgramArgumentBindingResourceViewsChanged at h
  split at h
  · simp only [Except.ok.injEq] at h
    subst h
    exact ⟨rfl, rfl⟩
  · obtain ⟨h1, h2⟩ := AddNewResourcesLoop_frame _ _ _ _ _ h
    obtain ⟨g1, g2⟩ := RemoveUnusedResourcesLoop_frame w binding new_views old_views [] pb
    exact ⟨by rw [h1, g1], by rw [h2, g2]⟩

theorem SetResourcesForArguments_map (w : World) (pb : ProgramBindings)
    (values : BindingValueByArgument) (state : ProgramBindings × World)
    (h : SetResourcesForArguments w pb values = .ok state) :
    state.1.m_binding_by_argument = pb.m_binding_by_argument := by
  obtain ⟨looped, hloop, heq⟩ := SetResourcesForArguments_loop _ _ _ _ h
  rw [heq]
  exact (SetResourcesForArgumentsLoop_frame _ _ _ _ hloop).1

theorem ConstructWithValues_ok (w : World) (program : ProgramPtr)
    (values : BindingValueByArgument) (frame_index : Nat) (state : ProgramBindings × World)
    (h : ProgramBindings.ConstructWithValues w program values frame_index = .ok state) :
    SetResourcesForArguments (ProgramBindings.Construct w program frame_index).2
      (ProgramBindings.Construct w program frame_index).1 values = .ok state ∧
    VerifyAllArgumentsAreBoundToResources state.2 state.1 = .ok () := by
  unfold ProgramBindings.ConstructWithValues at h
  dsimp only at h
  split at h
  · cases h
  · rename_i s hset
    split at h
    · cases h
    · rename_i hver
      simp only [Except.ok.injEq] at h
      subst h
      exact ⟨hset, hver⟩

/-- Claim C12: every declared argument has exactly one binding entry, created once
and never replaced.  The constructor creates one entry per declared argument (the
keys of the map are the declared arguments, each once); construction with initial
values and cloning with replacement keep the map that the plain constructor and
the copy constructor created; and `SetResourcesForArguments`, change notifications
and `ApplyResourceStates` return the argument-to-binding map unchanged: same keys,
same binding object under each key. -/
theorem binding_map_never_changes :
    (∀ w program frame_index,
      ((w.programs program).GetArgumentBindings.map Prod.fst).Nodup →
      (ProgramBindings.Construct w program frame_index).1.m_binding_by_argument.map Prod.fst
        = (w.programs program).GetArgumentBindings.map Prod.fst) ∧
    (∀ w program values frame_index state,
      ProgramBindings.ConstructWithValues w program values frame_index = .ok state →
      state.1.m_binding_by_argument
        = (ProgramBindings.Construct w program frame_index).1.m_binding_by_argument) ∧
    (∀ w other replace frame_index state,
      ProgramBindings.CopyWithReplacement w other replace frame_index = .ok state →
      state.1.m_binding_by_argument
        = (ProgramBindings.Copy w other frame_index).1.m_binding_by_argument) ∧
    (∀ w pb values state, SetResourcesForArguments w pb values = .ok state →
      state.1.m_binding_by_argument = pb.m_binding_by_argument) ∧
    (∀ w pb argument_binding old_resource_views new_resource_views pb1,
      OnProgramArgumentBindingResourceViewsChanged w pb argument_binding
        old_resource_views new_resource_views = .ok pb1 →
      pb1.m_binding_by_argument = pb.m_binding_by_argument) ∧
    (∀ w pb access owner_queue_ptr,
      (ApplyResourceStates w pb access owner_queue_ptr).2.1.m_binding_by_argument
        = pb.m_binding_by_argument) := by
  refine ⟨?_, ?_, ?_, ?_, ?_, ?_⟩
  · intro w program frame_index hnodup
    have hprog : ((GetBindingsCountAndIncrement w program).2.programs program).GetArgumentBindings
        = (w.programs program).GetArgumentBindings := by
      simp [GetBindingsCountAndIncrement, World.SetProgram, Program.GetArgumentBindings]
    unfold ProgramBindings.Construct InitializeArgumentBindings
    dsimp only
    rw [hprog, InitializeArgumentBindingsLoop_keys]
    · rfl
    · simpa using hnodup
  · intro w program values frame_index state h
    exact SetResourcesForArguments_map _ _ _ _ (ConstructWithValues_ok _ _ _ _ _ h).1
  · intro w other replace frame_index state h
    exact SetResourcesForArguments_map _ _ _ _ (CopyWithReplacement_ok _ _ _ _ _ h).1
  · intro w pb values state h
    exact SetResourcesForArguments_map _ _ _ _ h
  · intro w pb binding old_views new_views pb1 h
    exact (OnProgramArgumentBindingResourceViewsChanged_frame _ _ _ _ _ _ h).1
  · intro w pb access q
    rw [ApplyResourceStates_eq]

/-- Witness of C12: replacing the texture bound to `g_texture` in the textured-cube
bindings keeps the three entries and their binding objects. -/
theorem binding_map_never_changes_witness :
    ErrorOf (SetResourcesForArguments Example.cube_bindings.2 Example.cube_bindings.1
      [(Example.g_texture, BindingValue.ResourceView (Example.view 2))]) = none ∧
    (∀ state, SetResourcesForArguments Example.cube_bindings.2 Example.cube_bindings.1
        [(Example.g_texture, BindingValue.ResourceView (Example.view 2))] = .ok state →
      state.1.m_binding_by_argument
        = [(Example.g_constants, 5), (Example.g_texture, 6), (Example.g_sampler, 7)]) := by
  refine ⟨by decide, ?_⟩
  intro state hstate
  rw [binding_map_never_changes.2.2.2.1 _ _ _ state hstate]
  decide

/-! ### Bound arguments after construction -/

theorem IsBound_of_verified (w : World) (pb : ProgramBindings)
    (h : VerifyAllArgumentsAreBoundToResources w pb = .ok ()) :
    ∀ entry ∈ pb.m_binding_by_argument, IsBound (w.bindings entry.2) := by
  have hnil : GetUnboundArguments w pb = [] := by
    unfold VerifyAllArgumentsAreBoundToResources at h
    dsimp only at h
    split at h
    · cases h
    · rename_i hne
      simpa using hne
  intro entry he
  unfold IsBound
  by_cases hrc : (w.bindings entry.2).GetSettings.argument.IsRootConstant = true
  · exact Or.inl hrc
  · right
    intro hviews
    have hmem : entry.1 ∈ GetUnboundArguments w pb := by
      unfold GetUnboundArguments
      rw [mem_GetUnboundArgumentsLoop]
      exact Or.inr ⟨entry.2, he, by simpa using hrc, hviews⟩
    rw [hnil] at hmem
    cases hmem

/-- Claim C13 (amended): after program bindings are successfully constructed with
initial values, or cloned with a replacement map (verification passed), every
argument either has a non-empty resource-view list or is of RootConstant kind,
whether or not constant data has been set; an argument is reported as unbound if
and only if it is not of RootConstant kind and has no resource view. -/
theorem ConstructWithValues_bound_or_root_constant :
    (∀ w program values frame_index state,
      ProgramBindings.ConstructWithValues w program values frame_index = .ok state →
      ∀ entry ∈ state.1.m_binding_by_argument,
        (state.2.bindings entry.2).GetResourceViews ≠ [] ∨
        (state.2.bindings entry.2).GetSettings.argument.IsRootConstant = true) ∧
    (∀ w other replace frame_index state,
      ProgramBindings.CopyWithReplacement w other replace frame_index = .ok state →
      ∀ entry ∈ state.1.m_binding_by_argument,
        (state.2.bindings entry.2).GetResourceViews ≠ [] ∨
        (state.2.bindings entry.2).GetSettings.argument.IsRootConstant = true) ∧
    (∀ w pb argument, argument ∈ GetUnboundArguments w pb ↔
      ∃ p, (argument, p) ∈ pb.m_binding_by_argument ∧
        ¬ ((w.bindings p).GetResourceViews ≠ [] ∨
          (w.bindings p).GetSettings.argument.IsRootConstant = true)) := by
  refine ⟨?_, ?_, ?_⟩
  · intro w program values frame_index state h entry he
    exact (IsBound_of_verified _ _ (ConstructWithValues_ok _ _ _ _ _ h).2 entry he).symm
  · intro w other replace frame_index state h entry he
    exact (IsBound_of_verified _ _ (CopyWithReplacement_ok _ _ _ _ _ h).2 entry he).symm
  · intro w pb argument
    unfold GetUnboundArguments
    rw [mem_GetUnboundArgumentsLoop]
    simp only [List.not_mem_nil, false_or, ne_eq, not_or, not_not, Bool.not_eq_true]
    constructor
    · rintro ⟨p, hp, h1, h2⟩
      exact ⟨p, hp, h2, h1⟩
    · rintro ⟨p, hp, h2, h1⟩
      exact ⟨p, hp, h1, h2⟩

/-- Witness of C13 (amended): in the textured-cube bindings constructed with the
three values, the binding of `g_texture` holds a view and the binding of
`g_constants` is of RootConstant kind. -/
theorem ConstructWithValues_bound_or_root_constant_witness :
    ErrorOf (ProgramBindings.ConstructWithValues Example.world 0 Example.cube_values 0) = none ∧
    (∀ state, ProgramBindings.ConstructWithValues Example.world 0 Example.cube_values 0
        = .ok state →
      ∀ entry ∈ state.1.m_binding_by_argument,
        (state.2.bindings entry.2).GetResourceViews ≠ [] ∨
        (state.2.bindings entry.2).GetSettings.argument.IsRootConstant = true) :=
  ⟨by decide, fun state h =>
    ConstructWithValues_bound_or_root_constant.1 Example.world 0 Example.cube_values 0 state h⟩

/-- Counterexample to C13 as stated: the textured-cube bindings are constructed with
values for `g_texture` and `g_sampler` only.  The construction succeeds, and the
argument `g_constants`, of RootConstant kind, has neither a resource view nor
constant data, yet it is not reported as unbound. -/
theorem ConstructWithValues_root_constant_without_data :
    ErrorOf (ProgramBindings.ConstructWithValues Example.world 0
      Example.cube_values_without_constants 0) = none ∧
    (ValueOf (ProgramBindings.ConstructWithValues Example.world 0
        Example.cube_values_without_constants 0)).map
      (fun state =>
        (MapFind Example.g_constants state.1.m_binding_by_argument,
          (state.2.bindings 5).GetSettings.argument.IsRootConstant,
          (state.2.bindings 5).GetResourceViews.length,
          (state.2.bindings 5).GetRootConstant.data.length,
          (GetUnboundArguments state.2 state.1).length))
      = some (some 5, true, 0, 0, 0) := by
  decide

/-! ### Buffers that are not privately stored -/

theorem AddTransitionResourceStatesLoop_entries (w : World)
    (settings : ProgramArgumentBindingSettings) (views : ResourceViews)
    (acc result : ResourceStates)
    (h : AddTransitionResourceStatesLoop w settings views acc = .ok result) :
    ∀ entry ∈ result, entry ∈ acc ∨
      ∃ view ∈ views, entry.resource_ptr = view.GetResourcePtr ∧
        (w.resources view.GetResourcePtr).GetResourceType ≠ ResourceType.Sampler ∧
        GetBoundResourceTargetState (w.resources view.GetResourcePtr) settings.resource_type
          settings.argument.IsConstant = .ok entry.state := by
  induction views generalizing acc with
  | nil =>
    simp only [AddTransitionResourceStatesLoop, Except.ok.injEq] at h
    subst h
    exact fun entry he => Or.inl he
  | cons v rest ih =>
    unfold AddTransitionResourceStatesLoop at h
    dsimp only at h
    split at h
    · intro entry he
      rcases ih acc h entry he with h1 | ⟨view, hv, h2⟩
      · exact Or.inl h1
      · exact Or.inr ⟨view, List.mem_cons_of_mem _ hv, h2⟩
    · rename_i hns
      split at h
      · cases h
      · rename_i target htarget
        intro entry he
        rcases ih _ h entry he with h1 | ⟨view, hv, h2⟩
        · rcases List.mem_append.1 h1 with h1 | h1
          · exact Or.inl h1
          · simp only [List.mem_singleton] at h1
            subst h1
            exact Or.inr ⟨v, List.mem_cons_self _ _, rfl, hns, htarget⟩
        · exact Or.inr ⟨view, List.mem_cons_of_mem _ hv, h2⟩

theorem AddTransitionResourceStates_entries (w : World) (pb pb1 : ProgramBindings)
    (binding : ArgumentBinding) (h : AddTransitionResourceStates w pb binding = .ok pb1) :
    ∀ access_type, ∀ entry ∈ pb1.m_transition_resource_states_by_access access_type,
      entry ∈ pb.m_transition_resource_states_by_access access_type ∨
      (access_type = binding.GetSettings.argument.GetAccessorIndex ∧
        ∃ view ∈ binding.GetResourceViews, entry.resource_ptr = view.GetResourcePtr ∧
          (w.resources view.GetResourcePtr).GetResourceType ≠ ResourceType.Sampler ∧
          GetBoundResourceTargetState (w.resources view.GetResourcePtr)
            binding.GetSettings.resource_type binding.GetSettings.argument.IsConstant
            = .ok entry.state) := by
  unfold AddTransitionResourceStates at h
  dsimp only at h
  split at h
  · cases h
  · rename_i states hloop
    simp only [Except.ok.injEq] at h
    subst h
    intro t entry he
    dsimp only at he
    rw [SetBucket_apply] at he
    split at he
    · rename_i heq
      subst heq
      rcases AddTransitionResourceStatesLoop_entries _ _ _ _ _ hloop entry he with h1 | h1
      · exact Or.inl h1
      · exact Or.inr ⟨rfl, h1⟩
    · exact Or.inl he

theorem AddTransitionResourceStatesLoop_records (w : World)
    (settings : ProgramArgumentBindingSettings) (views : ResourceViews)
    (acc result : ResourceStates)
    (h : AddTransitionResourceStatesLoop w settings views acc = .ok result) :
    (∀ entry ∈ acc, entry ∈ result) ∧
    ∀ view ∈ views,
      (w.resources view.GetResourcePtr).GetResourceType ≠ ResourceType.Sampler →
      ∃ entry ∈ result, entry.resource_ptr = view.GetResourcePtr ∧
        GetBoundResourceTargetState (w.resources view.GetResourcePtr) settings.resource_type
          settings.argument.IsConstant = .ok entry.state := by
  induction views generalizing acc with
  | nil =>
    simp only [AddTransitionResourceStatesLoop, Except.ok.injEq] at h
    subst h
    exact ⟨fun entry he => he, fun view hv => absurd hv (List.not_mem_nil view)⟩
  | cons v rest ih =>
    unfold AddTransitionResourceStatesLoop at h
    dsimp only at h
    split at h
    · rename_i hs
      obtain ⟨h1, h2⟩ := ih acc h
      refine ⟨h1, ?_⟩
      intro view hv hns
      rcases List.mem_cons.1 hv with hv | hv
      · subst hv
        exact absurd hs hns
      · exact h2 view hv hns
    · split at h
      · cases h
      · rename_i target htarget
        obtain ⟨h1, h2⟩ := ih _ h
        refine ⟨fun entry he => h1 entry (List.mem_append_left _ he), ?_⟩
        intro view hv hns
        rcases List.mem_cons.1 hv with hv | hv
        · subst hv
          exact ⟨⟨view.GetResourcePtr, target⟩, h1 _ (List.mem_append_right _ (List.mem_singleton_self _)),
            rfl, htarget⟩
        · exact h2 view hv hns

theorem AddTransitionResourceStates_records (w : World) (pb pb1 : ProgramBindings)
    (binding : ArgumentBinding) (h : AddTransitionResourceStates w pb binding = .ok pb1) :
    ∀ view ∈ binding.GetResourceViews,
      (w.resources view.GetResourcePtr).GetResourceType ≠ ResourceType.Sampler →
      ∃ entry ∈ pb1.m_transition_resource_states_by_access
          binding.GetSettings.argument.GetAccessorIndex,
        entry.resource_ptr = view.GetResourcePtr ∧
        GetBoundResourceTargetState (w.resources view.GetResourcePtr)
          binding.GetSettings.resource_type binding.GetSettings.argument.IsConstant
          = .ok entry.state := by
  unfold AddTransitionResourceStates at h
  dsimp only at h
  split at h
  · cases h
  · rename_i states hloop
    simp only [Except.ok.injEq] at h
    subst h
    intro view hv hns
    dsimp only
    rw [SetBucket_same]
    exact (AddTransitionResourceStatesLoop_records _ _ _ _ _ hloop).2 view hv hns

/-- Claim C14 (amended): a buffer without ShaderWrite usage that is not privately
stored is recorded, when a binding of a buffer argument that holds a view of it is
bound (`AddTransitionResourceStates`), in the bucket of the binding's access type
with the state it has at that moment as target state: the bucket holds an entry of
the buffer, and every entry of the buffer holds that state when no earlier entry of
the buffer exists.  A later `ApplyResourceStates` leaves the state of the buffer
equal to what it was immediately before the call provided the buffer is still in
the state it had when it was bound. -/
theorem ApplyResourceStates_keeps_upload_buffer_state (w0 : World) (pb pb1 : ProgramBindings)
    (argument_binding : ArgumentBinding) (r : ResourcePtr) (buffer_settings : BufferSettings)
    (h_buffer : (w0.resources r).object = ResourceObject.Buffer buffer_settings)
    (h_no_write : buffer_settings.usage_mask.HasBit ResourceUsage.ShaderWrite = false)
    (h_not_private : buffer_settings.storage_mode ≠ StorageMode.Private)
    (h_type : argument_binding.GetSettings.resource_type = ResourceType.Buffer)
    (h_view : ∃ view ∈ argument_binding.GetResourceViews, view.GetResourcePtr = r)
    (h_new : ∀ access_type, ∀ entry ∈ pb.m_transition_resource_states_by_access access_type,
      entry.resource_ptr ≠ r)
    (h_bind : AddTransitionResourceStates w0 pb argument_binding = .ok pb1) :
    (∃ entry ∈ pb1.m_transition_resource_states_by_access
        argument_binding.GetSettings.argument.GetAccessorIndex,
      entry.resource_ptr = r ∧ entry.state = (w0.resources r).m_state) ∧
    (∀ access_type, ∀ entry ∈ pb1.m_transition_resource_states_by_access access_type,
      entry.resource_ptr = r → entry.state = (w0.resources r).m_state) ∧
    (∀ w1 access owner_queue_ptr,
      (w1.resources r).m_state = (w0.resources r).m_state →
      ((ApplyResourceStates w1 pb1 access owner_queue_ptr).2.2.resources r).m_state
        = (w1.resources r).m_state) := by
  have hentries : ∀ access_type,
      ∀ entry ∈ pb1.m_transition_resource_states_by_access access_type,
      entry.resource_ptr = r → entry.state = (w0.resources r).m_state := by
    intro t entry he hr
    rcases AddTransitionResourceStates_entries _ _ _ _ h_bind t entry he with h1 | ⟨-, view, -, hv, -, ht⟩
    · exact absurd hr (h_new t entry h1)
    · rw [← hv, hr, h_type] at ht
      simp only [GetBoundResourceTargetState, h_buffer, h_no_write, Bool.false_eq_true, if_false,
        ne_eq, h_not_private, not_false_eq_true, if_true, Except.ok.injEq,
        Resource.GetState] at ht
      exact ht.symm
  refine ⟨?_, hentries, ?_⟩
  · obtain ⟨view, hview, hr⟩ := h_view
    have hns : (w0.resources view.GetResourcePtr).GetResourceType ≠ ResourceType.Sampler := by
      rw [hr]
      simp [Resource.GetResourceType, h_buffer]
    obtain ⟨entry, he, hptr, -⟩ := AddTransitionResourceStates_records _ _ _ _ h_bind view hview hns
    rw [hr] at hptr
    exact ⟨entry, he, hptr, hentries _ entry he hptr⟩
  · intro w1 access q hsame
    rw [ApplyResourceStates_eq]
    dsimp only
    apply ApplyResourceStatesLoop_state
    · intro entry he hr
      obtain ⟨t, -, ht⟩ := (mem_SelectedResourceStates _ _ _).1 he
      rw [hentries t entry ht hr, hsame]
    · exact Or.inr rfl

/-- Witness of C14 (amended): the upload buffer of the example, bound to `g_data`
while in generic-read state, is recorded with generic-read state and is in
generic-read state after `ApplyResourceStates`. -/
theorem ApplyResourceStates_keeps_upload_buffer_state_witness :
    ErrorOf (AddTransitionResourceStates Example.upload_world
      (ProgramBindings.Construct Example.upload_world 0 0).1
      ((Example.upload_world.bindings 0).SetResourceViews [Example.view 0])) = none ∧
    (∀ pb1, AddTransitionResourceStates Example.upload_world
        (ProgramBindings.Construct Example.upload_world 0 0).1
        ((Example.upload_world.bindings 0).SetResourceViews [Example.view 0]) = .ok pb1 →
      (∃ entry ∈ pb1.m_transition_resource_states_by_access ProgramArgumentAccessType.Mutable,
        entry.resource_ptr = 0 ∧ entry.state = ResourceState.GenericRead) ∧
      ((ApplyResourceStates Example.upload_world pb1 [ProgramArgumentAccessType.Mutable]
        none).2.2.resources 0).m_state = ResourceState.GenericRead) := by
  refine ⟨by decide, ?_⟩
  intro pb1 h
  have hclaim := ApplyResourceStates_keeps_upload_buffer_state Example.upload_world
    (ProgramBindings.Construct Example.upload_world 0 0).1 pb1
    ((Example.upload_world.bindings 0).SetResourceViews [Example.view 0]) 0
    { usage_mask := [ResourceUsage.ShaderRead], storage_mode := StorageMode.Managed }
    rfl (by decide) (by decide) rfl ⟨Example.view 0, by decide, rfl⟩
    (by intro t; cases t <;> decide) h
  exact ⟨hclaim.1, hclaim.2.2 Example.upload_world [ProgramArgumentAccessType.Mutable] none rfl⟩

/-- Counterexample to C14 as stated: the upload buffer is bound to `g_data` while in
generic-read state, which the mutable bucket records; its state then changes to
copy-destination; `ApplyResourceStates` over the mutable bucket puts it back to
generic-read, so the state after the call is not the state immediately before. -/
theorem ApplyResourceStates_reverts_upload_buffer_state :
    ErrorOf (ProgramBindings.ConstructWithValues Example.upload_world 0
      Example.upload_values 0) = none ∧
    Example.upload_bindings.1.m_transition_resource_states_by_access
        ProgramArgumentAccessType.Mutable
      = [{ resource_ptr := 0, state := ResourceState.GenericRead }] ∧
    ((SetState Example.upload_bindings.2 0 ResourceState.CopyDest none).2.1.resources 0).m_state
      = ResourceState.CopyDest ∧
    ((ApplyResourceStates (SetState Example.upload_bindings.2 0 ResourceState.CopyDest none).2.1
      Example.upload_bindings.1 [ProgramArgumentAccessType.Mutable] none).2.2.resources 0).m_state
      = ResourceState.GenericRead := by
  decide

/-! ### String conversion -/

theorem StringLessEqual_total (a b : String) : StringLessEqual a b ∨ StringLessEqual b a :=
  le_total a.data b.data

theorem StringLessEqual_trans (a b c : String) (h1 : StringLessEqual a b)
    (h2 : StringLessEqual b c) : StringLessEqual a c :=
  le_trans (α := List Char) h1 h2

theorem StringLessEqual_antisymm (a b : String) (h1 : StringLessEqual a b)
    (h2 : StringLessEqual b a) : a = b :=
  String.ext (le_antisymm (α := List Char) h1 h2)

theorem OperatorStringLoop_go (l : List String) (ss : String) (h : 0 < ss.length) :
    OperatorStringLoop l ss = String.intercalate.go ss ";\n" (l.map (fun s => "  - " ++ s)) := by
  induction l generalizing ss with
  | nil => rfl
  | cons x rest ih =>
    simp only [OperatorStringLoop, h, if_true, List.map_cons, String.intercalate.go]
    rw [ih]
    · rw [String.append_assoc (ss ++ ";\n")]
    · simp only [String.length_append]
      omega

theorem OperatorStringLoop_eq (l : List String) :
    OperatorStringLoop l "" = ";\n".intercalate (l.map (fun s => "  - " ++ s)) := by
  cases l with
  | nil => rfl
  | cons x rest =>
    have hlen : ("".length : Nat) = 0 := rfl
    simp only [OperatorStringLoop, hlen, Nat.lt_irrefl, if_false, List.map_cons,
      String.intercalate]
    rw [OperatorStringLoop_go]
    · rw [String.append_assoc, String.empty_append]
    · have h4 : "  - ".length = 4 := by decide
      simp only [String.length_append, h4]
      omega

/-- Claim C15: the string conversion of program bindings is the list of the
argument-binding strings sorted in ascending order, each prefixed with "  - ",
joined by ";\n" and terminated by "." (just "." without bindings); two instances
holding the same collection of binding strings convert to the same string whatever
the storage order. -/
theorem OperatorString_sorted_lines (argument_binding_string : ArgumentBinding → String) :
    (∀ w pb, ∃ lines : List String,
      List.Perm lines (pb.m_binding_by_argument.map
        (fun entry => argument_binding_string (w.bindings entry.2))) ∧
      List.Sorted StringLessEqual lines ∧
      OperatorString argument_binding_string w pb
        = ";\n".intercalate (lines.map (fun s => "  - " ++ s)) ++ ".") ∧
    (∀ w pb, pb.m_binding_by_argument = [] → OperatorString argument_binding_string w pb = ".") ∧
    (∀ w1 pb1 w2 pb2,
      List.Perm
        (pb1.m_binding_by_argument.map (fun entry => argument_binding_string (w1.bindings entry.2)))
        (pb2.m_binding_by_argument.map (fun entry => argument_binding_string (w2.bindings entry.2))) →
      OperatorString argument_binding_string w1 pb1
        = OperatorString argument_binding_string w2 pb2) := by
  haveI : IsTotal String StringLessEqual := ⟨StringLessEqual_total⟩
  haveI : IsTrans String StringLessEqual := ⟨StringLessEqual_trans⟩
  haveI : IsAntisymm String StringLessEqual := ⟨StringLessEqual_antisymm⟩
  refine ⟨?_, ?_, ?_⟩
  · intro w pb
    refine ⟨_, List.perm_insertionSort StringLessEqual _,
      List.sorted_insertionSort StringLessEqual _, ?_⟩
    unfold OperatorString
    dsimp only
    rw [OperatorStringLoop_eq]
  · intro w pb h
    unfold OperatorString
    rw [h]
    rfl
  · intro w1 pb1 w2 pb2 h
    unfold OperatorString
    dsimp only
    have hsort := List.eq_of_perm_of_sorted
      (((List.perm_insertionSort StringLessEqual _).trans h).trans
        (List.perm_insertionSort StringLessEqual _).symm)
      (List.sorted_insertionSort StringLessEqual _)
      (List.sorted_insertionSort StringLessEqual _)
    rw [hsort]

/-- Witness of C15: the textured-cube bindings and an instance storing the same
bindings in reverse order convert to the same string. -/
theorem OperatorString_sorted_lines_witness :
    OperatorString Example.binding_name Example.cube_bindings.2 Example.cube_bindings.1
      = "  - g_constants;\n  - g_sampler;\n  - g_texture." ∧
    OperatorString Example.binding_name Example.cube_bindings.2 Example.cube_bindings.1
      = OperatorString Example.binding_name Example.cube_bindings.2
        { Example.cube_bindings.1 with
          m_binding_by_argument := Example.cube_bindings.1.m_binding_by_argument.reverse } :=
  ⟨by decide,
    (OperatorString_sorted_lines Example.binding_name).2.2 Example.cube_bindings.2
      Example.cube_bindings.1 Example.cube_bindings.2
      { Example.cube_bindings.1 with
        m_binding_by_argument := Example.cube_bindings.1.m_binding_by_argument.reverse }
      (by
        show List.Perm (List.map _ Example.cube_bindings.1.m_binding_by_argument)
          (List.map _ Example.cube_bindings.1.m_binding_by_argument.reverse)
        exact (List.reverse_perm _).symm.map _)⟩

/-! ### Resource references by access type -/

theorem StdSetEmplace_sorted (x : Nat) (l : List Nat) (h : l.Sorted (fun a b => a < b)) :
    (StdSetEmplace x l).Sorted (fun a b => a < b) := by
  induction l with
  | nil => simp [StdSetEmplace]
  | cons y ys ih =>
    unfold StdSetEmplace
    have hy := List.sorted_cons.1 h
    split
    · rename_i hlt
      refine List.sorted_cons.2 ⟨?_, h⟩
      intro z hz
      rcases List.mem_cons.1 hz with hz | hz
      · rw [hz]
        exact hlt
      · exact Nat.lt_trans hlt (hy.1 z hz)
    · rename_i hnlt
      split
      · exact h
      · rename_i hne
        refine List.sorted_cons.2 ⟨?_, ih hy.2⟩
        intro z hz
        rcases (mem_StdSetEmplace x z ys).1 hz with hz | hz
        · rw [hz]
          omega
        · exact hy.1 z hz

theorem UniqueResourcesOfViews_sorted (views : ResourceViews) (acc : List ResourcePtr)
    (h : List.Sorted (fun a b : Nat => a < b) acc) :
    List.Sorted (fun a b : Nat => a < b) (UniqueResourcesOfViews views acc) := by
  induction views generalizing acc with
  | nil => exact h
  | cons v rest ih => exact ih _ (StdSetEmplace_sorted _ _ h)

theorem UniqueResourcesByAccess_sorted (w : World) (l : ArgumentBindings)
    (acc : ProgramArgumentAccessType → List ResourcePtr)
    (h : ∀ i, List.Sorted (fun a b : Nat => a < b) (acc i)) :
    ∀ i, List.Sorted (fun a b : Nat => a < b) (UniqueResourcesByAccess w l acc i) := by
  induction l generalizing acc with
  | nil => exact h
  | cons e rest ih =>
    obtain ⟨a, p⟩ := e
    apply ih
    intro i
    dsimp only
    split
    · exact UniqueResourcesOfViews_sorted _ _ (h _)
    · exact h i

theorem mem_UniqueResourcesOfViews (views : ResourceViews) (acc : List ResourcePtr)
    (r : ResourcePtr) :
    r ∈ UniqueResourcesOfViews views acc ↔
      r ∈ acc ∨ ∃ view ∈ views, view.GetResourcePtr = r := by
  induction views generalizing acc with
  | nil => simp [UniqueResourcesOfViews]
  | cons v rest ih =>
    unfold UniqueResourcesOfViews
    rw [ih, mem_StdSetEmplace]
    simp only [List.mem_cons, exists_eq_or_imp]
    constructor
    · rintro ((h | h) | h)
      · exact Or.inr (Or.inl h.symm)
      · exact Or.inl h
      · exact Or.inr (Or.inr h)
    · rintro (h | h | h)
      · exact Or.inl (Or.inr h)
      · exact Or.inl (Or.inl h.symm)
      · exact Or.inr h

theorem mem_UniqueResourcesByAccess (w : World) (l : ArgumentBindings)
    (acc : ProgramArgumentAccessType → List ResourcePtr)
    (access_type : ProgramArgumentAccessType) (r : ResourcePtr) :
    r ∈ UniqueResourcesByAccess w l acc access_type ↔
      r ∈ acc access_type ∨
      ∃ entry ∈ l,
        (w.bindings entry.2).GetSettings.argument.GetAccessorIndex = access_type ∧
        ∃ view ∈ (w.bindings entry.2).GetResourceViews, view.GetResourcePtr = r := by
  induction l generalizing acc with
  | nil => simp [UniqueResourcesByAccess]
  | cons e rest ih =>
    obtain ⟨a, p⟩ := e
    unfold UniqueResourcesByAccess
    dsimp only
    rw [ih]
    simp only [List.mem_cons, exists_eq_or_imp]
    by_cases hi : access_type = (w.bindings p).GetSettings.argument.GetAccessorIndex
    · subst hi
      simp only [if_true, mem_UniqueResourcesOfViews, true_and]
      exact or_assoc
    · have hi2 : ¬ (w.bindings p).GetSettings.argument.GetAccessorIndex = access_type :=
        fun h => hi h.symm
      simp only [hi, if_false, hi2, false_and, false_or]

/-- Claim C16: for every access type, the list built by `InitResourceRefsByAccess`
and returned by `GetResourceRefsByAccess` is strictly ascending in the resource
addresses, hence contains no resource twice, whatever views and arguments refer to
the resources. -/
theorem GetResourceRefsByAccess_nodup (w : World) (pb : ProgramBindings)
    (access_type : ProgramArgumentAccessType) :
    List.Sorted (fun a b : Nat => a < b)
      (GetResourceRefsByAccess (InitResourceRefsByAccess w pb) access_type) ∧
    (GetResourceRefsByAccess (InitResourceRefsByAccess w pb) access_type).Nodup := by
  have hsorted : List.Sorted (fun a b : Nat => a < b)
      (GetResourceRefsByAccess (InitResourceRefsByAccess w pb) access_type) := by
    unfold GetResourceRefsByAccess InitResourceRefsByAccess
    dsimp only
    exact UniqueResourcesByAccess_sorted _ _ _ (fun _ => List.sorted_nil) access_type
  exact ⟨hsorted, List.Pairwise.imp (fun h => Nat.ne_of_lt h) hsorted⟩

theorem InitializeArgumentBindingsLoop_refs (l : ArgumentBindings) (pb : ProgramBindings)
    (w : World) :
    (InitializeArgumentBindingsLoop l (pb, w)).1.m_resource_refs_by_access
      = pb.m_resource_refs_by_access := by
  induction l generalizing pb w with
  | nil => rfl
  | cons e rest ih =>
    obtain ⟨a, p⟩ := e
    unfold InitializeArgumentBindingsLoop
    dsimp only
    split
    · exact ih _ _
    · exact ih _ _

theorem Copy_refs (w : World) (other : ProgramBindings) (frame_index : Option Nat) :
    (ProgramBindings.Copy w other frame_index).1.m_resource_refs_by_access = fun _ => [] := by
  unfold ProgramBindings.Copy InitializeArgumentBindings
  dsimp only
  rw [InitializeArgumentBindingsLoop_refs]

theorem SetResourcesForArguments_refs (w : World) (pb : ProgramBindings)
    (values : BindingValueByArgument) (state : ProgramBindings × World)
    (h : SetResourcesForArguments w pb values = .ok state)
    (access_type : ProgramArgumentAccessType) (r : ResourcePtr) :
    r ∈ GetResourceRefsByAccess state.1 access_type ↔
      ∃ entry ∈ state.1.m_binding_by_argument,
        (state.2.bindings entry.2).GetSettings.argument.GetAccessorIndex = access_type ∧
        ∃ view ∈ (state.2.bindings entry.2).GetResourceViews, view.GetResourcePtr = r := by
  obtain ⟨looped, -, heq⟩ := SetResourcesForArguments_loop _ _ _ _ h
  rw [heq]
  unfold GetResourceRefsByAccess InitResourceRefsByAccess ProgramBindings.GetArgumentBindings
  dsimp only
  rw [mem_UniqueResourcesByAccess]
  simp only [List.not_mem_nil, false_or]

/-- Claim C17 (amended): right after `SetResourcesForArguments`, hence right after
construction with initial values, after cloning with a replacement map and after a
re-binding made through `SetResourcesForArguments`, `GetResourceRefsByAccess(t)`
lists exactly the resources referenced by the current resource views of the
arguments whose accessor type is t. -/
theorem GetResourceRefsByAccess_after_binding :
    (∀ w pb values state, SetResourcesForArguments w pb values = .ok state →
      ∀ access_type r, r ∈ GetResourceRefsByAccess state.1 access_type ↔
        ∃ entry ∈ state.1.m_binding_by_argument,
          (state.2.bindings entry.2).GetSettings.argument.GetAccessorIndex = access_type ∧
          ∃ view ∈ (state.2.bindings entry.2).GetResourceViews, view.GetResourcePtr = r) ∧
    (∀ w program values frame_index state,
      ProgramBindings.ConstructWithValues w program values frame_index = .ok state →
      ∀ access_type r, r ∈ GetResourceRefsByAccess state.1 access_type ↔
        ∃ entry ∈ state.1.m_binding_by_argument,
          (state.2.bindings entry.2).GetSettings.argument.GetAccessorIndex = access_type ∧
          ∃ view ∈ (state.2.bindings entry.2).GetResourceViews, view.GetResourcePtr = r) ∧
    (∀ w other replace frame_index state,
      ProgramBindings.CopyWithReplacement w other replace frame_index = .ok state →
      ∀ access_type r, r ∈ GetResourceRefsByAccess state.1 access_type ↔
        ∃ entry ∈ state.1.m_binding_by_argument,
          (state.2.bindings entry.2).GetSettings.argument.GetAccessorIndex = access_type ∧
          ∃ view ∈ (state.2.bindings entry.2).GetResourceViews, view.GetResourcePtr = r) := by
  refine ⟨?_, ?_, ?_⟩
  · intro w pb values state h t r
    exact SetResourcesForArguments_refs _ _ _ _ h t r
  · intro w program values frame_index state h t r
    exact SetResourcesForArguments_refs _ _ _ _ (ConstructWithValues_ok _ _ _ _ _ h).1 t r
  · intro w other replace frame_index state h t r
    exact SetResourcesForArguments_refs _ _ _ _ (CopyWithReplacement_ok _ _ _ _ _ h).1 t r

/-- Witness of C17 (amended): the references of the textured-cube bindings
constructed with the three values are the cube texture and the sampler for the
mutable arguments, and none for the constant arguments, whose only argument is a
root constant. -/
theorem GetResourceRefsByAccess_after_binding_witness :
    ErrorOf (ProgramBindings.ConstructWithValues Example.world 0 Example.cube_values 0) = none ∧
    (∀ state, ProgramBindings.ConstructWithValues Example.world 0 Example.cube_values 0
        = .ok state →
      ∀ access_type r, r ∈ GetResourceRefsByAccess state.1 access_type ↔
        ∃ entry ∈ state.1.m_binding_by_argument,
          (state.2.bindings entry.2).GetSettings.argument.GetAccessorIndex = access_type ∧
          ∃ view ∈ (state.2.bindings entry.2).GetResourceViews, view.GetResourcePtr = r) ∧
    GetResourceRefsByAccess Example.cube_bindings.1 ProgramArgumentAccessType.Mutable = [0, 1] :=
  ⟨by decide,
    fun state h => GetResourceRefsByAccess_after_binding.2.1 Example.world 0
      Example.cube_values 0 state h,
    by decide⟩

/-- Counterexample to C17 as stated: (1) the plain clone of the textured-cube
bindings lists no resource for the mutable arguments although its binding of
`g_texture` refers to the cube texture (address 0).  (2) After the binding of
`g_texture` of the textured-cube bindings has been re-bound to the other texture
(address 2) and has reported the change, the list still holds the cube texture and
not the other texture. -/
theorem GetResourceRefsByAccess_not_rebuilt :
    GetResourceRefsByAccess (ProgramBindings.Copy Example.cube_bindings.2
      Example.cube_bindings.1 none).1 ProgramArgumentAccessType.Mutable = [] ∧
    (MapFind Example.g_texture (ProgramBindings.Copy Example.cube_bindings.2
      Example.cube_bindings.1 none).1.m_binding_by_argument).map
      (fun p => (((ProgramBindings.Copy Example.cube_bindings.2
        Example.cube_bindings.1 none).2.bindings p).GetSettings.argument.GetAccessorIndex,
        ((ProgramBindings.Copy Example.cube_bindings.2
          Example.cube_bindings.1 none).2.bindings p).GetResourceViews.map
            (fun resource_view => resource_view.GetResourcePtr)))
      = some (ProgramArgumentAccessType.Mutable, [0]) ∧
    MapFind Example.g_texture Example.cube_bindings.1.m_binding_by_argument = some 6 ∧
    (((Example.cube_bindings.2.SetBinding 6
      ((Example.cube_bindings.2.bindings 6).SetResourceViews
        [Example.view 2])).bindings 6).GetResourceViews.map
          (fun resource_view => resource_view.GetResourcePtr)) = [2] ∧
    (ValueOf (OnProgramArgumentBindingResourceViewsChanged
        (Example.cube_bindings.2.SetBinding 6
          ((Example.cube_bindings.2.bindings 6).SetResourceViews [Example.view 2]))
        Example.cube_bindings.1
        ((Example.cube_bindings.2.bindings 6).SetResourceViews [Example.view 2])
        [Example.view 0] [Example.view 2])).map
      (fun pb1 => GetResourceRefsByAccess pb1 ProgramArgumentAccessType.Mutable)
      = some [0, 1] := by
  decide

/-! ### DirectX descriptor table capacity -/

theorem SetResourceViewSpanLoop_error (binding : DirectXArgumentBinding) (start : Nat)
    (heap : Option DescriptorHeap) (views : ResourceViews) (resource_index : Nat)
    (views_dx : List DirectXResourceView) (descriptors : DescriptorHeapContent) :
    (SetResourceViewSpanLoop binding start heap views resource_index views_dx descriptors).1
        = .ok () ∨
    (SetResourceViewSpanLoop binding start heap views resource_index views_dx descriptors).1
        = .error CheckError.ArgumentNotEqual := by
  induction views generalizing resource_index views_dx descriptors with
  | nil => exact Or.inl rfl
  | cons v rest ih =>
    unfold SetResourceViewSpanLoop
    dsimp only
    cases heap with
    | none => exact ih _ _ _
    | some dx_heap =>
      dsimp only
      split
      · exact Or.inr rfl
      · exact ih _ _ _

/-- Claim C18: for a DirectX argument binding of DescriptorTable type whose
descriptor range count fits the 32-bit counter (as every range accepted by
`SetDescriptorRange` does), `SetResourceViewSpan` with a changed view list raises the
capacity error, carrying the number of views and the limit, if and only if the
number of resource views exceeds the reserved descriptor range count; with at most
that many views no capacity error is raised. -/
theorem SetResourceViewSpan_capacity :
    (∀ (binding : DirectXArgumentBinding) (descriptors : DescriptorHeapContent)
        (resource_views : ResourceViews),
      binding.m_settings_dx.type = ProgramArgumentBindingType.DescriptorTable →
      (binding.base.SetResourceViewSpan resource_views).1 = true →
      binding.m_descriptor_range.count + 1 < 2 ^ 32 →
      (((binding.SetResourceViewSpan descriptors resource_views).1
          = .error (CheckError.ArgumentOutOfRange resource_views.length
              (binding.m_descriptor_range.count + 1)) ↔
        binding.m_descriptor_range.count < resource_views.length) ∧
      ((∃ value upper_limit, (binding.SetResourceViewSpan descriptors resource_views).1
          = .error (CheckError.ArgumentOutOfRange value upper_limit)) ↔
        binding.m_descriptor_range.count < resource_views.length))) ∧
    (∀ (binding : DirectXArgumentBinding) (descriptor_range : DescriptorRange),
      (binding.SetDescriptorRange descriptor_range).1 = .ok () →
      (binding.SetDescriptorRange descriptor_range).2.m_descriptor_range = descriptor_range ∧
      descriptor_range.count + 1 < 2 ^ 32) := by
  constructor
  · intro binding descriptors resource_views h_table h_changed h_count
    have hmod : (binding.m_descriptor_range.count + 1) % 2 ^ 32
        = binding.m_descriptor_range.count + 1 := Nat.mod_eq_of_lt h_count
    by_cases hlen : binding.m_descriptor_range.count < resource_views.length
    · have hres : (binding.SetResourceViewSpan descriptors resource_views).1
          = .error (CheckError.ArgumentOutOfRange resource_views.length
              (binding.m_descriptor_range.count + 1)) := by
        unfold DirectXArgumentBinding.SetResourceViewSpan
        dsimp only
        rw [h_changed, hmod]
        have hnot : ¬ resource_views.length < binding.m_descriptor_range.count + 1 := by omega
        simp [h_table, hnot]
      exact ⟨⟨fun _ => hlen, fun _ => hres⟩, ⟨fun _ => hlen, fun _ => ⟨_, _, hres⟩⟩⟩
    · have hlt : resource_views.length < binding.m_descriptor_range.count + 1 := by omega
      have hres : ∀ value upper_limit, (binding.SetResourceViewSpan descriptors resource_views).1
          ≠ .error (CheckError.ArgumentOutOfRange value upper_limit) := by
        intro value upper_limit
        unfold DirectXArgumentBinding.SetResourceViewSpan
        dsimp only
        rw [h_changed, hmod]
        simp only [Bool.not_true, Bool.false_eq_true, if_false, hlt, not_true_eq_false,
          and_false]
        have key : ∀ (x : Except CheckError Unit) (e : CheckError),
            (x = .ok () ∨ x = .error CheckError.ArgumentNotEqual) → x = .error e →
            e = CheckError.ArgumentNotEqual := by
          intro x e h1 h2
          rcases h1 with h | h
          · rw [h] at h2
            cases h2
          · rw [h] at h2
            injection h2 with h2
            exact h2.symm
        split
        · rename_i e heq
          have he := key _ e (SetResourceViewSpanLoop_error _ _ _ _ _ _ _) heq
          subst he
          simp
        · simp
      exact ⟨⟨fun h => absurd h (hres _ _), fun h => absurd h hlen⟩,
        ⟨fun ⟨value, upper_limit, h⟩ => absurd h (hres _ _), fun h => absurd h hlen⟩⟩
  · intro binding descriptor_range h
    unfold DirectXArgumentBinding.SetDescriptorRange at h ⊢
    dsimp only at h ⊢
    split at h
    · cases h
    · rename_i hheap
      split at h
      · cases h
      · rename_i hcount
        rw [if_neg hheap, if_neg hcount]
        refine ⟨rfl, ?_⟩
        have hm : (binding.m_settings_dx.resource_count + 1) % 2 ^ 32 < 2 ^ 32 :=
          Nat.mod_lt _ (by norm_num)
        omega

/-- Witness of C18: the example descriptor table binding has a range of two
descriptors; three views raise the capacity error with value 3 and limit 3, two
views do not. -/
theorem SetResourceViewSpan_capacity_witness :
    ((Example.table_binding.SetResourceViewSpan (fun _ => none)
        [Example.view 0, Example.view 2, Example.view 4]).1
      = .error (CheckError.ArgumentOutOfRange 3 3) ↔ 2 < 3) ∧
    ((∃ value upper_limit, (Example.table_binding.SetResourceViewSpan (fun _ => none)
        [Example.view 0, Example.view 2]).1
      = .error (CheckError.ArgumentOutOfRange value upper_limit)) ↔ 2 < 2) :=
  ⟨(SetResourceViewSpan_capacity.1 Example.table_binding (fun _ => none)
      [Example.view 0, Example.view 2, Example.view 4] rfl (by decide) (by decide)).1,
    (SetResourceViewSpan_capacity.1 Example.table_binding (fun _ => none)
      [Example.view 0, Example.view 2] rfl (by decide) (by decide)).2⟩

/-! ### Values for undeclared arguments -/

theorem ReplaceBindingValuesLoop_prefix (w : World) (l : ArgumentBindings)
    (acc : BindingValueByArgument) :
    ∃ extra, ReplaceBindingValuesLoop w l acc = acc ++ extra := by
  induction l generalizing acc with
  | nil => exact ⟨[], (List.append_nil _).symm⟩
  | cons e rest ih =>
    obtain ⟨k, p⟩ := e
    unfold ReplaceBindingValuesLoop
    dsimp only
    have hemp : ∀ x, ∃ extra, ReplaceBindingValuesLoop w rest (MapTryEmplace acc k x)
        = acc ++ extra := by
      intro x
      obtain ⟨extra, hextra⟩ := ih (MapTryEmplace acc k x)
      unfold MapTryEmplace at hextra ⊢
      split at hextra
      · rename_i hc
        rw [if_pos hc]
        exact ⟨extra, hextra⟩
      · rename_i hc
        rw [if_neg hc]
        exact ⟨(k, x) :: extra, by rw [hextra, List.append_assoc]; rfl⟩
    split
    · exact ih acc
    · split
      · exact hemp _
      · exact hemp _

theorem InitializeArgumentBindingsLoop_mem_keys (l : ArgumentBindings) (pb : ProgramBindings)
    (w : World) (k : ProgramArgument) :
    k ∈ (InitializeArgumentBindingsLoop l (pb, w)).1.m_binding_by_argument.map Prod.fst ↔
      k ∈ pb.m_binding_by_argument.map Prod.fst ∨ k ∈ l.map Prod.fst := by
  induction l generalizing pb w with
  | nil => simp [InitializeArgumentBindingsLoop]
  | cons e rest ih =>
    obtain ⟨a, p⟩ := e
    unfold InitializeArgumentBindingsLoop
    dsimp only
    split
    · rename_i hc
      rw [ih]
      dsimp only
      have ha : a ∈ pb.m_binding_by_argument.map Prod.fst := by
        obtain ⟨v, hv⟩ := (MapContains_eq_true _ _).1 hc
        exact List.mem_map.2 ⟨(a, v), hv, rfl⟩
      simp only [List.map_cons, List.mem_cons]
      constructor
      · rintro (h | h)
        · exact Or.inl h
        · exact Or.inr (Or.inr h)
      · rintro (h | h | h)
        · exact Or.inl h
        · exact Or.inl (h ▸ ha)
        · exact Or.inr h
    · rename_i hc
      rw [ih]
      dsimp only
      simp only [Bool.not_eq_true] at hc
      rw [MapTryEmplace_absent _ _ _ hc]
      simp only [List.map_append, List.map_cons, List.map_nil, List.mem_append,
        List.mem_singleton, List.mem_cons, List.not_mem_nil, or_false]
      constructor
      · rintro ((h | h) | h)
        · exact Or.inl h
        · exact Or.inr (Or.inl h)
        · exact Or.inr (Or.inr h)
      · rintro (h | h | h)
        · exact Or.inl (Or.inl h)
        · exact Or.inl (Or.inr h)
        · exact Or.inr h

theorem Copy_mem_keys (w : World) (other : ProgramBindings) (frame_index : Option Nat)
    (k : ProgramArgument) :
    k ∈ (ProgramBindings.Copy w other frame_index).1.m_binding_by_argument.map Prod.fst ↔
      k ∈ other.m_binding_by_argument.map Prod.fst := by
  unfold ProgramBindings.Copy InitializeArgumentBindings
  dsimp only
  rw [InitializeArgumentBindingsLoop_mem_keys]
  simp [ProgramBindings.GetArgumentBindings]

theorem SetOwnerQueueFamily_other (w : World) (p : ResourcePtr) (f : Nat)
    (b : Option ResourceBarriers) (r : ResourcePtr) (h : r ≠ p) :
    (SetOwnerQueueFamily w p f b).2.1.resources r = w.resources r := by
  unfold SetOwnerQueueFamily
  dsimp only
  split
  · rfl
  · simp [World.SetResource, h]

theorem ApplyResourceStatesLoop_other (q : Option CommandQueue) (l : ResourceStates)
    (c : Bool) (w : World) (b : Option ResourceBarriers) (r : ResourcePtr)
    (h : ∀ entry ∈ l, entry.resource_ptr ≠ r) :
    (ApplyResourceStatesLoop q l (c, w, b)).2.1.resources r = w.resources r := by
  induction l generalizing c w b with
  | nil => rfl
  | cons e rest ih =>
    have hr : r ≠ e.resource_ptr := fun heq => h e (List.mem_cons_self _ _) heq.symm
    unfold ApplyResourceStatesLoop
    dsimp only
    rw [ih _ _ _ (fun entry he => h entry (List.mem_cons_of_mem _ he)),
      (SetState_spec _ _ _ _).2.2.2.1 r hr]
    cases q with
    | none => rfl
    | some queue => exact SetOwnerQueueFamily_other _ _ _ _ _ hr

theorem ApplyResourceStatesLoop_owner (l : ResourceStates)
    (c : Bool) (w : World) (b : Option ResourceBarriers) (r : ResourcePtr) :
    ((ApplyResourceStatesLoop none l (c, w, b)).2.1.resources r).m_owner_queue_family_index_opt
      = (w.resources r).m_owner_queue_family_index_opt := by
  induction l generalizing c w b with
  | nil => rfl
  | cons e rest ih =>
    unfold ApplyResourceStatesLoop
    dsimp only
    rw [ih, (SetState_spec _ _ _ _).2.2.2.2 r]

/-- Claim C20: `ApplyResourceStates` touches only the buckets whose access-type bit is
set in the mask.  Every resource that is not recorded in a selected bucket is left
as it was, with its state and its owner queue family; the transition buckets are
unchanged; without owner queue no resource's owner queue family changes; and with a
mask without bits nothing changes and the result is false. -/
theorem ApplyResourceStates_scope :
    (∀ w pb access owner_queue_ptr r,
      (∀ access_type, EnumMask.HasBit access access_type = true →
        ∀ entry ∈ pb.m_transition_resource_states_by_access access_type,
          entry.resource_ptr ≠ r) →
      (ApplyResourceStates w pb access owner_queue_ptr).2.2.resources r = w.resources r) ∧
    (∀ w pb access owner_queue_ptr,
      (ApplyResourceStates w pb access owner_queue_ptr).2.1.m_transition_resource_states_by_access
        = pb.m_transition_resource_states_by_access) ∧
    (∀ w pb access r,
      ((ApplyResourceStates w pb access none).2.2.resources r).m_owner_queue_family_index_opt
        = (w.resources r).m_owner_queue_family_index_opt) ∧
    (∀ w pb access owner_queue_ptr,
      (∀ access_type, EnumMask.HasBit access access_type = false) →
      ApplyResourceStates w pb access owner_queue_ptr = (false, pb, w)) := by
  refine ⟨?_, ?_, ?_, ?_⟩
  · intro w pb access q r h
    rw [ApplyResourceStates_eq]
    dsimp only
    apply ApplyResourceStatesLoop_other
    intro entry he
    obtain ⟨t, ht, hin⟩ := (mem_SelectedResourceStates _ _ _).1 he
    exact h t ht entry hin
  · intro w pb access q
    rw [ApplyResourceStates_eq]
  · intro w pb access r
    rw [ApplyResourceStates_eq]
    dsimp only
    exact ApplyResourceStatesLoop_owner _ _ _ _ _
  · intro w pb access q h
    rw [ApplyResourceStates_eq]
    have hsel : SelectedResourceStates pb access = [] := by
      unfold SelectedResourceStates
      simp [ProgramArgumentAccessType.values, h]
    rw [hsel]
    rfl

/-- Witness of C20: applying the mutable bucket of the textured-cube bindings, which
records the cube texture only, leaves the other texture (address 2) as it was; and
the empty mask changes nothing. -/
theorem ApplyResourceStates_scope_witness :
    (ApplyResourceStates Example.cube_bindings.2 Example.cube_bindings.1
      [ProgramArgumentAccessType.Mutable] none).2.2.resources 2
      = Example.cube_bindings.2.resources 2 ∧
    ApplyResourceStates Example.cube_bindings.2 Example.cube_bindings.1 [] none
      = (false, Example.cube_bindings.1, Example.cube_bindings.2) :=
  ⟨ApplyResourceStates_scope.1 Example.cube_bindings.2 Example.cube_bindings.1
      [ProgramArgumentAccessType.Mutable] none 2 (by intro t; cases t <;> decide),
    ApplyResourceStates_scope.2.2.2 Example.cube_bindings.2 Example.cube_bindings.1 [] none
      (by intro t; cases t <;> decide)⟩

/-! ### Idempotence of `ApplyResourceStates` -/

theorem ApplyResourceStatesLoop_fixed (q : Option CommandQueue) (l : ResourceStates)
    (c : Bool) (w : World) (b : Option ResourceBarriers)
    (h : ∀ entry ∈ l, ¬ EntryChanges q w entry) :
    ApplyResourceStatesLoop q l (c, w, b) = (c, w, b) := by
  induction l generalizing c with
  | nil => rfl
  | cons e rest ih =>
    obtain ⟨c1, w1, b1, hstep, -, hc1, hsame, -, -⟩ := ApplyResourceStatesLoop_cons q e rest c w b
    have hfalse : c1 = false := by
      cases hc : c1 with
      | false => rfl
      | true => exact absurd (hc1.1 hc) (h e (List.mem_cons_self _ _))
    obtain ⟨hw, hb⟩ := hsame hfalse
    rw [hstep, hfalse, hw, hb, Bool.or_false]
    exact ih c (fun entry he => h entry (List.mem_cons_of_mem _ he))

theorem SetOwnerQueueFamily_owner (w : World) (p : ResourcePtr) (f : Nat)
    (b : Option ResourceBarriers) :
    ((SetOwnerQueueFamily w p f b).2.1.resources p).m_owner_queue_family_index_opt = some f := by
  unfold SetOwnerQueueFamily
  dsimp only
  split
  · rename_i h
    exact h
  · simp [World.SetResource]

theorem ApplyResourceStatesLoop_owner_family (queue : CommandQueue) (l : ResourceStates)
    (c : Bool) (w : World) (b : Option ResourceBarriers) (r : ResourcePtr)
    (h : (∃ entry ∈ l, entry.resource_ptr = r) ∨
      (w.resources r).m_owner_queue_family_index_opt = some queue.GetFamilyIndex) :
    ((ApplyResourceStatesLoop (some queue) l (c, w, b)).2.1.resources
        r).m_owner_queue_family_index_opt = some queue.GetFamilyIndex := by
  induction l generalizing c w b with
  | nil =>
    rcases h with ⟨entry, he, -⟩ | h
    · cases he
    · exact h
  | cons e rest ih =>
    unfold ApplyResourceStatesLoop
    dsimp only
    apply ih
    by_cases her : e.resource_ptr = r
    · right
      rw [(SetState_spec _ _ _ _).2.2.2.2 r, ← her]
      exact SetOwnerQueueFamily_owner _ _ _ _
    · rcases h with ⟨entry, he, hr⟩ | h
      · rcases List.mem_cons.1 he with heq | he
        · rw [heq] at hr
          exact absurd hr her
        · exact Or.inl ⟨entry, he, hr⟩
      · right
        rw [(SetState_spec _ _ _ _).2.2.2.2 r,
          SetOwnerQueueFamily_other _ _ _ _ r (fun heq => her heq.symm)]
        exact h

/-- Claim C21: `ApplyResourceStates` is idempotent when targets are consistent.  If
every resource recorded in the selected buckets has the same target state in all of
its entries there, a second call with the same mask and owner queue right after the
first returns false and leaves the resources (states and owner queue families) and
the barrier set as the first call left them. -/
theorem ApplyResourceStates_idempotent (w : World) (pb : ProgramBindings)
    (access : EnumMask ProgramArgumentAccessType) (owner_queue_ptr : Option CommandQueue)
    (h_consistent : ∀ access_type1, EnumMask.HasBit access access_type1 = true →
      ∀ entry1 ∈ pb.m_transition_resource_states_by_access access_type1,
      ∀ access_type2, EnumMask.HasBit access access_type2 = true →
      ∀ entry2 ∈ pb.m_transition_resource_states_by_access access_type2,
        entry1.resource_ptr = entry2.resource_ptr → entry1.state = entry2.state) :
    ApplyResourceStates (ApplyResourceStates w pb access owner_queue_ptr).2.2
        (ApplyResourceStates w pb access owner_queue_ptr).2.1 access owner_queue_ptr
      = (false, (ApplyResourceStates w pb access owner_queue_ptr).2.1,
          (ApplyResourceStates w pb access owner_queue_ptr).2.2) := by
  have hfirst := ApplyResourceStates_eq w pb access owner_queue_ptr
  rw [ApplyResourceStates_eq, hfirst]
  dsimp only
  have hsel : SelectedResourceStates
      { pb with m_resource_state_transition_barriers_ptr :=
          (ApplyResourceStatesLoop owner_queue_ptr (SelectedResourceStates pb access)
            (false, w, pb.m_resource_state_transition_barriers_ptr)).2.2 } access
      = SelectedResourceStates pb access := rfl
  rw [hsel]
  have hnochange : ∀ entry ∈ SelectedResourceStates pb access,
      ¬ EntryChanges owner_queue_ptr
        (ApplyResourceStatesLoop owner_queue_ptr (SelectedResourceStates pb access)
          (false, w, pb.m_resource_state_transition_barriers_ptr)).2.1 entry := by
    intro entry he hchange
    rcases hchange with ⟨queue, hq, howner⟩ | hstate
    · subst hq
      exact howner (ApplyResourceStatesLoop_owner_family queue _ _ _ _ _
        (Or.inl ⟨entry, he, rfl⟩))
    · apply hstate
      apply ApplyResourceStatesLoop_state
      · intro entry2 he2 hptr
        obtain ⟨t1, ht1, hin1⟩ := (mem_SelectedResourceStates _ _ _).1 he
        obtain ⟨t2, ht2, hin2⟩ := (mem_SelectedResourceStates _ _ _).1 he2
        exact (h_consistent t1 ht1 entry hin1 t2 ht2 entry2 hin2 hptr.symm).symm
      · exact Or.inl ⟨entry, he, rfl⟩
  rw [ApplyResourceStatesLoop_fixed _ _ _ _ _ hnochange]

/-- Witness of C21: the mutable bucket of the textured-cube bindings records the cube
texture once; the second application over it returns false and changes nothing. -/
theorem ApplyResourceStates_idempotent_witness :
    (ApplyResourceStates Example.cube_bindings.2 Example.cube_bindings.1
      [ProgramArgumentAccessType.Mutable] none).1 = true ∧
    ApplyResourceStates Example.cube_applied.2.2 Example.cube_applied.2.1
        [ProgramArgumentAccessType.Mutable] none
      = (false, Example.cube_applied.2.1, Example.cube_applied.2.2) :=
  ⟨by decide,
    ApplyResourceStates_idempotent Example.cube_bindings.2 Example.cube_bindings.1
      [ProgramArgumentAccessType.Mutable] none
      (by
        intro t1 h1 e1 he1 t2 h2 e2 he2 hptr
        have ht1 : t1 = ProgramArgumentAccessType.Mutable := by
          cases t1 <;> first | rfl | exact absurd h1 (by decide)
        have ht2 : t2 = ProgramArgumentAccessType.Mutable := by
          cases t2 <;> first | rfl | exact absurd h2 (by decide)
        subst ht1 ht2
        have key : ∀ entry1 ∈ Example.cube_bindings.1.m_transition_resource_states_by_access
            ProgramArgumentAccessType.Mutable,
            ∀ entry2 ∈ Example.cube_bindings.1.m_transition_resource_states_by_access
              ProgramArgumentAccessType.Mutable,
            entry1.resource_ptr = entry2.resource_ptr → entry1.state = entry2.state := by
          decide
        exact key e1 he1 e2 he2 hptr)⟩

/-! ### Entries added by a change notification -/

theorem AddNewResourcesLoop_entries (w : World) (binding : ArgumentBinding)
    (views : ResourceViews) (pb pb1 : ProgramBindings)
    (h : AddNewResourcesLoop w binding views pb = .ok pb1) :
    ∀ view ∈ views, (w.resources view.GetResourcePtr).GetResourceType ≠ ResourceType.Sampler →
      ∃ target, GetBoundResourceTargetState (w.resources view.GetResourcePtr)
          binding.GetSettings.resource_type binding.GetSettings.argument.IsConstant
          = .ok target ∧
        ResourceAndState.mk view.GetResourcePtr target ∈
          pb1.m_transition_resource_states_by_access
            binding.GetSettings.argument.GetAccessorIndex := by
  induction views generalizing pb with
  | nil =>
    intro view hv
    cases hv
  | cons v rest ih =>
    unfold AddNewResourcesLoop at h
    split at h
    · cases h
    · rename_i pb2 hadd
      intro view hv hns
      rcases List.mem_cons.1 hv with heq | hv
      · subst heq
        obtain ⟨target, ht, hpb2⟩ := (AddTransitionResourceState_bucket _ _ _ _ _ hadd).2 hns
        refine ⟨target, ht, ?_⟩
        apply (AddNewResourcesLoop_bucket _ _ _ _ _ h).1
        rw [hpb2]
        simp [SetBucket_same]
      · exact ih pb2 h view hv hns

/-- Claim C22: whenever the barrier set of the program bindings exists, after a
resource-views-changed notification the bucket of the accessor type of the argument
contains, for every non-sampler resource of the new view set, an entry pairing that
resource with `GetBoundResourceTargetState` of that resource and argument, evaluated
at the notification; the notification completes when the new resources are of the
declared type. -/
theorem OnProgramArgumentBindingResourceViewsChanged_new_entries (w : World)
    (pb : ProgramBindings) (argument_binding : ArgumentBinding)
    (old_resource_views new_resource_views : ResourceViews)
    (h_barriers : pb.m_resource_state_transition_barriers_ptr ≠ none) :
    (∀ pb1, OnProgramArgumentBindingResourceViewsChanged w pb argument_binding
        old_resource_views new_resource_views = .ok pb1 →
      ∀ view ∈ new_resource_views,
        (w.resources view.GetResourcePtr).GetResourceType ≠ ResourceType.Sampler →
        ∃ target, GetBoundResourceTargetState (w.resources view.GetResourcePtr)
            argument_binding.GetSettings.resource_type
            argument_binding.GetSettings.argument.IsConstant = .ok target ∧
          ResourceAndState.mk view.GetResourcePtr target ∈
            pb1.m_transition_resource_states_by_access
              argument_binding.GetSettings.argument.GetAccessorIndex) ∧
    ((∀ view ∈ new_resource_views,
        ResourceTypeMatches w argument_binding.GetSettings.resource_type view) →
      ∃ pb1, OnProgramArgumentBindingResourceViewsChanged w pb argument_binding
        old_resource_views new_resource_views = .ok pb1) := by
  have hsome : pb.m_resource_state_transition_barriers_ptr.isNone = false := by
    cases hb : pb.m_resource_state_transition_barriers_ptr with
    | none => exact absurd hb h_barriers
    | some b => rfl
  constructor
  · intro pb1 h
    unfold OnProgramArgumentBindingResourceViewsChanged at h
    rw [hsome] at h
    simp only [Bool.false_eq_true, if_false] at h
    exact AddNewResourcesLoop_entries _ _ _ _ _ h
  · intro htyped
    unfold OnProgramArgumentBindingResourceViewsChanged
    rw [hsome]
    simp only [Bool.false_eq_true, if_false]
    apply AddNewResourcesLoop_ok
    intro view hv
    by_cases hs : (w.resources view.GetResourcePtr).GetResourceType = ResourceType.Sampler
    · exact Or.inl hs
    · exact Or.inr (GetBoundResourceTargetState_ok w _ view _ hs (htyped view hv))

/-- Witness of C22: once the barrier set of the textured-cube bindings exists, the
notification that `g_texture` changed from the cube texture to the other texture
(address 2) leaves an entry of the other texture with the shader-resource state in
the mutable bucket. -/
theorem OnProgramArgumentBindingResourceViewsChanged_new_entries_witness :
    ErrorOf (OnProgramArgumentBindingResourceViewsChanged Example.cube_applied.2.2
      Example.cube_applied.2.1 (Example.cube_applied.2.2.bindings 6)
      [Example.view 0] [Example.view 2]) = none ∧
    (∀ pb1, OnProgramArgumentBindingResourceViewsChanged Example.cube_applied.2.2
        Example.cube_applied.2.1 (Example.cube_applied.2.2.bindings 6)
        [Example.view 0] [Example.view 2] = .ok pb1 →
      ∃ target, GetBoundResourceTargetState (Example.cube_applied.2.2.resources 2)
          ResourceType.Texture false = .ok target ∧
        ResourceAndState.mk 2 target ∈
          pb1.m_transition_resource_states_by_access ProgramArgumentAccessType.Mutable) :=
  ⟨by decide, fun pb1 h =>
    (OnProgramArgumentBindingResourceViewsChanged_new_entries Example.cube_applied.2.2
      Example.cube_applied.2.1 (Example.cube_applied.2.2.bindings 6)
      [Example.view 0] [Example.view 2] (by decide)).1 pb1 h (Example.view 2)
      (List.mem_singleton.2 rfl) (by decide)⟩

/-! ### The clone without replacement -/

theorem InitializeArgumentBindingsLoop_nodup (l : ArgumentBindings) (pb : ProgramBindings)
    (w : World) (h : (pb.m_binding_by_argument.map Prod.fst).Nodup) :
    ((InitializeArgumentBindingsLoop l (pb, w)).1.m_binding_by_argument.map Prod.fst).Nodup := by
  induction l generalizing pb w with
  | nil => exact h
  | cons e rest ih =>
    obtain ⟨a, p⟩ := e
    unfold InitializeArgumentBindingsLoop
    dsimp only
    split
    · exact ih _ _ h
    · rename_i hc
      simp only [Bool.not_eq_true] at hc
      apply ih
      dsimp only
      rw [MapTryEmplace_absent _ _ _ hc, List.map_append, List.map_cons, List.map_nil]
      apply List.Nodup.append h (List.nodup_singleton a)
      intro k hk1 hk2
      rw [List.mem_singleton] at hk2
      subst hk2
      obtain ⟨entry, he, hfst⟩ := List.mem_map.1 hk1
      obtain ⟨k2, v⟩ := entry
      dsimp only at hfst
      subst hfst
      exact (MapContains_eq_false _ _).1 hc v he

/-- Claim C23: a clone made without a replacement map starts with transition buckets
equal to the buckets of the source at the moment of cloning, with binding entries
for exactly the arguments of the source, one entry per argument, and with the
requested frame index when one is given and the frame index of the source
otherwise. -/
theorem Copy_starts_from_source (w : World) (other_program_bindings : ProgramBindings)
    (frame_index : Option Nat) :
    (ProgramBindings.Copy w other_program_bindings
        frame_index).1.m_transition_resource_states_by_access
      = other_program_bindings.m_transition_resource_states_by_access ∧
    (∀ program_argument,
      program_argument ∈ (ProgramBindings.Copy w other_program_bindings
          frame_index).1.m_binding_by_argument.map Prod.fst ↔
        program_argument ∈ other_program_bindings.m_binding_by_argument.map Prod.fst) ∧
    ((ProgramBindings.Copy w other_program_bindings
        frame_index).1.m_binding_by_argument.map Prod.fst).Nodup ∧
    (ProgramBindings.Copy w other_program_bindings frame_index).1.m_frame_index
      = (match frame_index with
        | some index => index
        | none => other_program_bindings.m_frame_index) := by
  refine ⟨(Copy_frame w other_program_bindings frame_index).1,
    Copy_mem_keys w other_program_bindings frame_index, ?_, ?_⟩
  · unfold ProgramBindings.Copy InitializeArgumentBindings
    dsimp only
    exact InitializeArgumentBindingsLoop_nodup _ _ _ List.nodup_nil
  · rw [(Copy_frame w other_program_bindings frame_index).2.2.1]
    cases frame_index <;> rfl

/-! ### The values applied to a clone -/

theorem mem_keys_ReplaceBindingValuesLoop (w : World) (l : ArgumentBindings)
    (acc : BindingValueByArgument) (k : ProgramArgument) :
    k ∈ (ReplaceBindingValuesLoop w l acc).map Prod.fst ↔
      k ∈ acc.map Prod.fst ∨
      ∃ p, (k, p) ∈ l ∧ (w.bindings p).GetSettings.argument.IsConstant = false := by
  induction l generalizing acc with
  | nil => simp [ReplaceBindingValuesLoop]
  | cons e rest ih =>
    obtain ⟨a, pa⟩ := e
    have hemp : ∀ x, MapContains a acc = false →
        (k ∈ (MapTryEmplace acc a x).map Prod.fst ↔ k ∈ acc.map Prod.fst ∨ k = a) := by
      intro x hc
      rw [MapTryEmplace_absent _ _ _ hc]
      simp
    unfold ReplaceBindingValuesLoop
    dsimp only
    split
    · rename_i hskip
      rw [ih]
      simp only [Bool.or_eq_true] at hskip
      constructor
      · rintro (h | ⟨p, hp, hnc⟩)
        · exact Or.inl h
        · exact Or.inr ⟨p, List.mem_cons_of_mem _ hp, hnc⟩
      · rintro (h | ⟨p, hp, hnc⟩)
        · exact Or.inl h
        · rcases List.mem_cons.1 hp with heq | hp
          · injection heq with h1 h2
            subst h1 h2
            rcases hskip with hconst | hcont
            · rw [hconst] at hnc
              cases hnc
            · obtain ⟨v, hv⟩ := (MapContains_eq_true _ _).1 hcont
              exact Or.inl (List.mem_map.2 ⟨(k, v), hv, rfl⟩)
          · exact Or.inr ⟨p, hp, hnc⟩
    · rename_i hskip
      simp only [Bool.or_eq_true, not_or, Bool.not_eq_true] at hskip
      obtain ⟨hnc, hcont⟩ := hskip
      have hboth : ∀ x, (k ∈ (ReplaceBindingValuesLoop w rest (MapTryEmplace acc a x)).map Prod.fst ↔
          k ∈ acc.map Prod.fst ∨
          ∃ p, (k, p) ∈ (a, pa) :: rest ∧
            (w.bindings p).GetSettings.argument.IsConstant = false) := by
        intro x
        rw [ih, hemp x hcont]
        constructor
        · rintro ((h | h) | ⟨p, hp, hpc⟩)
          · exact Or.inl h
          · subst h
            exact Or.inr ⟨pa, List.mem_cons_self _ _, hnc⟩
          · exact Or.inr ⟨p, List.mem_cons_of_mem _ hp, hpc⟩
        · rintro (h | ⟨p, hp, hpc⟩)
          · exact Or.inl (Or.inl h)
          · rcases List.mem_cons.1 hp with heq | hp
            · injection heq with h1 h2
              exact Or.inl (Or.inr h1)
            · exact Or.inr ⟨p, hp, hpc⟩
      split
      · exact hboth _
      · exact hboth _

/-- Claim C24: the key set of the map returned by `ReplaceBindingValues` is exactly
the keys of the replacement map together with the non-constant arguments of the
source; every entry of the replacement map is kept unchanged, also for a constant
argument; and a constant argument absent from the replacement map is omitted. -/
theorem ReplaceBindingValues_keys (w : World) (argument_bindings : ArgumentBindings)
    (replace_resource_views : BindingValueByArgument) :
    (∀ program_argument,
      program_argument ∈ (ReplaceBindingValues w argument_bindings
          replace_resource_views).map Prod.fst ↔
        program_argument ∈ replace_resource_views.map Prod.fst ∨
        ∃ argument_binding_ptr, (program_argument, argument_binding_ptr) ∈ argument_bindings ∧
          (w.bindings argument_binding_ptr).GetSettings.argument.IsConstant = false) ∧
    (∃ added, ReplaceBindingValues w argument_bindings replace_resource_views
      = replace_resource_views ++ added) ∧
    (∀ program_argument binding_value,
      MapFind program_argument replace_resource_views = some binding_value →
      MapFind program_argument (ReplaceBindingValues w argument_bindings replace_resource_views)
        = some binding_value) ∧
    (∀ program_argument,
      program_argument ∉ replace_resource_views.map Prod.fst →
      (∀ entry ∈ argument_bindings, entry.1 = program_argument →
        (w.bindings entry.2).GetSettings.argument.IsConstant = true) →
      program_argument ∉ (ReplaceBindingValues w argument_bindings
        replace_resource_views).map Prod.fst) := by
  refine ⟨?_, ?_, ?_, ?_⟩
  · intro k
    exact mem_keys_ReplaceBindingValuesLoop w argument_bindings replace_resource_views k
  · exact ReplaceBindingValuesLoop_prefix w argument_bindings replace_resource_views
  · intro k v h
    exact ReplaceBindingValuesLoop_keep w argument_bindings replace_resource_views k v h
  · intro k hk hconst hin
    rcases (mem_keys_ReplaceBindingValuesLoop w argument_bindings replace_resource_views k).1
      hin with h | ⟨p, hp, hnc⟩
    · exact hk h
    · rw [hconst (k, p) hp rfl] at hnc
      cases hnc

/-- Witness of C24: for the bindings of the buffer program, whose argument `g_params`
is constant and `g_data` is not, a replacement of `g_params` is kept, `g_data` is
added, and without replacement `g_params` is omitted. -/
theorem ReplaceBindingValues_keys_witness :
    MapFind Example.g_params (ReplaceBindingValues Example.buffer_bindings.2
        Example.buffer_bindings.1.GetArgumentBindings
        [(Example.g_params, BindingValue.ResourceView (Example.subview 3 16))])
      = some (BindingValue.ResourceView (Example.subview 3 16)) ∧
    (ReplaceBindingValues Example.buffer_bindings.2
        Example.buffer_bindings.1.GetArgumentBindings
        [(Example.g_params, BindingValue.ResourceView (Example.subview 3 16))]).map Prod.fst
      = [Example.g_params, Example.g_data] ∧
    Example.g_params ∉ (ReplaceBindingValues Example.buffer_bindings.2
      Example.buffer_bindings.1.GetArgumentBindings []).map Prod.fst :=
  ⟨(ReplaceBindingValues_keys Example.buffer_bindings.2
      Example.buffer_bindings.1.GetArgumentBindings
      [(Example.g_params, BindingValue.ResourceView (Example.subview 3 16))]).2.2.1
      Example.g_params _ (by decide),
    by decide,
    (ReplaceBindingValues_keys Example.buffer_bindings.2
      Example.buffer_bindings.1.GetArgumentBindings []).2.2.2 Example.g_params
      (by decide) (by decide)⟩

/-! ### Bucket entries and bound resources -/

theorem SetResourcesForArgumentsLoop_untouched_values (values : BindingValueByArgument)
    (pb : ProgramBindings) (w : World) (state : ProgramBindings × World)
    (h : SetResourcesForArgumentsLoop values (pb, w) = .ok state) (p : BindingPtr)
    (hp : ∀ entry ∈ values, MapFind entry.1 pb.m_binding_by_argument ≠ some p) :
    state.2.bindings p = w.bindings p := by
  induction values generalizing pb w with
  | nil =>
    simp only [SetResourcesForArgumentsLoop, Except.ok.injEq] at h
    subst h
    rfl
  | cons e rest ih =>
    obtain ⟨k, v⟩ := e
    unfold SetResourcesForArgumentsLoop at h
    split at h
    · cases h
    · rename_i q hget
      dsimp only at h
      split at h
      · cases h
      · rename_i pb1 hadd
        have hmap := (AddTransitionResourceStates_frame _ _ _ _ hadd).1
        rw [ih pb1 _ h (by
          intro entry he
          rw [hmap]
          exact hp entry (List.mem_cons_of_mem _ he))]
        have hq : q ≠ p := by
          intro heq
          apply hp (k, v) (List.mem_cons_self _ _)
          rw [← heq]
          exact (Get_eq_ok _ _ _).1 hget
        have hpq : ¬ p = q := fun heq => hq heq.symm
        simp only [World.SetBinding, hpq, if_false]

theorem SetResourcesForArgumentsLoop_entries (values : BindingValueByArgument)
    (pb : ProgramBindings) (w : World) (state : ProgramBindings × World)
    (h : SetResourcesForArgumentsLoop values (pb, w) = .ok state)
    (hkeys : (values.map Prod.fst).Nodup)
    (hinj : ∀ k1 k2 q, MapFind k1 pb.m_binding_by_argument = some q →
      MapFind k2 pb.m_binding_by_argument = some q → k1 = k2) :
    ∀ access_type, ∀ entry ∈ state.1.m_transition_resource_states_by_access access_type,
      entry ∈ pb.m_transition_resource_states_by_access access_type ∨
      ∃ k q, k ∈ values.map Prod.fst ∧ MapFind k pb.m_binding_by_argument = some q ∧
        (state.2.bindings q).GetSettings.argument.GetAccessorIndex = access_type ∧
        ∃ view ∈ (state.2.bindings q).GetResourceViews,
          view.GetResourcePtr = entry.resource_ptr := by
  induction values generalizing pb w with
  | nil =>
    simp only [SetResourcesForArgumentsLoop, Except.ok.injEq] at h
    subst h
    exact fun t entry he => Or.inl he
  | cons e rest ih =>
    obtain ⟨k, v⟩ := e
    simp only [List.map_cons, List.nodup_cons] at hkeys
    obtain ⟨hknew, hrestkeys⟩ := hkeys
    unfold SetResourcesForArgumentsLoop at h
    split at h
    · cases h
    · rename_i q hget
      dsimp only at h
      split at h
      · cases h
      · rename_i pb1 hadd
        have hmap := (AddTransitionResourceStates_frame _ _ _ _ hadd).1
        have hq := (Get_eq_ok _ _ _).1 hget
        have hfinal : state.2.bindings q
            = (ApplyBindingValue ((w.bindings q).SetEmitCallbackEnabled false)
                v).SetEmitCallbackEnabled true := by
          rw [SetResourcesForArgumentsLoop_untouched_values rest pb1 _ state h q (by
            intro entry he hfind
            rw [hmap] at hfind
            have := hinj entry.1 k q hfind hq
            apply hknew
            rw [← this]
            exact List.mem_map.2 ⟨entry, he, rfl⟩)]
          simp [World.SetBinding]
        intro t entry he
        rcases ih pb1 _ h hrestkeys (by rw [hmap]; exact hinj) t entry he with
          h1 | ⟨k2, q2, hk2, hfind2, hacc2, hview2⟩
        · rcases AddTransitionResourceStates_entries _ _ _ _ hadd t entry h1 with
            h2 | ⟨ht, view, hview, hptr, -, -⟩
          · exact Or.inl h2
          · refine Or.inr ⟨k, q, List.mem_cons_self _ _, hq, ?_, view, ?_, hptr.symm⟩
            · rw [hfinal]
              exact ht.symm
            · rw [hfinal]
              exact hview
        · exact Or.inr ⟨k2, q2, List.mem_cons_of_mem _ hk2, by rw [← hmap]; exact hfind2,
            hacc2, hview2⟩

theorem InitializedFrom_inj (source : BindingPtr → ArgumentBinding) (base : Nat)
    (full map : ArgumentBindings) (w : World)
    (hinv : InitializedFrom source base full map w)
    (_hfull : ∀ e ∈ full, e.2 < base)
    (_hobj : ∀ e1 ∈ full, ∀ e2 ∈ full, e1.2 = e2.2 → e1.1 = e2.1) :
    ∀ k1 k2 q, MapFind k1 map = some q → MapFind k2 map = some q → k1 = k2 := by
  obtain ⟨-, -, hentries, hinj, -⟩ := hinv
  intro k1 k2 q h1 h2
  have m1 := MapFind_mem _ _ _ h1
  have m2 := MapFind_mem _ _ _ h2
  obtain ⟨-, -, -, -, hb1⟩ := hentries (k1, q) m1
  exact hinj (k1, q) m1 (k2, q) m2 hb1 rfl

theorem ReplaceBindingValuesLoop_nodup (w : World) (l : ArgumentBindings)
    (acc : BindingValueByArgument) (h : (acc.map Prod.fst).Nodup) :
    ((ReplaceBindingValuesLoop w l acc).map Prod.fst).Nodup := by
  induction l generalizing acc with
  | nil => exact h
  | cons e rest ih =>
    obtain ⟨a, pa⟩ := e
    have hemp : ∀ x, ((MapTryEmplace acc a x).map Prod.fst).Nodup := by
      intro x
      unfold MapTryEmplace
      split
      · exact h
      · rename_i hc
        simp only [Bool.not_eq_true] at hc
        rw [List.map_append, List.map_cons, List.map_nil]
        apply List.Nodup.append h (List.nodup_singleton a)
        intro k hk1 hk2
        rw [List.mem_singleton] at hk2
        subst hk2
        obtain ⟨entry, he, hfst⟩ := List.mem_map.1 hk1
        obtain ⟨k2, v⟩ := entry
        dsimp only at hfst
        subst hfst
        exact (MapContains_eq_false _ _).1 hc v he
    unfold ReplaceBindingValuesLoop
    dsimp only
    split
    · exact ih acc h
    · split
      · exact ih _ (hemp _)
      · exact ih _ (hemp _)

theorem SetResourcesForArguments_entries (w : World) (pb : ProgramBindings)
    (values : BindingValueByArgument) (state : ProgramBindings × World)
    (h : SetResourcesForArguments w pb values = .ok state)
    (hkeys : (values.map Prod.fst).Nodup)
    (hinj : ∀ k1 k2 q, MapFind k1 pb.m_binding_by_argument = some q →
      MapFind k2 pb.m_binding_by_argument = some q → k1 = k2) :
    ∀ access_type, ∀ entry ∈ state.1.m_transition_resource_states_by_access access_type,
      entry ∈ pb.m_transition_resource_states_by_access access_type ∨
      ∃ binding_entry ∈ state.1.m_binding_by_argument,
        (state.2.bindings binding_entry.2).GetSettings.argument.GetAccessorIndex = access_type ∧
        ∃ view ∈ (state.2.bindings binding_entry.2).GetResourceViews,
          view.GetResourcePtr = entry.resource_ptr := by
  obtain ⟨looped, hloop, heq⟩ := SetResourcesForArguments_loop _ _ _ _ h
  have hmap := (SetResourcesForArgumentsLoop_frame _ _ _ _ hloop).1
  subst heq
  intro t entry he
  rcases SetResourcesForArgumentsLoop_entries values pb w looped hloop hkeys hinj t entry he with
    h1 | ⟨k, q, -, hfind, hacc, hview⟩
  · exact Or.inl h1
  · refine Or.inr ⟨(k, q), ?_, hacc, hview⟩
    show (k, q) ∈ looped.1.m_binding_by_argument
    rw [hmap]
    exact MapFind_mem _ _ _ hfind

/-- Claim C25 (amended): program bindings constructed from a program start with empty
transition buckets; after a construction with initial values, every entry of
transition bucket i refers to a resource that is bound, through some resource view,
to an argument of the instance whose accessor index is i; and a clone with a
replacement map holds, besides the entries of the source's buckets that the copy
took over, only entries of that kind.  The maps of the program, of the source and of
the values are unordered maps (distinct keys) with one binding object per
argument. -/
theorem bucket_entries_are_bound :
    (∀ w program frame_index access_type,
      (ProgramBindings.Construct w program
        frame_index).1.m_transition_resource_states_by_access access_type = []) ∧
    (∀ w program values frame_index state,
      (∀ entry ∈ (w.programs program).GetArgumentBindings, entry.2 < w.bindings_end) →
      ((w.programs program).GetArgumentBindings.map Prod.fst).Nodup →
      (∀ entry1 ∈ (w.programs program).GetArgumentBindings,
        ∀ entry2 ∈ (w.programs program).GetArgumentBindings,
          entry1.2 = entry2.2 → entry1.1 = entry2.1) →
      (values.map Prod.fst).Nodup →
      ProgramBindings.ConstructWithValues w program values frame_index = .ok state →
      ∀ access_type, ∀ entry ∈ state.1.m_transition_resource_states_by_access access_type,
        ∃ binding_entry ∈ state.1.m_binding_by_argument,
          (state.2.bindings binding_entry.2).GetSettings.argument.GetAccessorIndex
            = access_type ∧
          ∃ view ∈ (state.2.bindings binding_entry.2).GetResourceViews,
            view.GetResourcePtr = entry.resource_ptr) ∧
    (∀ w other replace frame_index state,
      (∀ entry ∈ other.m_binding_by_argument, entry.2 < w.bindings_end) →
      (other.m_binding_by_argument.map Prod.fst).Nodup →
      (∀ entry1 ∈ other.m_binding_by_argument, ∀ entry2 ∈ other.m_binding_by_argument,
        entry1.2 = entry2.2 → entry1.1 = entry2.1) →
      (replace.map Prod.fst).Nodup →
      ProgramBindings.CopyWithReplacement w other replace frame_index = .ok state →
      ∀ access_type, ∀ entry ∈ state.1.m_transition_resource_states_by_access access_type,
        entry ∈ other.m_transition_resource_states_by_access access_type ∨
        ∃ binding_entry ∈ state.1.m_binding_by_argument,
          (state.2.bindings binding_entry.2).GetSettings.argument.GetAccessorIndex
            = access_type ∧
          ∃ view ∈ (state.2.bindings binding_entry.2).GetResourceViews,
            view.GetResourcePtr = entry.resource_ptr) := by
  refine ⟨?_, ?_, ?_⟩
  · intro w program frame_index t
    rw [(Construct_frame w program frame_index).1]
  · intro w program values frame_index state h_alloc h_keys h_objects h_values h t entry he
    obtain ⟨hinv, -⟩ := Construct_spec w program frame_index h_alloc h_keys
    rcases SetResourcesForArguments_entries _ _ _ _ (ConstructWithValues_ok _ _ _ _ _ h).1
      h_values (InitializedFrom_inj _ _ _ _ _ hinv h_alloc h_objects) t entry he with h1 | h1
    · rw [(Construct_frame w program frame_index).1] at h1
      cases h1
    · exact h1
  · intro w other replace frame_index state h_alloc h_keys h_objects h_replace h t entry he
    obtain ⟨hinv, -⟩ := Copy_spec w other frame_index h_alloc h_keys
    rcases SetResourcesForArguments_entries _ _ _ _ (CopyWithReplacement_ok _ _ _ _ _ h).1
      (ReplaceBindingValuesLoop_nodup _ _ _ h_replace)
      (InitializedFrom_inj _ _ _ _ _ hinv h_alloc h_objects) t entry he with h1 | h1
    · rw [(Copy_frame w other frame_index).1] at h1
      exact Or.inl h1
    · exact Or.inr h1

/-- Witness of C25 (amended): every bucket entry of the textured-cube bindings
constructed with the three values refers to a resource bound to an argument of the
accessor type of the bucket. -/
theorem bucket_entries_are_bound_witness :
    ErrorOf (ProgramBindings.ConstructWithValues Example.world 0 Example.cube_values 0) = none ∧
    (∀ state, ProgramBindings.ConstructWithValues Example.world 0 Example.cube_values 0
        = .ok state →
      ∀ access_type, ∀ entry ∈ state.1.m_transition_resource_states_by_access access_type,
        ∃ binding_entry ∈ state.1.m_binding_by_argument,
          (state.2.bindings binding_entry.2).GetSettings.argument.GetAccessorIndex
            = access_type ∧
          ∃ view ∈ (state.2.bindings binding_entry.2).GetResourceViews,
            view.GetResourcePtr = entry.resource_ptr) :=
  ⟨by decide, fun state h =>
    bucket_entries_are_bound.2.1 Example.world 0 Example.cube_values 0 state
      (by decide) (by decide) (by decide) (by decide) h⟩

/-- Counterexample to C25 as stated: the textured-cube bindings, whose mutable bucket
records the cube texture (address 0), are cloned with `g_texture` replaced by the
other texture (address 2).  The mutable bucket of the clone holds the entry of the
cube texture, taken over from the source, and the entry of the other texture, while
the arguments of the clone refer to the other texture and to the sampler only. -/
theorem CopyWithReplacement_keeps_replaced_entry :
    (ValueOf (ProgramBindings.CopyWithReplacement Example.cube_bindings.2
        Example.cube_bindings.1
        [(Example.g_texture, BindingValue.ResourceView (Example.view 2))] none)).map
      (fun state =>
        ((state.1.m_transition_resource_states_by_access
            ProgramArgumentAccessType.Mutable).map (fun entry => entry.resource_ptr),
          state.1.m_binding_by_argument.map (fun binding_entry =>
            (binding_entry.1, (state.2.bindings binding_entry.2).GetResourceViews.map
              (fun resource_view => resource_view.GetResourcePtr)))))
      = some ([0, 2],
          [(Example.g_constants, []), (Example.g_texture, [2]), (Example.g_sampler, [1])]) := by
  decide

/-! ### The DirectX binding after a capacity error -/

theorem Except_error_of_ok_or_not_equal (x : Except CheckError Unit) (e : CheckError)
    (h1 : x = .ok () ∨ x = .error CheckError.ArgumentNotEqual) (h2 : x = .error e) :
    e = CheckError.ArgumentNotEqual := by
  rcases h1 with h | h
  · rw [h] at h2
    cases h2
  · rw [h] at h2
    injection h2 with h2
    exact h2.symm

theorem SetResourceViewSpan_unchanged (binding : DirectXArgumentBinding)
    (descriptors : DescriptorHeapContent) (resource_views : ResourceViews)
    (h : (binding.base.SetResourceViewSpan resource_views).1 = false) :
    binding.SetResourceViewSpan descriptors resource_views = (.ok false, binding, descriptors) := by
  unfold DirectXArgumentBinding.SetResourceViewSpan
  dsimp only
  rw [h]
  rfl

theorem SetResourceViewSpan_over_capacity (binding : DirectXArgumentBinding)
    (descriptors : DescriptorHeapContent) (resource_views : ResourceViews)
    (h : (binding.base.SetResourceViewSpan resource_views).1 = true)
    (hcap : binding.m_settings_dx.type = ProgramArgumentBindingType.DescriptorTable ∧
      ¬ (resource_views.length < (binding.m_descriptor_range.count + 1) % 2 ^ 32)) :
    binding.SetResourceViewSpan descriptors resource_views
      = (.error (CheckError.ArgumentOutOfRange resource_views.length
            ((binding.m_descriptor_range.count + 1) % 2 ^ 32)),
          { binding with base := (binding.base.SetResourceViewSpan resource_views).2 },
          descriptors) := by
  unfold DirectXArgumentBinding.SetResourceViewSpan
  dsimp only
  rw [h, if_pos hcap]
  rfl

theorem SetResourceViewSpan_reserved (binding : DirectXArgumentBinding)
    (descriptors : DescriptorHeapContent) (resource_views : ResourceViews)
    (reservation : DescriptorHeapReservation)
    (h_reservation : binding.m_descriptor_heap_reservation_ptr = some reservation)
    (h : (binding.base.SetResourceViewSpan resource_views).1 = true)
    (hcap : ¬ (binding.m_settings_dx.type = ProgramArgumentBindingType.DescriptorTable ∧
      ¬ (resource_views.length < (binding.m_descriptor_range.count + 1) % 2 ^ 32))) :
    ((binding.SetResourceViewSpan descriptors resource_views).1 = .ok true ↔
      (SetResourceViewSpanLoop binding
        (reservation.GetRangeStart binding.m_settings_dx.argument.GetAccessorIndex)
        (some reservation.heap) resource_views 0 [] descriptors).1 = .ok ()) ∧
    (binding.SetResourceViewSpan descriptors resource_views).2.2
      = (SetResourceViewSpanLoop binding
        (reservation.GetRangeStart binding.m_settings_dx.argument.GetAccessorIndex)
        (some reservation.heap) resource_views 0 [] descriptors).2.2 := by
  unfold DirectXArgumentBinding.SetResourceViewSpan
  dsimp only
  rw [h, if_neg hcap]
  simp only [Bool.not_true, Bool.false_eq_true, if_false, h_reservation, Option.map_some']
  split
  · rename_i e heq
    rw [heq]
    exact ⟨⟨fun h1 => (by cases h1), fun h1 => (by cases h1)⟩, rfl⟩
  · rename_i u heq
    rw [heq]
    exact ⟨⟨fun _ => rfl, fun _ => rfl⟩, rfl⟩

theorem SetResourceViewSpan_loop_error (binding : DirectXArgumentBinding)
    (descriptors : DescriptorHeapContent) (resource_views : ResourceViews)
    (h : (binding.base.SetResourceViewSpan resource_views).1 = true)
    (hcap : ¬ (binding.m_settings_dx.type = ProgramArgumentBindingType.DescriptorTable ∧
      ¬ (resource_views.length < (binding.m_descriptor_range.count + 1) % 2 ^ 32))) :
    (binding.SetResourceViewSpan descriptors resource_views).1 = .ok true ∨
    (binding.SetResourceViewSpan descriptors resource_views).1
      = .error CheckError.ArgumentNotEqual := by
  unfold DirectXArgumentBinding.SetResourceViewSpan
  dsimp only
  rw [h, if_neg hcap]
  simp only [Bool.not_true, Bool.false_eq_true, if_false]
  split
  · rename_i e heq
    have he := Except_error_of_ok_or_not_equal _ e
      (SetResourceViewSpanLoop_error _ _ _ _ _ _ _) heq
    subst he
    exact Or.inr rfl
  · exact Or.inl rfl

/-- Claim C26 (amended): when the DirectX `SetResourceViewSpan` raises the capacity
error, the binding is of DescriptorTable type, its DirectX views, its descriptor
range, its heap reservation and the descriptor heap are the same as before the call,
and its base binding is as the base `SetResourceViewSpan`, which reported a change,
left it. -/
theorem SetResourceViewSpan_capacity_error_state (binding : DirectXArgumentBinding)
    (descriptors : DescriptorHeapContent) (resource_views : ResourceViews)
    (value upper_limit : Nat)
    (h : (binding.SetResourceViewSpan descriptors resource_views).1
      = .error (CheckError.ArgumentOutOfRange value upper_limit)) :
    binding.m_settings_dx.type = ProgramArgumentBindingType.DescriptorTable ∧
    (binding.base.SetResourceViewSpan resource_views).1 = true ∧
    (binding.SetResourceViewSpan descriptors resource_views).2.1
      = { binding with base := (binding.base.SetResourceViewSpan resource_views).2 } ∧
    (binding.SetResourceViewSpan descriptors resource_views).2.1.m_resource_views_dx
      = binding.m_resource_views_dx ∧
    (binding.SetResourceViewSpan descriptors resource_views).2.2 = descriptors := by
  cases hch : (binding.base.SetResourceViewSpan resource_views).1 with
  | false =>
    rw [SetResourceViewSpan_unchanged _ _ _ hch] at h
    cases h
  | true =>
    by_cases hcap : binding.m_settings_dx.type = ProgramArgumentBindingType.DescriptorTable ∧
        ¬ (resource_views.length < (binding.m_descriptor_range.count + 1) % 2 ^ 32)
    · rw [SetResourceViewSpan_over_capacity _ _ _ hch hcap]
      exact ⟨hcap.1, rfl, rfl, rfl, rfl⟩
    · rcases SetResourceViewSpan_loop_error binding descriptors resource_views hch hcap with
        h1 | h1
      · rw [h1] at h
        cases h
      · rw [h1] at h
        cases h

/-- Witness of C26 (amended): three views for the example table binding, whose range
holds two descriptors, raise the capacity error and leave its DirectX views
empty. -/
theorem SetResourceViewSpan_capacity_error_state_witness :
    CheckErrorOf (Example.table_binding.SetResourceViewSpan (fun _ => none)
      [Example.view 0, Example.view 2, Example.view 4]).1
      = some (CheckError.ArgumentOutOfRange 3 3) ∧
    (Example.table_binding.SetResourceViewSpan (fun _ => none)
      [Example.view 0, Example.view 2, Example.view 4]).2.1.m_resource_views_dx = [] :=
  ⟨by decide,
    (SetResourceViewSpan_capacity_error_state Example.table_binding (fun _ => none)
      [Example.view 0, Example.view 2, Example.view 4] 3 3 (by rfl)).2.2.2.1⟩

/-- Counterexample to C26 as stated: the example table binding holds no view; three
views, one more than its descriptor range, raise the capacity error, and afterwards
the base binding holds the three views. -/
theorem SetResourceViewSpan_not_atomic :
    Example.table_binding.base.GetResourceViews = [] ∧
    CheckErrorOf (Example.table_binding.SetResourceViewSpan (fun _ => none)
      [Example.view 0, Example.view 2, Example.view 4]).1
      = some (CheckError.ArgumentOutOfRange 3 3) ∧
    (Example.table_binding.SetResourceViewSpan (fun _ => none)
      [Example.view 0, Example.view 2, Example.view 4]).2.1.base.GetResourceViews
      = [Example.view 0, Example.view 2, Example.view 4] := by
  decide

/-! ### Descriptor indices written by the DirectX binding -/

theorem SetResourceViewSpanLoop_writes (binding : DirectXArgumentBinding) (start : Nat)
    (heap : DescriptorHeap) (views : ResourceViews) (resource_index : Nat)
    (views_dx : List DirectXResourceView) (descriptors : DescriptorHeapContent)
    (hok : (SetResourceViewSpanLoop binding start (some heap) views resource_index views_dx
      descriptors).1 = .ok ())
    (hfit : start + binding.m_descriptor_range.offset + resource_index + views.length < 2 ^ 32) :
    (∀ i view, views[i]? = some view →
      (SetResourceViewSpanLoop binding start (some heap) views resource_index views_dx
        descriptors).2.2 (start + binding.m_descriptor_range.offset + resource_index + i)
        = some { view := view, shader_usage := binding.m_shader_usage }) ∧
    (∀ index, (index < start + binding.m_descriptor_range.offset + resource_index ∨
        start + binding.m_descriptor_range.offset + resource_index + views.length ≤ index) →
      (SetResourceViewSpanLoop binding start (some heap) views resource_index views_dx
        descriptors).2.2 index = descriptors index) := by
  induction views generalizing resource_index views_dx descriptors with
  | nil =>
    constructor
    · intro i view hi
      simp at hi
    · intro index _
      rfl
  | cons v rest ih =>
    unfold SetResourceViewSpanLoop at hok ⊢
    dsimp only at hok ⊢
    simp only [List.length_cons] at hfit
    split at hok
    · cases hok
    · rename_i hheap
      rw [if_neg hheap]
      have hindex : (start + binding.m_descriptor_range.offset + resource_index) % 2 ^ 32
          = start + binding.m_descriptor_range.offset + resource_index :=
        Nat.mod_eq_of_lt (by omega)
      have hnext : (resource_index + 1) % 2 ^ 32 = resource_index + 1 :=
        Nat.mod_eq_of_lt (by omega)
      rw [hindex, hnext] at hok ⊢
      obtain ⟨hwritten, hother⟩ := ih (resource_index + 1) _ _ hok (by omega)
      constructor
      · intro i view hi
        cases i with
        | zero =>
          simp only [List.getElem?_cons_zero, Option.some.injEq] at hi
          subst hi
          rw [Nat.add_zero, hother _ (Or.inl (by omega))]
          simp
        | succ j =>
          simp only [List.getElem?_cons_succ] at hi
          have := hwritten j view hi
          rw [show start + binding.m_descriptor_range.offset + resource_index + (j + 1)
            = start + binding.m_descriptor_range.offset + (resource_index + 1) + j by omega]
          exact this
      · intro index hindex2
        simp only [List.length_cons] at hindex2
        rw [hother index (by omega)]
        have hne : index ≠ start + binding.m_descriptor_range.offset + resource_index := by
          omega
        simp [hne]

/-- Claim C27 (amended): for a DirectX DescriptorTable binding with a heap reservation
whose reserved range ends below the 32-bit limit, a successful `SetResourceViewSpan`
that changed the views writes the descriptor of the i-th resource view at index
range_start + range.offset + i, in view order, writes nothing outside these indices,
and every written index is less than range_start + range.offset + range.count. -/
theorem SetResourceViewSpan_descriptor_indices (binding : DirectXArgumentBinding)
    (descriptors : DescriptorHeapContent) (resource_views : ResourceViews)
    (reservation : DescriptorHeapReservation)
    (h_table : binding.m_settings_dx.type = ProgramArgumentBindingType.DescriptorTable)
    (h_reservation : binding.m_descriptor_heap_reservation_ptr = some reservation)
    (h_fit : reservation.GetRangeStart binding.m_settings_dx.argument.GetAccessorIndex
      + binding.m_descriptor_range.offset + binding.m_descriptor_range.count < 2 ^ 32)
    (h_ok : (binding.SetResourceViewSpan descriptors resource_views).1 = .ok true) :
    resource_views.length ≤ binding.m_descriptor_range.count ∧
    (∀ i view, resource_views[i]? = some view →
      (binding.SetResourceViewSpan descriptors resource_views).2.2
          (reservation.GetRangeStart binding.m_settings_dx.argument.GetAccessorIndex
            + binding.m_descriptor_range.offset + i)
        = some { view := view, shader_usage := binding.m_shader_usage } ∧
      reservation.GetRangeStart binding.m_settings_dx.argument.GetAccessorIndex
          + binding.m_descriptor_range.offset + i
        < reservation.GetRangeStart binding.m_settings_dx.argument.GetAccessorIndex
          + binding.m_descriptor_range.offset + binding.m_descriptor_range.count) ∧
    (∀ index,
      (index < reservation.GetRangeStart binding.m_settings_dx.argument.GetAccessorIndex
          + binding.m_descriptor_range.offset ∨
        reservation.GetRangeStart binding.m_settings_dx.argument.GetAccessorIndex
          + binding.m_descriptor_range.offset + resource_views.length ≤ index) →
      (binding.SetResourceViewSpan descriptors resource_views).2.2 index
        = descriptors index) := by
  cases hch : (binding.base.SetResourceViewSpan resource_views).1 with
  | false =>
    rw [SetResourceViewSpan_unchanged _ _ _ hch] at h_ok
    injection h_ok with h_ok
    cases h_ok
  | true =>
    by_cases hcap : binding.m_settings_dx.type = ProgramArgumentBindingType.DescriptorTable ∧
        ¬ (resource_views.length < (binding.m_descriptor_range.count + 1) % 2 ^ 32)
    · rw [SetResourceViewSpan_over_capacity _ _ _ hch hcap] at h_ok
      cases h_ok
    · have hlen : resource_views.length ≤ binding.m_descriptor_range.count := by
        by_contra hgt
        apply hcap
        refine ⟨h_table, ?_⟩
        have hle : (binding.m_descriptor_range.count + 1) % 2 ^ 32
            ≤ binding.m_descriptor_range.count + 1 := Nat.mod_le _ _
        omega
      obtain ⟨hiff, hcontent⟩ := SetResourceViewSpan_reserved binding descriptors
        resource_views reservation h_reservation hch hcap
      obtain ⟨hwritten, hother⟩ := SetResourceViewSpanLoop_writes binding
        (reservation.GetRangeStart binding.m_settings_dx.argument.GetAccessorIndex)
        reservation.heap resource_views 0 [] descriptors (hiff.1 h_ok) (by omega)
      rw [hcontent]
      refine ⟨hlen, ?_, ?_⟩
      · intro i view hi
        have hilt : i < resource_views.length := by
          by_contra hge
          rw [List.getElem?_eq_none (by omega)] at hi
          cases hi
        exact ⟨by simpa using hwritten i view hi, by omega⟩
      · intro index hindex
        exact hother index (by simpa using hindex)

/-- Witness of C27 (amended): with the reserved ranges starting at index 10 and the
range offset 4, two views for the example table binding are written at the indices
14 and 15, below the end 16 of the range. -/
theorem SetResourceViewSpan_descriptor_indices_witness :
    CheckValueOf ((Example.reserved_table_binding 10).SetResourceViewSpan (fun _ => none)
      [Example.view 0, Example.view 2]).1 = some true ∧
    (((Example.reserved_table_binding 10).SetResourceViewSpan (fun _ => none)
        [Example.view 0, Example.view 2]).2.2 (10 + 4 + 1)
      = some { view := Example.view 2, shader_usage := [ResourceUsage.ShaderRead] } ∧
      10 + 4 + 1 < 10 + 4 + 2) :=
  ⟨by decide,
    (SetResourceViewSpan_descriptor_indices (Example.reserved_table_binding 10) (fun _ => none)
      [Example.view 0, Example.view 2]
      { heap := { type := DescriptorHeapType.ShaderResources, shader_visible := true }
        range_start := fun _ => 10 }
      rfl rfl (by decide) (by rfl)).2.1 1 (Example.view 2) rfl⟩

/-- Counterexample to C27 as stated: with the reserved ranges starting at index
4294967294 and the range offset 4, the 32-bit index of the first view wraps around:
the descriptor is written at index 2, which lies below the range, and nothing is
written at index 4294967294 + 4 + 0. -/
theorem SetResourceViewSpan_index_wraps :
    CheckValueOf ((Example.reserved_table_binding 4294967294).SetResourceViewSpan
      (fun _ => none) [Example.view 0]).1 = some true ∧
    ((Example.reserved_table_binding 4294967294).SetResourceViewSpan
        (fun _ => none) [Example.view 0]).2.2 2
      = some { view := Example.view 0, shader_usage := [ResourceUsage.ShaderRead] } ∧
    ((Example.reserved_table_binding 4294967294).SetResourceViewSpan
        (fun _ => none) [Example.view 0]).2.2 (4294967294 + 4 + 0) = none ∧
    ¬ (4294967294 + 4 ≤ 2) := by
  decide

/-! ### Acceptance of a descriptor range -/

/-- Claim C28 (amended): for a binding whose resource count is below the largest
32-bit value, `SetDescriptorRange` accepts a descriptor range if and only if its
heap type equals the expected heap type of the binding (Samplers when the resource
type of the argument is Sampler, ShaderResources otherwise) and its count does not
exceed the resource count of the binding; on acceptance the stored range equals the
given one, on rejection the binding is unchanged. -/
theorem SetDescriptorRange_accepts_iff (binding : DirectXArgumentBinding)
    (descriptor_range : DescriptorRange)
    (h_count : binding.m_settings_dx.resource_count + 1 < 2 ^ 32) :
    binding.GetDescriptorHeapType
      = (if binding.base.GetSettings.resource_type = ResourceType.Sampler
          then DescriptorHeapType.Samplers else DescriptorHeapType.ShaderResources) ∧
    ((binding.SetDescriptorRange descriptor_range).1 = .ok () ↔
      descriptor_range.heap_type = binding.GetDescriptorHeapType ∧
        descriptor_range.count ≤ binding.m_settings_dx.resource_count) ∧
    ((binding.SetDescriptorRange descriptor_range).1 = .ok () →
      (binding.SetDescriptorRange descriptor_range).2
        = { binding with m_descriptor_range := descriptor_range }) ∧
    ((binding.SetDescriptorRange descriptor_range).1 ≠ .ok () →
      (binding.SetDescriptorRange descriptor_range).2 = binding) := by
  have hmod : (binding.m_settings_dx.resource_count + 1) % 2 ^ 32
      = binding.m_settings_dx.resource_count + 1 := Nat.mod_eq_of_lt h_count
  refine ⟨rfl, ?_⟩
  unfold DirectXArgumentBinding.SetDescriptorRange
  dsimp only
  rw [hmod]
  by_cases hheap : descriptor_range.heap_type = binding.GetDescriptorHeapType
  · have hif : ¬ (descriptor_range.heap_type ≠ binding.GetDescriptorHeapType) :=
      fun hne => hne hheap
    rw [if_neg hif]
    by_cases hcount : descriptor_range.count < binding.m_settings_dx.resource_count + 1
    · have hif2 : ¬ ¬ (descriptor_range.count < binding.m_settings_dx.resource_count + 1) :=
        fun hn => hn hcount
      rw [if_neg hif2]
      exact ⟨⟨fun _ => ⟨hheap, by omega⟩, fun _ => rfl⟩, fun _ => rfl, fun h => absurd rfl h⟩
    · rw [if_pos hcount]
      exact ⟨⟨fun h => (by cases h), fun h => absurd (by omega) hcount⟩,
        fun h => (by cases h), fun _ => rfl⟩
  · rw [if_pos hheap]
    exact ⟨⟨fun h => (by cases h), fun h => absurd h.1 hheap⟩, fun h => (by cases h), fun _ => rfl⟩

/-- Witness of C28 (amended): the example table binding, for two textures, accepts a
range of two shader-resource descriptors. -/
theorem SetDescriptorRange_accepts_iff_witness :
    (Example.table_binding.SetDescriptorRange
      { heap_type := DescriptorHeapType.ShaderResources, offset := 0, count := 2 }).1
      = .ok () :=
  (SetDescriptorRange_accepts_iff Example.table_binding
    { heap_type := DescriptorHeapType.ShaderResources, offset := 0, count := 2 }
    (by decide)).2.1.2 ⟨by decide, by decide⟩

/-- Counterexample to C28 as stated: for the binding with the largest 32-bit resource
count, a range of one shader-resource descriptor, whose heap type is the expected one
and whose count does not exceed the resource count, is rejected with the limit 0. -/
theorem SetDescriptorRange_rejects_fitting_range :
    Example.largest_table_binding.GetDescriptorHeapType = DescriptorHeapType.ShaderResources ∧
    1 ≤ Example.largest_table_binding.m_settings_dx.resource_count ∧
    CheckErrorOf (Example.largest_table_binding.SetDescriptorRange
      { heap_type := DescriptorHeapType.ShaderResources, offset := 0, count := 1 }).1
      = some (CheckError.ArgumentOutOfRange 1 0) := by
  decide

/-! ### The cached matrices of the camera -/

section CameraTheorems

variable {F P V S M : Type}

theorem GetViewMatrix_spec (math : CameraMath F P V S M) (camera : Camera F P S M) :
    (camera.GetViewMatrix math).2.m_is_current_view_matrix_dirty = false ∧
    (camera.GetViewMatrix math).2.m_is_current_proj_matrix_dirty
      = camera.m_is_current_proj_matrix_dirty ∧
    (camera.GetViewMatrix math).2.m_current_view_matrix = (camera.GetViewMatrix math).1 ∧
    (camera.GetViewMatrix math).2.m_projection_settings = camera.m_projection_settings ∧
    (camera.GetViewMatrix math).2.m_projection = camera.m_projection ∧
    (camera.GetViewMatrix math).2.m_current_proj_matrix = camera.m_current_proj_matrix := by
  unfold Camera.GetViewMatrix
  cases hd : camera.m_is_current_view_matrix_dirty <;> simp [hd]

theorem GetProjMatrix_spec (math : CameraMath F P V S M) (camera : Camera F P S M)
    (projected : M × Camera F P S M) (h : camera.GetProjMatrix math = .ok projected) :
    projected.2.m_is_current_proj_matrix_dirty = false ∧
    projected.2.m_is_current_view_matrix_dirty = camera.m_is_current_view_matrix_dirty ∧
    projected.2.m_current_proj_matrix = projected.1 ∧
    projected.2.m_current_view_matrix = camera.m_current_view_matrix ∧
    projected.2.m_current_view_proj_matrix = camera.m_current_view_proj_matrix ∧
    projected.2.m_projection_settings = camera.m_projection_settings ∧
    projected.2.m_projection = camera.m_projection ∧
    (camera.m_is_current_proj_matrix_dirty = true → camera.CreateProjMatrix math = .ok projected.1) := by
  unfold Camera.GetProjMatrix at h
  cases hd : camera.m_is_current_proj_matrix_dirty with
  | false =>
    simp only [hd, Bool.not_false, if_true, Except.ok.injEq] at h
    subst h
    exact ⟨hd, rfl, rfl, rfl, rfl, rfl, rfl, fun h => (by cases h)⟩
  | true =>
    simp only [hd, Bool.not_true, Bool.false_eq_true, if_false] at h
    split at h
    · cases h
    · rename_i created hcreated
      simp only [Except.ok.injEq] at h
      subst h
      exact ⟨rfl, rfl, rfl, rfl, rfl, rfl, rfl, fun _ => hcreated⟩

theorem GetViewProjMatrix_spec (math : CameraMath F P V S M) (camera : Camera F P S M)
    (first : M × Camera F P S M) (h : camera.GetViewProjMatrix math = .ok first) :
    first.2.m_is_current_view_matrix_dirty = false ∧
    first.2.m_is_current_proj_matrix_dirty = false ∧
    first.2.m_current_view_proj_matrix = first.1 := by
  unfold Camera.GetViewProjMatrix at h
  split at h
  · rename_i hclean
    simp only [Except.ok.injEq] at h
    subst h
    simp only [Bool.and_eq_true, Bool.not_eq_true'] at hclean
    exact ⟨hclean.1, hclean.2, rfl⟩
  · dsimp only at h
    split at h
    · cases h
    · rename_i projected hprojected
      simp only [Except.ok.injEq] at h
      subst h
      obtain ⟨h1, h2, -⟩ := GetProjMatrix_spec math _ projected hprojected
      exact ⟨by rw [← (GetViewMatrix_spec math camera).1, ← h2], h1, rfl⟩

/-- The projection matrix that `GetProjMatrix` returns is the one that
`CreateProjMatrix` creates for the current settings, when the cache holds that
matrix whenever it is not dirty. -/
theorem GetProjMatrix_eq_CreateProjMatrix (math : CameraMath F P V S M)
    (camera : Camera F P S M) (projected : M × Camera F P S M)
    (hcache : camera.m_is_current_proj_matrix_dirty = false →
      camera.CreateProjMatrix math = .ok camera.m_current_proj_matrix)
    (h : camera.GetProjMatrix math = .ok projected) :
    camera.CreateProjMatrix math = .ok projected.1 ∧
    projected.2.CreateProjMatrix math = .ok projected.2.m_current_proj_matrix := by
  obtain ⟨-, -, h3, -, -, h6, h7, h8⟩ := GetProjMatrix_spec math camera projected h
  have hsame : projected.2.CreateProjMatrix math = camera.CreateProjMatrix math := by
    unfold Camera.CreateProjMatrix
    rw [h6, h7]
  have hcreate : camera.CreateProjMatrix math = .ok projected.1 := by
    cases hd : camera.m_is_current_proj_matrix_dirty with
    | true => exact h8 hd
    | false =>
      unfold Camera.GetProjMatrix at h
      simp only [hd, Bool.not_false, if_true, Except.ok.injEq] at h
      subst h
      exact hcache hd
  exact ⟨hcreate, by rw [hsame, h3, hcreate]⟩

/-- Claim C29, the divergence: after `GetViewProjMatrix` has filled the caches, a
`Resize` followed by `GetProjMatrix` leaves both dirty flags cleared, so the next
`GetViewProjMatrix` returns the matrix cached before the resize, not the product of
the current view matrix and the projection matrix created for the new size, which
`GetProjMatrix` has just returned. -/
theorem GetViewProjMatrix_stale_after_GetProjMatrix (math : CameraMath F P V S M)
    (camera : Camera F P S M) (screen_size : FloatSize F) (first : M × Camera F P S M)
    (h_first : camera.GetViewProjMatrix math = .ok first) :
    ∃ projected, (first.2.Resize math screen_size).GetProjMatrix math = .ok projected ∧
      (first.2.Resize math screen_size).CreateProjMatrix math = .ok projected.1 ∧
      projected.2.CreateProjMatrix math = .ok projected.1 ∧
      (projected.2.GetViewMatrix math).1 = first.2.m_current_view_matrix ∧
      projected.2.GetViewProjMatrix math = .ok (first.1, projected.2) := by
  obtain ⟨hview, -, hcached⟩ := GetViewProjMatrix_spec math camera first h_first
  have hdirty : (first.2.Resize math screen_size).m_is_current_proj_matrix_dirty = true := rfl
  have hviewflag : (first.2.Resize math screen_size).m_is_current_view_matrix_dirty = false :=
    hview
  have hsome : ∃ created, (first.2.Resize math screen_size).CreateProjMatrix math
      = .ok created := by
    unfold Camera.CreateProjMatrix Camera.Resize Camera.UpdateProjectionSettings
    dsimp only
    cases first.2.m_projection <;> exact ⟨_, rfl⟩
  obtain ⟨created, hcreated⟩ := hsome
  have hget : (first.2.Resize math screen_size).GetProjMatrix math
      = .ok (created,
          { first.2.Resize math screen_size with
            m_current_proj_matrix := created
            m_is_current_proj_matrix_dirty := false }) := by
    unfold Camera.GetProjMatrix
    rw [hdirty, hcreated]
    rfl
  refine ⟨_, hget, hcreated, ?_, ?_, ?_⟩
  · rw [← hcreated]
    rfl
  · unfold Camera.GetViewMatrix
    dsimp only
    rw [hviewflag]
    rfl
  · unfold Camera.GetViewProjMatrix
    dsimp only
    rw [hviewflag]
    simp only [Bool.not_false, Bool.and_self, if_true]
    rw [← hcached]
    rfl

end CameraTheorems

/-- Witness of C29: the example camera for a screen of 800 by 600 returns its
view-projection matrix, is resized to 1024 by 768 and returns its projection matrix;
the next `GetViewProjMatrix` returns the matrix of the screen of 800 by 600, whereas
the product of the current view and projection matrices is that of the screen of
1024 by 768. -/
theorem GetViewProjMatrix_stale_after_GetProjMatrix_witness :
    (∃ projected,
      (Example.viewed_camera.2.Resize Example.list_math
          { width := 1024, height := 768 }).GetProjMatrix Example.list_math = .ok projected ∧
      (Example.viewed_camera.2.Resize Example.list_math
          { width := 1024, height := 768 }).CreateProjMatrix Example.list_math
        = .ok projected.1 ∧
      projected.2.CreateProjMatrix Example.list_math = .ok projected.1 ∧
      (projected.2.GetViewMatrix Example.list_math).1
        = Example.viewed_camera.2.m_current_view_matrix ∧
      projected.2.GetViewProjMatrix Example.list_math
        = .ok (Example.viewed_camera.1, projected.2)) ∧
    (CameraValueOf ((Example.viewed_camera.2.Resize Example.list_math
        { width := 1024, height := 768 }).GetProjMatrix Example.list_math)).bind
      (fun projected =>
        (CameraValueOf (projected.2.GetViewProjMatrix Example.list_math)).map
          (fun returned => (returned.1,
            Example.list_math.mul (projected.2.GetViewMatrix Example.list_math).1 projected.1)))
      = some ([0, 0, 5, 0, 0, 0, 0, 1, 0, 3, 1, 800, 600, 1, 100],
          [0, 0, 5, 0, 0, 0, 0, 1, 0, 3, 1, 1024, 768, 1, 100]) :=
  ⟨GetViewProjMatrix_stale_after_GetProjMatrix Example.list_math Example.screen_camera
      { width := 1024, height := 768 } Example.viewed_camera rfl,
    by decide⟩

/-! ### Heights of the heads-up display texts -/

/-- Claim C30: for unsigned 32-bit heights of the major and minor texts and of the
margin in dots, with 2 * minor + margin not overflowing, the height f of the FPS text
block is at least the margin, so the unsigned subtraction f - margin does not wrap,
the height t of a timing text row is at least the minor text height, and two timing
rows with one margin between them fit in the FPS block: 2 * t + margin ≤ f. -/
theorem text_heights_fit (major_text_height minor_text_height margin_height : Nat)
    (h_major : major_text_height < 2 ^ 32) (h_minor : minor_text_height < 2 ^ 32)
    (h_margin : margin_height < 2 ^ 32)
    (h_no_overflow : 2 * minor_text_height + margin_height < 2 ^ 32) :
    margin_height ≤ GetFpsTextHeightInDots major_text_height minor_text_height margin_height ∧
    GetFpsTextHeightInDots major_text_height minor_text_height margin_height < 2 ^ 32 ∧
    (GetFpsTextHeightInDots major_text_height minor_text_height margin_height + 2 ^ 32
        - margin_height) % 2 ^ 32
      = GetFpsTextHeightInDots major_text_height minor_text_height margin_height
        - margin_height ∧
    minor_text_height
      ≤ GetTimingTextHeightInDots major_text_height minor_text_height margin_height ∧
    2 * GetTimingTextHeightInDots major_text_height minor_text_height margin_height
        + margin_height
      ≤ GetFpsTextHeightInDots major_text_height minor_text_height margin_height := by
  have h1 : minor_text_height * 2 % 2 ^ 32 = minor_text_height * 2 :=
    Nat.mod_eq_of_lt (by omega)
  have h2 : (minor_text_height * 2 + margin_height) % 2 ^ 32
      = minor_text_height * 2 + margin_height := Nat.mod_eq_of_lt (by omega)
  have hf : GetFpsTextHeightInDots major_text_height minor_text_height margin_height
      = max major_text_height (minor_text_height * 2 + margin_height) := by
    unfold GetFpsTextHeightInDots
    rw [h1, h2]
  have hge : minor_text_height * 2 + margin_height
      ≤ GetFpsTextHeightInDots major_text_height minor_text_height margin_height := by
    rw [hf]
    exact Nat.le_max_right _ _
  have hlt : GetFpsTextHeightInDots major_text_height minor_text_height margin_height
      < 2 ^ 32 := by
    rw [hf]
    exact Nat.max_lt.2 ⟨h_major, by omega⟩
  have hsub : (GetFpsTextHeightInDots major_text_height minor_text_height margin_height + 2 ^ 32
      - margin_height) % 2 ^ 32
      = GetFpsTextHeightInDots major_text_height minor_text_height margin_height
        - margin_height := by
    have : GetFpsTextHeightInDots major_text_height minor_text_height margin_height + 2 ^ 32
        - margin_height
        = GetFpsTextHeightInDots major_text_height minor_text_height margin_height
          - margin_height + 2 ^ 32 := by omega
    rw [this, Nat.add_mod_right]
    exact Nat.mod_eq_of_lt (by omega)
  refine ⟨by omega, hlt, hsub, ?_, ?_⟩
  · unfold GetTimingTextHeightInDots
    rw [hsub]
    omega
  · unfold GetTimingTextHeightInDots
    rw [hsub]
    omega

/-- Witness of C30: a major text of 20 dots, a minor text of 9 dots and a margin of 4
dots give an FPS block of 22 dots and timing rows of 9 dots. -/
theorem text_heights_fit_witness :
    GetFpsTextHeightInDots 20 9 4 = 22 ∧ GetTimingTextHeightInDots 20 9 4 = 9 ∧
    (4 ≤ GetFpsTextHeightInDots 20 9 4 ∧
      GetFpsTextHeightInDots 20 9 4 < 2 ^ 32 ∧
      (GetFpsTextHeightInDots 20 9 4 + 2 ^ 32 - 4) % 2 ^ 32 = GetFpsTextHeightInDots 20 9 4 - 4 ∧
      9 ≤ GetTimingTextHeightInDots 20 9 4 ∧
      2 * GetTimingTextHeightInDots 20 9 4 + 4 ≤ GetFpsTextHeightInDots 20 9 4) :=
  ⟨by decide, by decide,
    text_heights_fit 20 9 4 (by decide) (by decide) (by decide) (by decide)⟩

end Methane
